import Mathlib

/-!
Verification development for the cjdic dictionary import pipeline.

The repository imports yomitan dictionary archives (zip files of JSON bank
files) into a normalized relational store, with two backends:

- remote backend: src/scripts/load-dict.js, writing to a hosted Postgres
  store through the supabase client, schema in
  src/supabase/migrations/20260218081750_yomitan_tables.sql;
- local backend: the sqlite importer script (second file embedded in
  src/scripts/yomitan-sqlite-select.js, functions createSchema, intern,
  countBanks, importDict), writing to an embedded sqlite database.

This file gives a shallow embedding of both import paths: JavaScript JSON
values become an inductive type, JSON.stringify and the sha1 content hash
are implemented directly, database tables become lists of rows with ids
allocated sequentially (modelling BIGSERIAL and sqlite rowids), and the
streaming import becomes explicit state passing.  Fallible steps return
Except.  Numbers are modelled as integers: every numeric payload in the
bank formats used by the claims is integral.
-/

set_option maxRecDepth 100000

namespace Cjdic

/-! ## JSON values -/

/-- Parsed JSON values, as produced by JSON.parse in either import script.
Numbers are modelled as integers (see the header note). -/
inductive Json where
  | null
  | bool (b : Bool)
  | num (n : Int)
  | str (s : String)
  | arr (elems : List Json)
  | obj (fields : List (String × Json))
deriving Repr

mutual

/-- Structural boolean equality on Json, used to derive decidable equality
for the nested inductive. -/
def Json.beq : Json → Json → Bool
  | .null, .null => true
  | .bool a, .bool b => a == b
  | .num a, .num b => a == b
  | .str a, .str b => a == b
  | .arr xs, .arr ys => Json.beqList xs ys
  | .obj xs, .obj ys => Json.beqFields xs ys
  | _, _ => false

def Json.beqList : List Json → List Json → Bool
  | [], [] => true
  | x :: xs, y :: ys => Json.beq x y && Json.beqList xs ys
  | _, _ => false

def Json.beqFields : List (String × Json) → List (String × Json) → Bool
  | [], [] => true
  | (k, v) :: xs, (k', v') :: ys => k == k' && Json.beq v v' && Json.beqFields xs ys
  | _, _ => false

end

mutual

theorem Json.beq_iff : ∀ (a b : Json), Json.beq a b = true ↔ a = b
  | .null, b => by cases b <;> simp [Json.beq]
  | .bool a, b => by cases b <;> simp [Json.beq]
  | .num a, b => by cases b <;> simp [Json.beq]
  | .str a, b => by cases b <;> simp [Json.beq]
  | .arr xs, b => by
      cases b <;> simp [Json.beq]
      exact Json.beqList_iff xs _
  | .obj xs, b => by
      cases b <;> simp [Json.beq]
      exact Json.beqFields_iff xs _

theorem Json.beqList_iff : ∀ (xs ys : List Json), Json.beqList xs ys = true ↔ xs = ys
  | [], ys => by cases ys <;> simp [Json.beqList]
  | x :: xs, ys => by
      cases ys with
      | nil => simp [Json.beqList]
      | cons y ys =>
          simp [Json.beqList, Bool.and_eq_true, Json.beq_iff x y,
            Json.beqList_iff xs ys]

theorem Json.beqFields_iff :
    ∀ (xs ys : List (String × Json)), Json.beqFields xs ys = true ↔ xs = ys
  | [], ys => by cases ys <;> simp [Json.beqFields]
  | (k, v) :: xs, ys => by
      cases ys with
      | nil => simp [Json.beqFields]
      | cons y ys =>
          obtain ⟨k', v'⟩ := y
          simp [Json.beqFields, Bool.and_eq_true, Json.beq_iff v v',
            Json.beqFields_iff xs ys, and_assoc]

end

instance : DecidableEq Json := fun a b =>
  decidable_of_iff (Json.beq a b = true) (Json.beq_iff a b)

/-! ## JSON.stringify

Faithful rendering of the JavaScript JSON.stringify call used by both importers
to serialize a glossary payload before hashing (load-dict.js
internGlossary, importDict term loop): no whitespace, object keys in
insertion order, standard string escaping. -/

def hexDigit (n : Nat) : Char :=
  if n < 10 then Char.ofNat (48 + n) else Char.ofNat (87 + n)

def jsonEscapeChar (c : Char) : String :=
  if c = '"' then "\\\""
  else if c = '\\' then "\\\\"
  else if c = '\x08' then "\\b"
  else if c = '\x09' then "\\t"
  else if c = '\x0a' then "\\n"
  else if c = '\x0c' then "\\f"
  else if c = '\x0d' then "\\r"
  else if c.toNat < 32 then
    "\\u00" ++ String.mk [hexDigit (c.toNat / 16), hexDigit (c.toNat % 16)]
  else String.singleton c

def jsonQuote (s : String) : String :=
  "\"" ++ String.join (s.toList.map jsonEscapeChar) ++ "\""

mutual

def Json.stringify : Json → String
  | .null => "null"
  | .bool true => "true"
  | .bool false => "false"
  | .num n => toString n
  | .str s => jsonQuote s
  | .arr xs => "[" ++ Json.stringifyList xs ++ "]"
  | .obj fs => "\x7b" ++ Json.stringifyFields fs ++ "\x7d"

def Json.stringifyList : List Json → String
  | [] => ""
  | [x] => Json.stringify x
  | x :: y :: xs => Json.stringify x ++ "," ++ Json.stringifyList (y :: xs)

def Json.stringifyFields : List (String × Json) → String
  | [] => ""
  | [(k, v)] => jsonQuote k ++ ":" ++ Json.stringify v
  | (k, v) :: y :: xs =>
      jsonQuote k ++ ":" ++ Json.stringify v ++ "," ++ Json.stringifyFields (y :: xs)

end

/-! ## SHA-1

Both importers hash the serialized glossary with sha1 (crypto in
load-dict.js, createHash in the sqlite importer) and use the digest as the
unique key of the glossaries table.  The digest is computed here exactly
(FIPS 180-1 over the UTF-8 bytes); the scripts render it as a hex string,
which is an injective image of the 160-bit value, so the model keys rows by
the digest as a natural number. -/

def w32 (n : Nat) : Nat := n % 4294967296

def rotl32 (b n : Nat) : Nat := w32 (n <<< b ||| n >>> (32 - b))

def utf8EncodeChar (c : Char) : List Nat :=
  let n := c.toNat
  if n < 128 then [n]
  else if n < 2048 then [192 ||| n >>> 6, 128 ||| (n &&& 63)]
  else if n < 65536 then
    [224 ||| n >>> 12, 128 ||| (n >>> 6 &&& 63), 128 ||| (n &&& 63)]
  else
    [240 ||| n >>> 18, 128 ||| (n >>> 12 &&& 63), 128 ||| (n >>> 6 &&& 63),
      128 ||| (n &&& 63)]

def utf8Bytes (s : String) : List Nat :=
  s.toList.foldr (fun c acc => utf8EncodeChar c ++ acc) []

def be64 (n : Nat) : List Nat :=
  [n >>> 56 &&& 255, n >>> 48 &&& 255, n >>> 40 &&& 255, n >>> 32 &&& 255,
    n >>> 24 &&& 255, n >>> 16 &&& 255, n >>> 8 &&& 255, n &&& 255]

def sha1Pad (msg : List Nat) : List Nat :=
  let len := msg.length
  let padZeros := (119 - len % 64) % 64
  msg ++ 128 :: List.replicate padZeros 0 ++ be64 (8 * len)

def chunks64Go : Nat → List Nat → List (List Nat)
  | 0, _ => []
  | _, [] => []
  | fuel + 1, x :: rest =>
      (x :: rest).take 64 :: chunks64Go fuel ((x :: rest).drop 64)

def chunks64 (l : List Nat) : List (List Nat) := chunks64Go l.length l

def beWords : List Nat → List Nat
  | b0 :: b1 :: b2 :: b3 :: rest =>
      (b0 <<< 24 ||| b1 <<< 16 ||| b2 <<< 8 ||| b3) :: beWords rest
  | _ => []

def sha1ExtendFrom (ws : List Nat) : Nat → List Nat
  | 0 => ws
  | fuel + 1 =>
      let n := ws.length
      let w := rotl32 1 (ws.getD (n - 3) 0 ^^^ ws.getD (n - 8) 0 ^^^
        ws.getD (n - 14) 0 ^^^ ws.getD (n - 16) 0)
      sha1ExtendFrom (ws ++ [w]) fuel

def sha1F (i b c d : Nat) : Nat :=
  if i < 20 then (b &&& c) ||| ((b ^^^ 4294967295) &&& d)
  else if i < 40 then b ^^^ c ^^^ d
  else if i < 60 then (b &&& c) ||| (b &&& d) ||| (c &&& d)
  else b ^^^ c ^^^ d

def sha1K (i : Nat) : Nat :=
  if i < 20 then 1518500249
  else if i < 40 then 1859775393
  else if i < 60 then 2400959708
  else 3395469782

def sha1Round (st : Nat × Nat × Nat × Nat × Nat) (iw : Nat × Nat) :
    Nat × Nat × Nat × Nat × Nat :=
  let (a, b, c, d, e) := st
  let temp := w32 (rotl32 5 a + sha1F iw.1 b c d + e + sha1K iw.1 + iw.2)
  (temp, a, rotl32 30 b, c, d)

def sha1Block (h : Nat × Nat × Nat × Nat × Nat) (block : List Nat) :
    Nat × Nat × Nat × Nat × Nat :=
  let ws := sha1ExtendFrom (beWords block) 64
  let (a, b, c, d, e) := ((List.range 80).zip ws).foldl sha1Round h
  (w32 (h.1 + a), w32 (h.2.1 + b), w32 (h.2.2.1 + c), w32 (h.2.2.2.1 + d),
    w32 (h.2.2.2.2 + e))

def sha1Words (s : String) : Nat × Nat × Nat × Nat × Nat :=
  (chunks64 (sha1Pad (utf8Bytes s))).foldl sha1Block
    (1732584193, 4023233417, 2562383102, 271733878, 3285377520)

/-- The sha1 digest of a string as a 160-bit natural number (see the section
comment for why the hex rendering used by the scripts is dropped). -/
def sha1Nat (s : String) : Nat :=
  let h := sha1Words s
  h.1 <<< 128 ||| h.2.1 <<< 96 ||| h.2.2.1 <<< 64 ||| h.2.2.2.1 <<< 32 ||| h.2.2.2.2

/-- Sanity anchor against the published test vector for sha1 of abc. -/
theorem sha1Nat_abc : sha1Nat "abc" = 0xa9993e364706816aba3e25717850c26c9cd0d89d := by
  decide

/-! ## JavaScript evaluation helpers

Both importers read bank records by array destructuring.  A destructured
field is an Option Json: none models the JavaScript undefined (field index
past the end of the record array); some v models a present JSON value.
Record arrays with extra elements simply ignore them, exactly as JavaScript
destructuring does. -/

/-- View a JSON value as the target of a for..of loop or array
destructuring: the JavaScript iterator protocol.  Arrays yield their
elements; strings are iterable too and yield their characters as
single-character strings; every other value (object, number, boolean,
null) makes JavaScript throw a TypeError. -/
def jsIter : Json → Option (List Json)
  | .arr xs => some xs
  | .str s => some (s.toList.map (fun ch => Json.str (String.mk [ch])))
  | _ => none

/-- The i-th destructured field of a record array: undefined (none) past
the end. -/
def jsField (xs : List Json) (i : Nat) : Option Json := xs.get? i

/-- Optional property access data?.reading as used for term-meta rows:
undefined unless the value is an object with the field. -/
def jsGetField (v : Option Json) (key : String) : Option Json :=
  match v with
  | some (.obj fs) => ((fs.find? (fun f => f.1 == key)).map (fun f => f.2))
  | _ => none

/-- The expression x ?? null: both undefined and null collapse to SQL null,
modelled as none. -/
def jsNullCoalesce : Option Json → Option Json
  | none => none
  | some .null => none
  | some v => some v

/-- Whitespace recognized by the JavaScript String trim (WhiteSpace and
LineTerminator code points). -/
def jsWhitespace (c : Char) : Bool :=
  let n := c.toNat
  n == 9 || n == 10 || n == 11 || n == 12 || n == 13 || n == 32 || n == 160 ||
  n == 5760 || (8192 ≤ n && n ≤ 8202) || n == 8232 || n == 8233 || n == 8239 ||
  n == 8287 || n == 12288 || n == 65279

def jsTrim (s : String) : String :=
  String.mk (((s.toList.dropWhile jsWhitespace).reverse.dropWhile jsWhitespace).reverse)

/-- The expression v?.trim() applied to a destructured field: undefined and
null short-circuit to undefined (none), a string is trimmed, and any other
value throws a TypeError because it has no trim method. -/
def jsTrimField : Option Json → Except String (Option String)
  | none => .ok none
  | some .null => .ok none
  | some (.str s) => .ok (some (jsTrim s))
  | some _ => .error "TypeError: value has no trim method"

/-! ## Relational model

One row type per table of the output schema (both backends expose the same
logical tables; the sqlite importer never touches kanji or kanji_meta, but
its schema defines them).  Fields that the importers copy verbatim from a
destructured record are Option Json: none is a field that was the
JavaScript undefined and is therefore absent from the insert payload.
Generated ids are allocated as length + 1, modelling both BIGSERIAL and
sqlite rowid allocation in an insert-only history. -/

structure DictRow where
  id : Nat
  title : String
  revision : String
  author : Option String
  url : Option String
  description : Option String
  isBundled : Bool
deriving DecidableEq, Repr

/-- Glossaries table: hash is the sha1 digest of the serialized payload
(its unique key); content is the stored payload, the JSON value on the
remote backend and its serialization text (held as a Json string value) on
the sqlite backend. -/
structure GlossaryRow where
  id : Nat
  hash : Nat
  content : Json
deriving DecidableEq, Repr

structure TermRow where
  dictId : Nat
  term : Option Json
  reading : Option Json
  defTagsId : Option Nat
  rulesId : Option Nat
  score : Option Json
  glossaryId : Nat
  sequence : Option Json
  termTagsId : Option Nat
deriving DecidableEq, Repr

structure TermMetaRow where
  dictId : Nat
  term : Option Json
  mode : Option Json
  reading : Option Json
  data : Option Json
deriving DecidableEq, Repr

structure TagRow where
  dictId : Nat
  name : Option Json
  category : Option Json
  sortOrder : Option Json
  notes : Option Json
  score : Option Json
deriving DecidableEq, Repr

structure KanjiRow where
  dictId : Nat
  character : Option Json
  onyomi : Option Json
  kunyomi : Option Json
  tags : Option Json
  meanings : Option Json
  stats : Option Json
deriving DecidableEq, Repr

structure KanjiMetaRow where
  dictId : Nat
  kanji : Option Json
  mode : Option Json
  data : Option Json
deriving DecidableEq, Repr

/-- The four content-interning tables (glossaries, def_tag_sets,
term_tag_sets, rule_sets).  The three string tables are id-value pairs with
a uniqueness constraint on the value. -/
structure InternTables where
  glossaries : List GlossaryRow
  defTagSets : List (Nat × String)
  termTagSets : List (Nat × String)
  ruleSets : List (Nat × String)
deriving DecidableEq, Repr

structure DB where
  dictionaries : List DictRow
  interned : InternTables
  terms : List TermRow
  termMeta : List TermMetaRow
  tags : List TagRow
  kanji : List KanjiRow
  kanjiMeta : List KanjiMetaRow
deriving DecidableEq, Repr

/-- Dictionary index metadata (index.json): required title and revision
plus the optional fields the importers read. -/
structure DictIndex where
  title : String
  revision : String
  author : Option String := none
  url : Option String := none
  description : Option String := none
deriving DecidableEq, Repr

/-- An opened archive: its parsed index.json plus the bank entries in zip
order.  An entry content of none models a payload that JSON.parse rejects. -/
structure Archive where
  index : DictIndex
  entries : List (String × Option Json)
deriving DecidableEq, Repr

/-- Existence check shared by both backends: does the store already hold a
dictionary with this title and revision (load-dict.js maybeSingle query, importDict
SELECT 1 guard). -/
def dictionaryExists (db : DB) (title revision : String) : Bool :=
  db.dictionaries.any (fun d => d.title == title && d.revision == revision)

/-! ## In-process caches

Each import run creates one Map per interned table (load-dict.js main, importDict).
 A JavaScript Map is modelled as an association list: get is
the first matching entry, and set appends (the importers only set a key
that was absent). -/

def mapGet [BEq α] (m : List (α × Nat)) (k : α) : Option Nat :=
  (m.find? (fun e => e.1 == k)).map (fun e => e.2)

structure Caches where
  glossary : List (Nat × Nat)
  defTags : List (String × Nat)
  termTags : List (String × Nat)
  rules : List (String × Nat)
deriving DecidableEq, Repr

def Caches.empty : Caches := ⟨[], [], [], []⟩

/-! ## Remote interning (load-dict.js)

The network round-trips of the interning helpers are wrapped in withRetry
in the source; the model lets them succeed (the failure scenarios of the
claims are about the batch writes, and an exhausted intern retry aborts the import
exactly like an exhausted batch-write retry).  The supabase call
upsert with onConflict on the unique column followed by select id single
returns the id of the already-stored row on conflict and of the fresh row
otherwise. -/

/-- Upsert of a single value into a dedup table keyed by its value column,
returning the table and the id of the row holding the value. -/
def upsertValue (table : List (Nat × String)) (value : String) :
    List (Nat × String) × Nat :=
  match table.find? (fun r => r.2 == value) with
  | some r => (table, r.1)
  | none => (table ++ [(table.length + 1, value)], table.length + 1)

/-- Function intern of load-dict.js: cache lookup, then upsert, then cache
fill. -/
def intern (table : List (Nat × String)) (cache : List (String × Nat))
    (value : String) : List (Nat × String) × List (String × Nat) × Nat :=
  match mapGet cache value with
  | some hit => (table, cache, hit)
  | none =>
      let (table', id) := upsertValue table value
      (table', cache ++ [(value, id)], id)

/-- Upsert of a glossary payload keyed by its hash column. -/
def upsertGlossary (rows : List GlossaryRow) (hash : Nat) (content : Json) :
    List GlossaryRow × Nat :=
  match rows.find? (fun r => r.hash == hash) with
  | some r => (rows, r.id)
  | none => (rows ++ [⟨rows.length + 1, hash, content⟩], rows.length + 1)

/-- Function internGlossary of load-dict.js: serialize, hash, cache lookup,
upsert by hash, cache fill.  The stored content is the payload itself
(JSONB column). -/
def internGlossary (rows : List GlossaryRow) (cache : List (Nat × Nat))
    (content : Json) : List GlossaryRow × List (Nat × Nat) × Nat :=
  let json := content.stringify
  let hash := sha1Nat json
  match mapGet cache hash with
  | some hit => (rows, cache, hit)
  | none =>
      let (rows', id) := upsertGlossary rows hash content
      (rows', cache ++ [(hash, id)], id)

/-- Name test used to route zip entries to their bank processor.  The
library function String.startsWith does not reduce inside the kernel, so
the model uses the equivalent character-list test. -/
def strStartsWith (s pre : String) : Bool := pre.toList.isPrefixOf s.toList

/-! ## Remote batch writer (load-dict.js)

Batch inserts are network calls.  The model indexes them by a running
counter; a failure oracle fail says which calls fail even after their
bounded retries (or, for the one bare insert, on their single network
attempt).  A failed retried call throws, aborting the import with whatever
was committed before it; the source discards the result of the bare kanji
mid-stream insert, so its failure is silently ignored.  The supabase client
call is modelled as either persisting the batch or failing; the internals
of the client library are outside this repository. -/

def BATCH_SIZE : Nat := 500

def MAX_RETRIES : Nat := 3

def RETRY_DELAY_MS : Nat := 1000

inductive WriteKind where
  | retried
  | raw
deriving DecidableEq, Repr

/-- One observed batch-insert network call: target table, row count, and
whether the call site wraps it in withRetry. -/
structure BatchWrite where
  table : String
  size : Nat
  kind : WriteKind
deriving DecidableEq, Repr

structure RemoteState where
  db : DB
  nWrites : Nat
  trace : List BatchWrite
deriving DecidableEq, Repr

/-- A batch insert wrapped in withRetry: on oracle failure all attempts
fail and the rethrown error aborts the import. -/
def insertRetried (fail : Nat → Bool) (st : RemoteState) (table : String)
    (size : Nat) (apply : DB → DB) : Except RemoteState RemoteState :=
  let st' : RemoteState := ⟨st.db, st.nWrites + 1, st.trace ++ [⟨table, size, .retried⟩]⟩
  if fail st.nWrites then .error st'
  else .ok { st' with db := apply st.db }

/-- The bare batch insert of processKanjiStreaming (mid-stream flush,
load-dict.js line 429): not wrapped in withRetry, result discarded, so a
failure neither aborts nor retries. -/
def insertRaw (fail : Nat → Bool) (st : RemoteState) (table : String)
    (size : Nat) (apply : DB → DB) : RemoteState :=
  let st' : RemoteState := ⟨st.db, st.nWrites + 1, st.trace ++ [⟨table, size, .raw⟩]⟩
  if fail st.nWrites then st'
  else { st' with db := apply st.db }

def appendTerms (batch : List TermRow) (db : DB) : DB :=
  { db with terms := db.terms ++ batch }

def appendTermMeta (batch : List TermMetaRow) (db : DB) : DB :=
  { db with termMeta := db.termMeta ++ batch }

def appendTags (batch : List TagRow) (db : DB) : DB :=
  { db with tags := db.tags ++ batch }

def appendKanji (batch : List KanjiRow) (db : DB) : DB :=
  { db with kanji := db.kanji ++ batch }

def appendKanjiMeta (batch : List KanjiMetaRow) (db : DB) : DB :=
  { db with kanjiMeta := db.kanjiMeta ++ batch }

/-! ## Remote term processing (processTermsStreaming) -/

/-- The ternary value?.trim() ? intern(table, column, value.trim(), cache)
: null shared by the three tag-set columns: a blank field (undefined, null,
empty or whitespace-only, all falsy after the optional trim) interns
nothing and stores a null reference. -/
def internIfPresent (table : List (Nat × String)) (cache : List (String × Nat)) :
    Option String → List (Nat × String) × List (String × Nat) × Option Nat
  | none => (table, cache, none)
  | some t =>
      if t == "" then (table, cache, none)
      else
        let (tab, ca, id) := intern table cache t
        (tab, ca, some id)

/-- Body of the per-entry loop of processTermsStreaming: destructure the
record, intern the glossary, then the three tag-set fields in source
order, and build the row to push.  Throws (with the interning work done so
far already committed) on a non-iterable record, an undefined glossary (the
sha1 update call rejects undefined), or a tag field that is neither
absent, null nor a string. -/
def buildTermRow (dictId : Nat) (ix : InternTables) (c : Caches) (entry : Json) :
    (InternTables × Caches) × Except String TermRow :=
  match jsIter entry with
  | none => ((ix, c), .error "TypeError: record is not iterable")
  | some xs =>
    match jsField xs 5 with
    | none => ((ix, c), .error "TypeError: glossary is undefined")
    | some glossary =>
      let (gRows, gCache, glossaryId) := internGlossary ix.glossaries c.glossary glossary
      let ix1 := { ix with glossaries := gRows }
      let c1 := { c with glossary := gCache }
      match jsTrimField (jsField xs 2) with
      | .error e => ((ix1, c1), .error e)
      | .ok defTagsTrim =>
        let (dTab, dCache, defTagsId) := internIfPresent ix1.defTagSets c1.defTags defTagsTrim
        let ix2 := { ix1 with defTagSets := dTab }
        let c2 := { c1 with defTags := dCache }
        match jsTrimField (jsField xs 3) with
        | .error e => ((ix2, c2), .error e)
        | .ok rulesTrim =>
          let (rTab, rCache, rulesId) := internIfPresent ix2.ruleSets c2.rules rulesTrim
          let ix3 := { ix2 with ruleSets := rTab }
          let c3 := { c2 with rules := rCache }
          match jsTrimField (jsField xs 7) with
          | .error e => ((ix3, c3), .error e)
          | .ok termTagsTrim =>
            let (tTab, tCache, termTagsId) := internIfPresent ix3.termTagSets c3.termTags termTagsTrim
            let ix4 := { ix3 with termTagSets := tTab }
            let c4 := { c3 with termTags := tCache }
            ((ix4, c4), .ok
              { dictId := dictId, term := jsField xs 0, reading := jsField xs 1,
                defTagsId := defTagsId, rulesId := rulesId, score := jsField xs 4,
                glossaryId := glossaryId, sequence := jsNullCoalesce (jsField xs 6),
                termTagsId := termTagsId })

/-- Per-entry loop over one parsed term bank, with the shared accumulating
batch: push the row, flush through withRetry when the batch reaches
BATCH_SIZE. -/
def termsLoop (fail : Nat → Bool) (dictId : Nat) :
    List Json → RemoteState → Caches → List TermRow →
    Except RemoteState (RemoteState × Caches × List TermRow)
  | [], st, c, batch => .ok (st, c, batch)
  | e :: es, st, c, batch =>
      match buildTermRow dictId st.db.interned c e with
      | ((ix', _), .error _) => .error { st with db := { st.db with interned := ix' } }
      | ((ix', c'), .ok row) =>
          let st' : RemoteState := { st with db := { st.db with interned := ix' } }
          let batch' := batch ++ [row]
          if BATCH_SIZE ≤ batch'.length then
            match insertRetried fail st' "terms" batch'.length (appendTerms batch') with
            | .error stE => .error stE
            | .ok st'' => termsLoop fail dictId es st'' c' []
          else termsLoop fail dictId es st' c' batch'

/-- Stream pass of processTermsStreaming: every zip entry whose name starts
with term_bank_ is parsed (JSON.parse failure throws) and its records are
processed; the batch persists across files. -/
def termsFiles (fail : Nat → Bool) (dictId : Nat) :
    List (String × Option Json) → RemoteState → Caches → List TermRow →
    Except RemoteState (RemoteState × Caches × List TermRow)
  | [], st, c, batch => .ok (st, c, batch)
  | (name, content) :: files, st, c, batch =>
      if strStartsWith name "term_bank_" then
        match content with
        | none => .error st
        | some j =>
          match jsIter j with
          | none => .error st
          | some entries =>
            match termsLoop fail dictId entries st c batch with
            | .error stE => .error stE
            | .ok (st', c', batch') => termsFiles fail dictId files st' c' batch'
      else termsFiles fail dictId files st c batch

/-- Function processTermsStreaming of load-dict.js: stream pass plus the
final flush of the remaining partial batch. -/
def processTermsStreaming (fail : Nat → Bool) (dictId : Nat)
    (files : List (String × Option Json)) (st : RemoteState) (c : Caches) :
    Except RemoteState (RemoteState × Caches) :=
  match termsFiles fail dictId files st c [] with
  | .error stE => .error stE
  | .ok (st', c', batch) =>
      if 0 < batch.length then
        match insertRetried fail st' "terms" batch.length (appendTerms batch) with
        | .error stE => .error stE
        | .ok st'' => .ok (st'', c')
      else .ok (st', c')

/-! ## Remote term-meta, tag, kanji and kanji-meta processing -/

def buildTermMetaRow (dictId : Nat) (xs : List Json) : TermMetaRow :=
  { dictId := dictId, term := jsField xs 0, mode := jsField xs 1,
    reading := jsNullCoalesce (jsGetField (jsField xs 2) "reading"),
    data := jsField xs 2 }

def termMetaLoop (fail : Nat → Bool) (dictId : Nat) :
    List Json → RemoteState → List TermMetaRow →
    Except RemoteState (RemoteState × List TermMetaRow)
  | [], st, batch => .ok (st, batch)
  | e :: es, st, batch =>
      match jsIter e with
      | none => .error st
      | some xs =>
          let batch' := batch ++ [buildTermMetaRow dictId xs]
          if BATCH_SIZE ≤ batch'.length then
            match insertRetried fail st "term_meta" batch'.length (appendTermMeta batch') with
            | .error stE => .error stE
            | .ok st' => termMetaLoop fail dictId es st' []
          else termMetaLoop fail dictId es st batch'

def termMetaFiles (fail : Nat → Bool) (dictId : Nat) :
    List (String × Option Json) → RemoteState → List TermMetaRow →
    Except RemoteState (RemoteState × List TermMetaRow)
  | [], st, batch => .ok (st, batch)
  | (name, content) :: files, st, batch =>
      if strStartsWith name "term_meta_bank_" then
        match content with
        | none => .error st
        | some j =>
          match jsIter j with
          | none => .error st
          | some entries =>
            match termMetaLoop fail dictId entries st batch with
            | .error stE => .error stE
            | .ok (st', batch') => termMetaFiles fail dictId files st' batch'
      else termMetaFiles fail dictId files st batch

def processTermMetaStreaming (fail : Nat → Bool) (dictId : Nat)
    (files : List (String × Option Json)) (st : RemoteState) :
    Except RemoteState RemoteState :=
  match termMetaFiles fail dictId files st [] with
  | .error stE => .error stE
  | .ok (st', batch) =>
      if 0 < batch.length then
        match insertRetried fail st' "term_meta" batch.length (appendTermMeta batch) with
        | .error stE => .error stE
        | .ok st'' => .ok st''
      else .ok st'

def buildTagRow (dictId : Nat) (xs : List Json) : TagRow :=
  { dictId := dictId, name := jsField xs 0, category := jsField xs 1,
    sortOrder := jsField xs 2, notes := jsField xs 3, score := jsField xs 4 }

def tagsLoop (fail : Nat → Bool) (dictId : Nat) :
    List Json → RemoteState → List TagRow →
    Except RemoteState (RemoteState × List TagRow)
  | [], st, batch => .ok (st, batch)
  | e :: es, st, batch =>
      match jsIter e with
      | none => .error st
      | some xs =>
          let batch' := batch ++ [buildTagRow dictId xs]
          if BATCH_SIZE ≤ batch'.length then
            match insertRetried fail st "tags" batch'.length (appendTags batch') with
            | .error stE => .error stE
            | .ok st' => tagsLoop fail dictId es st' []
          else tagsLoop fail dictId es st batch'

def tagsFiles (fail : Nat → Bool) (dictId : Nat) :
    List (String × Option Json) → RemoteState → List TagRow →
    Except RemoteState (RemoteState × List TagRow)
  | [], st, batch => .ok (st, batch)
  | (name, content) :: files, st, batch =>
      if strStartsWith name "tag_bank_" then
        match content with
        | none => .error st
        | some j =>
          match jsIter j with
          | none => .error st
          | some entries =>
            match tagsLoop fail dictId entries st batch with
            | .error stE => .error stE
            | .ok (st', batch') => tagsFiles fail dictId files st' batch'
      else tagsFiles fail dictId files st batch

def processTagsStreaming (fail : Nat → Bool) (dictId : Nat)
    (files : List (String × Option Json)) (st : RemoteState) :
    Except RemoteState RemoteState :=
  match tagsFiles fail dictId files st [] with
  | .error stE => .error stE
  | .ok (st', batch) =>
      if 0 < batch.length then
        match insertRetried fail st' "tags" batch.length (appendTags batch) with
        | .error stE => .error stE
        | .ok st'' => .ok st''
      else .ok st'

def buildKanjiRow (dictId : Nat) (xs : List Json) : KanjiRow :=
  { dictId := dictId, character := jsField xs 0, onyomi := jsField xs 1,
    kunyomi := jsField xs 2, tags := jsField xs 3, meanings := jsField xs 4,
    stats := jsField xs 5 }

/-- Per-entry loop of processKanjiStreaming.  The mid-stream flush is the
one batch insert of load-dict.js that is not wrapped in withRetry and whose
result is discarded (line 429). -/
def kanjiLoop (fail : Nat → Bool) (dictId : Nat) :
    List Json → RemoteState → List KanjiRow →
    Except RemoteState (RemoteState × List KanjiRow)
  | [], st, batch => .ok (st, batch)
  | e :: es, st, batch =>
      match jsIter e with
      | none => .error st
      | some xs =>
          let batch' := batch ++ [buildKanjiRow dictId xs]
          if BATCH_SIZE ≤ batch'.length then
            let st' := insertRaw fail st "kanji" batch'.length (appendKanji batch')
            kanjiLoop fail dictId es st' []
          else kanjiLoop fail dictId es st batch'

def kanjiFiles (fail : Nat → Bool) (dictId : Nat) :
    List (String × Option Json) → RemoteState → List KanjiRow →
    Except RemoteState (RemoteState × List KanjiRow)
  | [], st, batch => .ok (st, batch)
  | (name, content) :: files, st, batch =>
      if strStartsWith name "kanji_bank_" then
        match content with
        | none => .error st
        | some j =>
          match jsIter j with
          | none => .error st
          | some entries =>
            match kanjiLoop fail dictId entries st batch with
            | .error stE => .error stE
            | .ok (st', batch') => kanjiFiles fail dictId files st' batch'
      else kanjiFiles fail dictId files st batch

def processKanjiStreaming (fail : Nat → Bool) (dictId : Nat)
    (files : List (String × Option Json)) (st : RemoteState) :
    Except RemoteState RemoteState :=
  match kanjiFiles fail dictId files st [] with
  | .error stE => .error stE
  | .ok (st', batch) =>
      if 0 < batch.length then
        match insertRetried fail st' "kanji" batch.length (appendKanji batch) with
        | .error stE => .error stE
        | .ok st'' => .ok st''
      else .ok st'

def buildKanjiMetaRow (dictId : Nat) (xs : List Json) : KanjiMetaRow :=
  { dictId := dictId, kanji := jsField xs 0, mode := jsField xs 1,
    data := jsField xs 2 }

def kanjiMetaLoop (fail : Nat → Bool) (dictId : Nat) :
    List Json → RemoteState → List KanjiMetaRow →
    Except RemoteState (RemoteState × List KanjiMetaRow)
  | [], st, batch => .ok (st, batch)
  | e :: es, st, batch =>
      match jsIter e with
      | none => .error st
      | some xs =>
          let batch' := batch ++ [buildKanjiMetaRow dictId xs]
          if BATCH_SIZE ≤ batch'.length then
            match insertRetried fail st "kanji_meta" batch'.length (appendKanjiMeta batch') with
            | .error stE => .error stE
            | .ok st' => kanjiMetaLoop fail dictId es st' []
          else kanjiMetaLoop fail dictId es st batch'

def kanjiMetaFiles (fail : Nat → Bool) (dictId : Nat) :
    List (String × Option Json) → RemoteState → List KanjiMetaRow →
    Except RemoteState (RemoteState × List KanjiMetaRow)
  | [], st, batch => .ok (st, batch)
  | (name, content) :: files, st, batch =>
      if strStartsWith name "kanji_meta_bank_" then
        match content with
        | none => .error st
        | some j =>
          match jsIter j with
          | none => .error st
          | some entries =>
            match kanjiMetaLoop fail dictId entries st batch with
            | .error stE => .error stE
            | .ok (st', batch') => kanjiMetaFiles fail dictId files st' batch'
      else kanjiMetaFiles fail dictId files st batch

def processKanjiMetaStreaming (fail : Nat → Bool) (dictId : Nat)
    (files : List (String × Option Json)) (st : RemoteState) :
    Except RemoteState RemoteState :=
  match kanjiMetaFiles fail dictId files st [] with
  | .error stE => .error stE
  | .ok (st', batch) =>
      if 0 < batch.length then
        match insertRetried fail st' "kanji_meta" batch.length (appendKanjiMeta batch) with
        | .error stE => .error stE
        | .ok st'' => .ok st''
      else .ok st'

/-! ## Remote main (load-dict.js top level) -/

/-- Final result of an import run.  skipped corresponds to the
already-installed early exit with code 0; aborted to a thrown error
terminating the process with a nonzero code. -/
inductive Outcome where
  | skipped
  | completed (dictId : Nat)
  | aborted
deriving DecidableEq, Repr

instance {ε α : Type} [DecidableEq ε] [DecidableEq α] : DecidableEq (Except ε α) := fun a b =>
  match a, b with
  | .ok x, .ok y => decidable_of_iff (x = y) (by simp)
  | .error x, .error y => decidable_of_iff (x = y) (by simp)
  | .ok _, .error _ => isFalse (by simp)
  | .error _, .ok _ => isFalse (by simp)

/-- The command-line test bundledFlag === "--bundled" of load-dict.js. -/
def parseBundledFlag (arg : Option String) : Bool := arg == some "--bundled"

/-- The five streaming processor calls of the load-dict.js top level, run
in source order on the registered dictionary.  A throw anywhere aborts the
run with the state as committed at that point. -/
def runProcessors (fail : Nat → Bool) (dictId : Nat)
    (files : List (String × Option Json)) (st1 : RemoteState) :
    Outcome × RemoteState :=
  match processTermsStreaming fail dictId files st1 Caches.empty with
  | .error stE => (.aborted, stE)
  | .ok (st2, _) =>
    match processTermMetaStreaming fail dictId files st2 with
    | .error stE => (.aborted, stE)
    | .ok st3 =>
      match processTagsStreaming fail dictId files st3 with
      | .error stE => (.aborted, stE)
      | .ok st4 =>
        match processKanjiStreaming fail dictId files st4 with
        | .error stE => (.aborted, stE)
        | .ok st5 =>
          match processKanjiMetaStreaming fail dictId files st5 with
          | .error stE => (.aborted, stE)
          | .ok st6 => (.completed dictId, st6)

/-- Top level of load-dict.js: read index.json, check for an existing
dictionary with the same title and revision (exit 0 if found, before any
bank is touched), register the dictionary row, create the per-run caches,
then run the five streaming processors.  The returned state is the store as
committed when the run ends, including the partial state of an aborted
run. -/
def mainRemote (a : Archive) (isBundled : Bool) (db : DB) (fail : Nat → Bool) :
    Outcome × RemoteState :=
  let st0 : RemoteState := ⟨db, 0, []⟩
  if dictionaryExists db a.index.title a.index.revision then (.skipped, st0)
  else
    let dictId := db.dictionaries.length + 1
    let dictRow : DictRow :=
      ⟨dictId, a.index.title, a.index.revision, a.index.author, a.index.url,
        a.index.description, isBundled⟩
    let st1 : RemoteState :=
      { st0 with db := { db with dictionaries := db.dictionaries ++ [dictRow] } }
    runProcessors fail dictId a.entries st1

/-! ## The retry helper (withRetry of load-dict.js)

The wrapped operation is modelled as a function from the attempt number
(1-based, as in the source loop) to an outcome.  The result is paired with
the list of backoff delays slept between attempts.  An error result of
none models the throw of the undefined lastError when MAX_RETRIES is zero
and the loop body never runs. -/

def withRetryGo (fn : Nat → Except ε α) (lastError : Option ε) (attempt : Nat) :
    Nat → Except (Option ε) α × List Nat
  | 0 => (.error lastError, [])
  | fuel + 1 =>
      match fn attempt with
      | .ok a => (.ok a, [])
      | .error e =>
          if attempt < MAX_RETRIES then
            let delay := RETRY_DELAY_MS * 2 ^ (attempt - 1)
            let (r, ds) := withRetryGo fn (some e) (attempt + 1) fuel
            (r, delay :: ds)
          else (.error (some e), [])

def withRetry (fn : Nat → Except ε α) : Except (Option ε) α × List Nat :=
  withRetryGo fn none 1 MAX_RETRIES

/-! ## Local backend (sqlite importer: functions intern, countBanks, importDict)


The sqlite store is synchronous; each bank is written inside one
transaction, so a thrown error mid-bank rolls that bank back and aborts
the import with the previously committed banks in place.  Values bound to
an insert statement must be numbers, strings or null (better-sqlite3
rejects undefined, booleans, arrays and objects), and the NOT NULL and
CHECK constraints of createSchema reject null in required columns and a
term-meta mode outside freq and pitch; violating rows throw, which the
models below surface as errors.  Server-side behavior of the remote
backend is, by contrast, not modelled: its batch payloads are taken as
accepted (the importer never inspects the insert responses). -/

/-- Name-addressed lookup in the zip (JSZip file method).  The outer
Option is presence of the entry; the inner Option is its parse result as
everywhere else. -/
def zipFile (a : Archive) (name : String) : Option (Option Json) :=
  (a.entries.find? (fun e => e.1 == name)).map (fun e => e.2)

def bankName (kind : String) (i : Nat) : String :=
  kind ++ "_" ++ toString i ++ ".json"

/-- Fuel-driven translation of the while loop of countBanks.  The source
loop terminates because the zip holds finitely many distinct names; fuel
one past the entry count suffices, since k consecutive hits need k
distinct bank names among the entries. -/
def countBanksGo (a : Archive) (kind : String) (i : Nat) : Nat → Nat
  | 0 => i - 1
  | fuel + 1 =>
      if (zipFile a (bankName kind i)).isSome then countBanksGo a kind (i + 1) fuel
      else i - 1

def countBanks (a : Archive) (kind : String) : Nat :=
  countBanksGo a kind 1 (a.entries.length + 1)

/-- Bindability of a value put in a required (NOT NULL) column: the bound
JavaScript value must be a number or a string. -/
def bindReq : Option Json → Bool
  | some (.num _) => true
  | some (.str _) => true
  | _ => false

/-- Bindability of an already null-coalesced value in a nullable column:
null (none), a number or a string. -/
def bindOpt : Option Json → Bool
  | none => true
  | some (.num _) => true
  | some (.str _) => true
  | _ => false

/-- Function intern of the sqlite importer: cache lookup, INSERT OR IGNORE
of the value, SELECT of its id by value, cache fill. -/
def localIntern (table : List (Nat × String)) (cache : List (String × Nat))
    (value : String) : List (Nat × String) × List (String × Nat) × Nat :=
  match mapGet cache value with
  | some hit => (table, cache, hit)
  | none =>
      let table' :=
        if table.any (fun r => r.2 == value) then table
        else table ++ [(table.length + 1, value)]
      let id := ((table'.find? (fun r => r.2 == value)).map (fun r => r.1)).getD 0
      (table', cache ++ [(value, id)], id)

/-- Glossary interning inlined in the importDict term loop: stringify,
hash, cache lookup, INSERT OR IGNORE by hash, SELECT id by hash.  The
sqlite content column stores the serialization text. -/
def localInternGlossary (rows : List GlossaryRow) (cache : List (Nat × Nat))
    (glossary : Json) : List GlossaryRow × List (Nat × Nat) × Nat :=
  let glossaryJson := glossary.stringify
  let hash := sha1Nat glossaryJson
  match mapGet cache hash with
  | some hit => (rows, cache, hit)
  | none =>
      let rows' :=
        if rows.any (fun r => r.hash == hash) then rows
        else rows ++ [⟨rows.length + 1, hash, .str glossaryJson⟩]
      let id := ((rows'.find? (fun r => r.hash == hash)).map (fun r => r.id)).getD 0
      (rows', cache ++ [(hash, id)], id)

/-- The same blank-maps-to-null ternary as on the remote backend, calling
the local intern. -/
def localInternIfPresent (table : List (Nat × String)) (cache : List (String × Nat)) :
    Option String → List (Nat × String) × List (String × Nat) × Option Nat
  | none => (table, cache, none)
  | some t =>
      if t == "" then (table, cache, none)
      else
        let (tab, ca, id) := localIntern table cache t
        (tab, ca, some id)

/-- Body of the importDict term loop: destructure, intern glossary and the
three tag-set fields in source order, then bind the row for insertTerm.
The terms columns term, reading and score are required; sequence is
coalesced with null. -/
def localBuildTermRow (dictId : Nat) (ix : InternTables) (c : Caches) (entry : Json) :
    (InternTables × Caches) × Except String TermRow :=
  match jsIter entry with
  | none => ((ix, c), .error "TypeError: record is not iterable")
  | some xs =>
    match jsField xs 5 with
    | none => ((ix, c), .error "TypeError: glossary is undefined")
    | some glossary =>
      let (gRows, gCache, glossaryId) := localInternGlossary ix.glossaries c.glossary glossary
      let ix1 := { ix with glossaries := gRows }
      let c1 := { c with glossary := gCache }
      match jsTrimField (jsField xs 2) with
      | .error e => ((ix1, c1), .error e)
      | .ok defTagsTrim =>
        let (dTab, dCache, defTagsId) := localInternIfPresent ix1.defTagSets c1.defTags defTagsTrim
        let ix2 := { ix1 with defTagSets := dTab }
        let c2 := { c1 with defTags := dCache }
        match jsTrimField (jsField xs 3) with
        | .error e => ((ix2, c2), .error e)
        | .ok rulesTrim =>
          let (rTab, rCache, rulesId) := localInternIfPresent ix2.ruleSets c2.rules rulesTrim
          let ix3 := { ix2 with ruleSets := rTab }
          let c3 := { c2 with rules := rCache }
          match jsTrimField (jsField xs 7) with
          | .error e => ((ix3, c3), .error e)
          | .ok termTagsTrim =>
            let (tTab, tCache, termTagsId) := localInternIfPresent ix3.termTagSets c3.termTags termTagsTrim
            let ix4 := { ix3 with termTagSets := tTab }
            let c4 := { c3 with termTags := tCache }
            let seq := jsNullCoalesce (jsField xs 6)
            if bindReq (jsField xs 0) && bindReq (jsField xs 1) &&
               bindReq (jsField xs 4) && bindOpt seq then
              ((ix4, c4), .ok
                { dictId := dictId, term := jsField xs 0, reading := jsField xs 1,
                  defTagsId := defTagsId, rulesId := rulesId, score := jsField xs 4,
                  glossaryId := glossaryId, sequence := seq,
                  termTagsId := termTagsId })
            else ((ix4, c4), .error "TypeError: unbindable insert value")

def localTermsBankGo (dictId : Nat) :
    List Json → InternTables → Caches → List TermRow →
    Except String (InternTables × Caches × List TermRow)
  | [], ix, c, rows => .ok (ix, c, rows)
  | e :: es, ix, c, rows =>
      match localBuildTermRow dictId ix c e with
      | (_, .error err) => .error err
      | ((ix', c'), .ok row) => localTermsBankGo dictId es ix' c' (rows ++ [row])

/-- One term bank processed inside its transaction (insertBank): on any
throw the transaction rolls back and the database keeps its pre-bank
state. -/
def localTermsBank (dictId : Nat) (entries : List Json) (db : DB) (c : Caches) :
    Except String (DB × Caches) :=
  match localTermsBankGo dictId entries db.interned c [] with
  | .error e => .error e
  | .ok (ix', c', rows) =>
      .ok ({ db with interned := ix', terms := db.terms ++ rows }, c')

def bankIndices (count : Nat) : List Nat :=
  (List.range count).map (fun i => i + 1)

/-- The for loop over term banks of importDict: each index is looked up
again (break when absent), parsed, and written in its own transaction.  An
error aborts the import with the committed banks kept. -/
def localTermBanksGo (dictId : Nat) (a : Archive) :
    List Nat → DB → Caches → Except (String × DB) (DB × Caches)
  | [], db, c => .ok (db, c)
  | i :: is, db, c =>
      match zipFile a (bankName "term_bank" i) with
      | none => .ok (db, c)
      | some none => .error ("SyntaxError: JSON.parse", db)
      | some (some j) =>
          match jsIter j with
          | none => .error ("TypeError: entries are not iterable", db)
          | some entries =>
              match localTermsBank dictId entries db c with
              | .error e => .error (e, db)
              | .ok (db', c') => localTermBanksGo dictId a is db' c'

def localTermBanks (dictId : Nat) (a : Archive) (db : DB) (c : Caches) :
    Except (String × DB) (DB × Caches) :=
  localTermBanksGo dictId a (bankIndices (countBanks a "term_bank")) db c

/-- Row binding for insertMeta: term and mode are required, mode must pass
the freq or pitch CHECK, the coalesced reading is nullable, and the data
payload must be defined so that its serialization can be bound.  The
sqlite data column stores the serialization text. -/
def localBuildTermMetaRow (dictId : Nat) (xs : List Json) : Except String TermMetaRow :=
  let mode := jsField xs 1
  let data := jsField xs 2
  let reading := jsNullCoalesce (jsGetField data "reading")
  let modeOk :=
    match mode with
    | some (.str s) => s == "freq" || s == "pitch"
    | _ => false
  if bindReq (jsField xs 0) && modeOk && bindOpt reading then
    match data with
    | none => .error "TypeError: unbindable insert value"
    | some d =>
        .ok { dictId := dictId, term := jsField xs 0, mode := mode,
              reading := reading, data := some (.str d.stringify) }
  else .error "TypeError: unbindable or constraint-violating value"

def localTermMetaBankGo (dictId : Nat) :
    List Json → List TermMetaRow → Except String (List TermMetaRow)
  | [], rows => .ok rows
  | e :: es, rows =>
      match jsIter e with
      | none => .error "TypeError: record is not iterable"
      | some xs =>
          match localBuildTermMetaRow dictId xs with
          | .error err => .error err
          | .ok row => localTermMetaBankGo dictId es (rows ++ [row])

def localTermMetaBanksGo (dictId : Nat) (a : Archive) :
    List Nat → DB → Except (String × DB) DB
  | [], db => .ok db
  | i :: is, db =>
      match zipFile a (bankName "term_meta_bank" i) with
      | none => .ok db
      | some none => .error ("SyntaxError: JSON.parse", db)
      | some (some j) =>
          match jsIter j with
          | none => .error ("TypeError: entries are not iterable", db)
          | some entries =>
              match localTermMetaBankGo dictId entries [] with
              | .error e => .error (e, db)
              | .ok rows => localTermMetaBanksGo dictId a is
                  { db with termMeta := db.termMeta ++ rows }

def localTermMetaBanks (dictId : Nat) (a : Archive) (db : DB) :
    Except (String × DB) DB :=
  localTermMetaBanksGo dictId a (bankIndices (countBanks a "term_meta_bank")) db

/-- Row binding for insertTag (category and notes coalesced with null,
name, sort order and score required). -/
def localBuildTagRow (dictId : Nat) (xs : List Json) : Except String TagRow :=
  let category := jsNullCoalesce (jsField xs 1)
  let notes := jsNullCoalesce (jsField xs 3)
  if bindReq (jsField xs 0) && bindOpt category && bindReq (jsField xs 2) &&
     bindOpt notes && bindReq (jsField xs 4) then
    .ok { dictId := dictId, name := jsField xs 0, category := category,
          sortOrder := jsField xs 2, notes := notes, score := jsField xs 4 }
  else .error "TypeError: unbindable or constraint-violating value"

/-- INSERT OR IGNORE against the UNIQUE (dict_id, name) key of the tags
table. -/
def localInsertTag (tags : List TagRow) (row : TagRow) : List TagRow :=
  if tags.any (fun t => t.dictId == row.dictId && t.name == row.name) then tags
  else tags ++ [row]

def localTagBankGo (dictId : Nat) :
    List Json → List TagRow → Except String (List TagRow)
  | [], tags => .ok tags
  | e :: es, tags =>
      match jsIter e with
      | none => .error "TypeError: record is not iterable"
      | some xs =>
          match localBuildTagRow dictId xs with
          | .error err => .error err
          | .ok row => localTagBankGo dictId es (localInsertTag tags row)

def localTagBanksGo (dictId : Nat) (a : Archive) :
    List Nat → DB → Except (String × DB) DB
  | [], db => .ok db
  | i :: is, db =>
      match zipFile a (bankName "tag_bank" i) with
      | none => .ok db
      | some none => .error ("SyntaxError: JSON.parse", db)
      | some (some j) =>
          match jsIter j with
          | none => .error ("TypeError: entries are not iterable", db)
          | some entries =>
              match localTagBankGo dictId entries db.tags with
              | .error e => .error (e, db)
              | .ok tags' => localTagBanksGo dictId a is { db with tags := tags' }

def localTagBanks (dictId : Nat) (a : Archive) (db : DB) :
    Except (String × DB) DB :=
  localTagBanksGo dictId a (bankIndices (countBanks a "tag_bank")) db

/-- Function importDict of the sqlite importer: existence check (return
without touching the store if the dictionary is installed), register the
dictionary with is_bundled hardcoded to 1 in insertDict, then term banks,
term-meta banks and tag banks.  Kanji and kanji-meta banks are never read: importDict
has no loop for them.  The returned database is the committed
state, also for an aborted run. -/
def localImportDict (a : Archive) (db : DB) : DB × Except String Outcome :=
  if dictionaryExists db a.index.title a.index.revision then (db, .ok .skipped)
  else
    let dictId := db.dictionaries.length + 1
    let dictRow : DictRow :=
      ⟨dictId, a.index.title, a.index.revision, a.index.author, a.index.url,
        a.index.description, true⟩
    let db1 := { db with dictionaries := db.dictionaries ++ [dictRow] }
    match localTermBanks dictId a db1 Caches.empty with
    | .error (e, dbE) => (dbE, .error e)
    | .ok (db2, _) =>
        match localTermMetaBanks dictId a db2 with
        | .error (e, dbE) => (dbE, .error e)
        | .ok db3 =>
            match localTagBanks dictId a db3 with
            | .error (e, dbE) => (dbE, .error e)
            | .ok db4 => (db4, .ok (.completed dictId))

/-! ## Concrete sample data

Small archives and stores used to instantiate the claim theorems on
concrete inputs. -/

def emptyDB : DB := ⟨[], ⟨[], [], [], []⟩, [], [], [], [], []⟩

def noFail : Nat → Bool := fun _ => false

def allFail : Nat → Bool := fun _ => true

def sampleGlossary : Json := .arr [.obj [("type", .str "text"), ("text", .str "cat")]]

/-- A well-formed term record shaped like the spec example: term, reading,
null definition tags, empty rules, score, glossary, sequence, term tags. -/
def sampleTermEntry : Json := .arr [.str "neko", .str "nekoyomi", .null, .str "",
  .str "100", sampleGlossary, .num 1, .str "n"]

def sampleArchive : Archive := ⟨⟨"Test", "1", none, none, none⟩,
  [("term_bank_1.json", some (.arr [sampleTermEntry]))]⟩

/-- The store after one successful remote import of the sample archive. -/
def sampleInstalledDB : DB := (mainRemote sampleArchive false emptyDB noFail).2.db

def kanjiEntry : Json := .arr [.str "kan", .str "on", .str "kun", .str "tg",
  .arr [.str "meaning"], .obj [("strokes", .num 4)]]

def kanjiMetaEntry : Json := .arr [.str "kan", .str "freq", .num 42]

/-- An archive holding one kanji bank and one kanji-meta bank with one
record each. -/
def kanjiArchive : Archive := ⟨⟨"KTest", "1", none, none, none⟩,
  [("kanji_bank_1.json", some (.arr [kanjiEntry])),
   ("kanji_meta_bank_1.json", some (.arr [kanjiMetaEntry]))]⟩

/-! ## Bank decoding predicates and counts -/

def isArr : Json → Bool
  | .arr _ => true
  | _ => false

/-- Fields accepted by the optional-chaining trim: absent, null, or a
string.  Any other value makes the source throw. -/
def trimmableField : Option Json → Bool
  | none => true
  | some .null => true
  | some (.str _) => true
  | _ => false

/-- A term record the remote importer processes without throwing: an array
with a defined glossary field and trimmable tag fields. -/
def termEntryWF : Json → Bool
  | .arr xs => (jsField xs 5).isSome && trimmableField (jsField xs 2) &&
      trimmableField (jsField xs 3) && trimmableField (jsField xs 7)
  | _ => false

/-- A term record the sqlite importer inserts without throwing: remote
processability plus bindable values for the required columns. -/
def localTermEntryWF : Json → Bool
  | .arr xs => (jsField xs 5).isSome && trimmableField (jsField xs 2) &&
      trimmableField (jsField xs 3) && trimmableField (jsField xs 7) &&
      bindReq (jsField xs 0) && bindReq (jsField xs 1) && bindReq (jsField xs 4) &&
      bindOpt (jsNullCoalesce (jsField xs 6))
  | _ => false

/-- A parsed bank payload: an array whose records all satisfy p. -/
def bankWF (p : Json → Bool) : Option Json → Bool
  | some (.arr es) => es.all p
  | _ => false

/-- Every bank file with the given name prefix parses to an array of
records satisfying p. -/
def BanksWF (pre : String) (p : Json → Bool) (files : List (String × Option Json)) : Bool :=
  files.all (fun f => !(strStartsWith f.1 pre) || bankWF p f.2)

/-- Sum of the decoded array lengths across the bank files carrying the
given name prefix. -/
def sumBankLens (pre : String) : List (String × Option Json) → Nat
  | [] => 0
  | f :: files =>
      (if strStartsWith f.1 pre then
        match f.2 with
        | some (.arr es) => es.length
        | _ => 0
      else 0) + sumBankLens pre files

/-- The kanji rows decoded from one parsed bank: one row per record. -/
def decodeKanjiRows (dictId : Nat) (es : List Json) : List KanjiRow :=
  es.filterMap (fun e => (jsIter e).map (buildKanjiRow dictId))

/-- All kanji rows decoded from the archive, in stream order. -/
def kanjiRowsOfFiles (dictId : Nat) : List (String × Option Json) → List KanjiRow
  | [] => []
  | f :: files =>
      (if strStartsWith f.1 "kanji_bank_" then
        match f.2 with
        | some (.arr es) => decodeKanjiRows dictId es
        | _ => []
      else []) ++ kanjiRowsOfFiles dictId files

def decodeKanjiMetaRows (dictId : Nat) (es : List Json) : List KanjiMetaRow :=
  es.filterMap (fun e => (jsIter e).map (buildKanjiMetaRow dictId))

def kanjiMetaRowsOfFiles (dictId : Nat) : List (String × Option Json) → List KanjiMetaRow
  | [] => []
  | f :: files =>
      (if strStartsWith f.1 "kanji_meta_bank_" then
        match f.2 with
        | some (.arr es) => decodeKanjiMetaRows dictId es
        | _ => []
      else []) ++ kanjiMetaRowsOfFiles dictId files

/-- All numbered banks the sqlite importer will enumerate parse to arrays
of records satisfying p. -/
def localBanksWF (a : Archive) (kind : String) (p : Json → Bool) (k : Nat) : Bool :=
  (bankIndices k).all (fun i =>
    match zipFile a (bankName kind i) with
    | some (some (.arr es)) => es.all p
    | _ => false)

/-- Decoded length of one numbered bank of the sqlite importer. -/
def localBankLen (a : Archive) (kind : String) (i : Nat) : Nat :=
  match zipFile a (bankName kind i) with
  | some (some (.arr es)) => es.length
  | _ => 0

/-- Sum of the decoded bank lengths the sqlite importer enumerates. -/
def localBanksLen (a : Archive) (kind : String) (k : Nat) : Nat :=
  ((bankIndices k).map (localBankLen a kind)).sum

/-- An archive with one 501-record kanji bank: enough to trigger the
mid-stream kanji flush at BATCH_SIZE. -/
def kanji501Archive : Archive := ⟨⟨"K501", "1", none, none, none⟩,
  [("kanji_bank_1.json", some (.arr (List.replicate 501 kanjiEntry)))]⟩

/-! ## State extraction helpers

The committed state of a processor result, for the success and the abort
case alike: an aborted call carries the state as committed at the throw. -/

def exState {β : Type} : Except RemoteState (RemoteState × β) → RemoteState
  | .ok (st, _) => st
  | .error st => st

def exState0 : Except RemoteState RemoteState → RemoteState
  | .ok st => st
  | .error st => st

/-! ## Frame lemmas: each remote processor writes only its own tables -/

/-- Tables untouched by the term processor (it writes interned and terms). -/
def framesTerms (st st' : RemoteState) : Prop :=
  st'.db.dictionaries = st.db.dictionaries ∧ st'.db.termMeta = st.db.termMeta ∧
  st'.db.tags = st.db.tags ∧ st'.db.kanji = st.db.kanji ∧
  st'.db.kanjiMeta = st.db.kanjiMeta

theorem framesTerms_refl (st : RemoteState) : framesTerms st st :=
  ⟨rfl, rfl, rfl, rfl, rfl⟩

theorem framesTerms_trans {s1 s2 s3 : RemoteState}
    (h1 : framesTerms s1 s2) (h2 : framesTerms s2 s3) : framesTerms s1 s3 := by
  obtain ⟨a1, b1, c1, d1, e1⟩ := h1
  obtain ⟨a2, b2, c2, d2, e2⟩ := h2
  exact ⟨a2.trans a1, b2.trans b1, c2.trans c1, d2.trans d1, e2.trans e1⟩

theorem termsLoop_frame (fail : Nat → Bool) (dictId : Nat) (es : List Json) :
    ∀ (st : RemoteState) (c : Caches) (batch : List TermRow),
      framesTerms st (exState (termsLoop fail dictId es st c batch)) := by
  induction es with
  | nil => intro st c batch; exact framesTerms_refl st
  | cons e es ih =>
      intro st c batch
      simp only [termsLoop]
      split
      · simp [exState, framesTerms]
      · split
        · simp only [insertRetried]
          by_cases hf : fail st.nWrites = true
          · simp only [if_pos hf]
            simp [exState, framesTerms]
          · simp only [if_neg hf]
            exact framesTerms_trans (by simp [framesTerms, appendTerms]) (ih _ _ _)
        · exact framesTerms_trans (by simp [framesTerms]) (ih _ _ _)

theorem termsFiles_frame (fail : Nat → Bool) (dictId : Nat)
    (files : List (String × Option Json)) :
    ∀ (st : RemoteState) (c : Caches) (batch : List TermRow),
      framesTerms st (exState (termsFiles fail dictId files st c batch)) := by
  induction files with
  | nil => intro st c batch; exact framesTerms_refl st
  | cons f files ih =>
      intro st c batch
      obtain ⟨name, content⟩ := f
      simp only [termsFiles]
      split
      · split
        · simp [exState, framesTerms]
        · split
          · simp [exState, framesTerms]
          · rename_i entries heqArr
            split
            · rename_i stE heq
              have h := termsLoop_frame fail dictId entries st c batch
              rw [heq] at h
              simpa [exState] using h
            · rename_i st' c' batch' heq
              have h := termsLoop_frame fail dictId entries st c batch
              rw [heq] at h
              exact framesTerms_trans (by simpa [exState] using h) (ih _ _ _)
      · exact ih _ _ _

theorem processTermsStreaming_frame (fail : Nat → Bool) (dictId : Nat)
    (files : List (String × Option Json)) (st : RemoteState) (c : Caches) :
    framesTerms st (exState (processTermsStreaming fail dictId files st c)) := by
  simp only [processTermsStreaming]
  split
  · rename_i stE heq
    have h := termsFiles_frame fail dictId files st c []
    rw [heq] at h
    simpa [exState] using h
  · rename_i st' c' batch heq
    have h := termsFiles_frame fail dictId files st c []
    rw [heq] at h
    have h1 : framesTerms st st' := by simpa [exState] using h
    split
    · simp only [insertRetried]
      by_cases hf : fail st'.nWrites = true
      · simp only [if_pos hf]
        exact framesTerms_trans h1 (by simp [exState, framesTerms])
      · simp only [if_neg hf]
        exact framesTerms_trans h1 (by simp [exState, framesTerms, appendTerms])
    · simpa [exState] using h1

/-- Tables untouched by the term-meta processor. -/
def framesTermMeta (st st' : RemoteState) : Prop :=
  st'.db.dictionaries = st.db.dictionaries ∧ st'.db.interned = st.db.interned ∧
  st'.db.terms = st.db.terms ∧ st'.db.tags = st.db.tags ∧
  st'.db.kanji = st.db.kanji ∧ st'.db.kanjiMeta = st.db.kanjiMeta

theorem framesTermMeta_refl (st : RemoteState) : framesTermMeta st st :=
  ⟨rfl, rfl, rfl, rfl, rfl, rfl⟩

theorem framesTermMeta_trans {s1 s2 s3 : RemoteState}
    (h1 : framesTermMeta s1 s2) (h2 : framesTermMeta s2 s3) : framesTermMeta s1 s3 := by
  obtain ⟨a1, b1, c1, d1, e1, f1⟩ := h1
  obtain ⟨a2, b2, c2, d2, e2, f2⟩ := h2
  exact ⟨a2.trans a1, b2.trans b1, c2.trans c1, d2.trans d1, e2.trans e1, f2.trans f1⟩

theorem termMetaLoop_frame (fail : Nat → Bool) (dictId : Nat) (es : List Json) :
    ∀ (st : RemoteState) (batch : List TermMetaRow),
      framesTermMeta st (exState (termMetaLoop fail dictId es st batch)) := by
  induction es with
  | nil => intro st batch; exact framesTermMeta_refl st
  | cons e es ih =>
      intro st batch
      simp only [termMetaLoop]
      split
      · simp [exState, framesTermMeta]
      · split
        · simp only [insertRetried]
          by_cases hf : fail st.nWrites = true
          · simp only [if_pos hf]
            simp [exState, framesTermMeta]
          · simp only [if_neg hf]
            exact framesTermMeta_trans (by simp [framesTermMeta, appendTermMeta]) (ih _ _)
        · exact ih _ _

theorem termMetaFiles_frame (fail : Nat → Bool) (dictId : Nat)
    (files : List (String × Option Json)) :
    ∀ (st : RemoteState) (batch : List TermMetaRow),
      framesTermMeta st (exState (termMetaFiles fail dictId files st batch)) := by
  induction files with
  | nil => intro st batch; exact framesTermMeta_refl st
  | cons f files ih =>
      intro st batch
      obtain ⟨name, content⟩ := f
      simp only [termMetaFiles]
      split
      · split
        · simp [exState, framesTermMeta]
        · split
          · simp [exState, framesTermMeta]
          · rename_i entries heqArr
            split
            · rename_i stE heq
              have h := termMetaLoop_frame fail dictId entries st batch
              rw [heq] at h
              simpa [exState] using h
            · rename_i st' batch' heq
              have h := termMetaLoop_frame fail dictId entries st batch
              rw [heq] at h
              exact framesTermMeta_trans (by simpa [exState] using h) (ih _ _)
      · exact ih _ _

theorem processTermMetaStreaming_frame (fail : Nat → Bool) (dictId : Nat)
    (files : List (String × Option Json)) (st : RemoteState) :
    framesTermMeta st (exState0 (processTermMetaStreaming fail dictId files st)) := by
  simp only [processTermMetaStreaming]
  split
  · rename_i stE heq
    have h := termMetaFiles_frame fail dictId files st []
    rw [heq] at h
    simpa [exState, exState0] using h
  · rename_i st' batch heq
    have h := termMetaFiles_frame fail dictId files st []
    rw [heq] at h
    have h1 : framesTermMeta st st' := by simpa [exState] using h
    split
    · simp only [insertRetried]
      by_cases hf : fail st'.nWrites = true
      · simp only [if_pos hf]
        exact framesTermMeta_trans h1 (by simp [exState0, framesTermMeta])
      · simp only [if_neg hf]
        exact framesTermMeta_trans h1 (by simp [exState0, framesTermMeta, appendTermMeta])
    · simpa [exState0] using h1

/-- Tables untouched by the tag processor. -/
def framesTags (st st' : RemoteState) : Prop :=
  st'.db.dictionaries = st.db.dictionaries ∧ st'.db.interned = st.db.interned ∧
  st'.db.terms = st.db.terms ∧ st'.db.termMeta = st.db.termMeta ∧
  st'.db.kanji = st.db.kanji ∧ st'.db.kanjiMeta = st.db.kanjiMeta

theorem framesTags_refl (st : RemoteState) : framesTags st st :=
  ⟨rfl, rfl, rfl, rfl, rfl, rfl⟩

theorem framesTags_trans {s1 s2 s3 : RemoteState}
    (h1 : framesTags s1 s2) (h2 : framesTags s2 s3) : framesTags s1 s3 := by
  obtain ⟨a1, b1, c1, d1, e1, f1⟩ := h1
  obtain ⟨a2, b2, c2, d2, e2, f2⟩ := h2
  exact ⟨a2.trans a1, b2.trans b1, c2.trans c1, d2.trans d1, e2.trans e1, f2.trans f1⟩

theorem tagsLoop_frame (fail : Nat → Bool) (dictId : Nat) (es : List Json) :
    ∀ (st : RemoteState) (batch : List TagRow),
      framesTags st (exState (tagsLoop fail dictId es st batch)) := by
  induction es with
  | nil => intro st batch; exact framesTags_refl st
  | cons e es ih =>
      intro st batch
      simp only [tagsLoop]
      split
      · simp [exState, framesTags]
      · split
        · simp only [insertRetried]
          by_cases hf : fail st.nWrites = true
          · simp only [if_pos hf]
            simp [exState, framesTags]
          · simp only [if_neg hf]
            exact framesTags_trans (by simp [framesTags, appendTags]) (ih _ _)
        · exact ih _ _

theorem tagsFiles_frame (fail : Nat → Bool) (dictId : Nat)
    (files : List (String × Option Json)) :
    ∀ (st : RemoteState) (batch : List TagRow),
      framesTags st (exState (tagsFiles fail dictId files st batch)) := by
  induction files with
  | nil => intro st batch; exact framesTags_refl st
  | cons f files ih =>
      intro st batch
      obtain ⟨name, content⟩ := f
      simp only [tagsFiles]
      split
      · split
        · simp [exState, framesTags]
        · split
          · simp [exState, framesTags]
          · rename_i entries heqArr
            split
            · rename_i stE heq
              have h := tagsLoop_frame fail dictId entries st batch
              rw [heq] at h
              simpa [exState] using h
            · rename_i st' batch' heq
              have h := tagsLoop_frame fail dictId entries st batch
              rw [heq] at h
              exact framesTags_trans (by simpa [exState] using h) (ih _ _)
      · exact ih _ _

theorem processTagsStreaming_frame (fail : Nat → Bool) (dictId : Nat)
    (files : List (String × Option Json)) (st : RemoteState) :
    framesTags st (exState0 (processTagsStreaming fail dictId files st)) := by
  simp only [processTagsStreaming]
  split
  · rename_i stE heq
    have h := tagsFiles_frame fail dictId files st []
    rw [heq] at h
    simpa [exState, exState0] using h
  · rename_i st' batch heq
    have h := tagsFiles_frame fail dictId files st []
    rw [heq] at h
    have h1 : framesTags st st' := by simpa [exState] using h
    split
    · simp only [insertRetried]
      by_cases hf : fail st'.nWrites = true
      · simp only [if_pos hf]
        exact framesTags_trans h1 (by simp [exState0, framesTags])
      · simp only [if_neg hf]
        exact framesTags_trans h1 (by simp [exState0, framesTags, appendTags])
    · simpa [exState0] using h1

/-- Tables untouched by the kanji processor. -/
def framesKanji (st st' : RemoteState) : Prop :=
  st'.db.dictionaries = st.db.dictionaries ∧ st'.db.interned = st.db.interned ∧
  st'.db.terms = st.db.terms ∧ st'.db.termMeta = st.db.termMeta ∧
  st'.db.tags = st.db.tags ∧ st'.db.kanjiMeta = st.db.kanjiMeta

theorem framesKanji_refl (st : RemoteState) : framesKanji st st :=
  ⟨rfl, rfl, rfl, rfl, rfl, rfl⟩

theorem framesKanji_trans {s1 s2 s3 : RemoteState}
    (h1 : framesKanji s1 s2) (h2 : framesKanji s2 s3) : framesKanji s1 s3 := by
  obtain ⟨a1, b1, c1, d1, e1, f1⟩ := h1
  obtain ⟨a2, b2, c2, d2, e2, f2⟩ := h2
  exact ⟨a2.trans a1, b2.trans b1, c2.trans c1, d2.trans d1, e2.trans e1, f2.trans f1⟩

theorem kanjiLoop_frame (fail : Nat → Bool) (dictId : Nat) (es : List Json) :
    ∀ (st : RemoteState) (batch : List KanjiRow),
      framesKanji st (exState (kanjiLoop fail dictId es st batch)) := by
  induction es with
  | nil => intro st batch; exact framesKanji_refl st
  | cons e es ih =>
      intro st batch
      simp only [kanjiLoop]
      split
      · simp [exState, framesKanji]
      · split
        · simp only [insertRaw]
          by_cases hf : fail st.nWrites = true
          · simp only [if_pos hf]
            exact framesKanji_trans (by simp [framesKanji]) (ih _ _)
          · simp only [if_neg hf]
            exact framesKanji_trans (by simp [framesKanji, appendKanji]) (ih _ _)
        · exact ih _ _

theorem kanjiFiles_frame (fail : Nat → Bool) (dictId : Nat)
    (files : List (String × Option Json)) :
    ∀ (st : RemoteState) (batch : List KanjiRow),
      framesKanji st (exState (kanjiFiles fail dictId files st batch)) := by
  induction files with
  | nil => intro st batch; exact framesKanji_refl st
  | cons f files ih =>
      intro st batch
      obtain ⟨name, content⟩ := f
      simp only [kanjiFiles]
      split
      · split
        · simp [exState, framesKanji]
        · split
          · simp [exState, framesKanji]
          · rename_i entries heqArr
            split
            · rename_i stE heq
              have h := kanjiLoop_frame fail dictId entries st batch
              rw [heq] at h
              simpa [exState] using h
            · rename_i st' batch' heq
              have h := kanjiLoop_frame fail dictId entries st batch
              rw [heq] at h
              exact framesKanji_trans (by simpa [exState] using h) (ih _ _)
      · exact ih _ _

theorem processKanjiStreaming_frame (fail : Nat → Bool) (dictId : Nat)
    (files : List (String × Option Json)) (st : RemoteState) :
    framesKanji st (exState0 (processKanjiStreaming fail dictId files st)) := by
  simp only [processKanjiStreaming]
  split
  · rename_i stE heq
    have h := kanjiFiles_frame fail dictId files st []
    rw [heq] at h
    simpa [exState, exState0] using h
  · rename_i st' batch heq
    have h := kanjiFiles_frame fail dictId files st []
    rw [heq] at h
    have h1 : framesKanji st st' := by simpa [exState] using h
    split
    · simp only [insertRetried]
      by_cases hf : fail st'.nWrites = true
      · simp only [if_pos hf]
        exact framesKanji_trans h1 (by simp [exState0, framesKanji])
      · simp only [if_neg hf]
        exact framesKanji_trans h1 (by simp [exState0, framesKanji, appendKanji])
    · simpa [exState0] using h1

/-- Tables untouched by the kanji-meta processor. -/
def framesKanjiMeta (st st' : RemoteState) : Prop :=
  st'.db.dictionaries = st.db.dictionaries ∧ st'.db.interned = st.db.interned ∧
  st'.db.terms = st.db.terms ∧ st'.db.termMeta = st.db.termMeta ∧
  st'.db.tags = st.db.tags ∧ st'.db.kanji = st.db.kanji

theorem framesKanjiMeta_refl (st : RemoteState) : framesKanjiMeta st st :=
  ⟨rfl, rfl, rfl, rfl, rfl, rfl⟩

theorem framesKanjiMeta_trans {s1 s2 s3 : RemoteState}
    (h1 : framesKanjiMeta s1 s2) (h2 : framesKanjiMeta s2 s3) : framesKanjiMeta s1 s3 := by
  obtain ⟨a1, b1, c1, d1, e1, f1⟩ := h1
  obtain ⟨a2, b2, c2, d2, e2, f2⟩ := h2
  exact ⟨a2.trans a1, b2.trans b1, c2.trans c1, d2.trans d1, e2.trans e1, f2.trans f1⟩

theorem kanjiMetaLoop_frame (fail : Nat → Bool) (dictId : Nat) (es : List Json) :
    ∀ (st : RemoteState) (batch : List KanjiMetaRow),
      framesKanjiMeta st (exState (kanjiMetaLoop fail dictId es st batch)) := by
  induction es with
  | nil => intro st batch; exact framesKanjiMeta_refl st
  | cons e es ih =>
      intro st batch
      simp only [kanjiMetaLoop]
      split
      · simp [exState, framesKanjiMeta]
      · split
        · simp only [insertRetried]
          by_cases hf : fail st.nWrites = true
          · simp only [if_pos hf]
            simp [exState, framesKanjiMeta]
          · simp only [if_neg hf]
            exact framesKanjiMeta_trans (by simp [framesKanjiMeta, appendKanjiMeta]) (ih _ _)
        · exact ih _ _

theorem kanjiMetaFiles_frame (fail : Nat → Bool) (dictId : Nat)
    (files : List (String × Option Json)) :
    ∀ (st : RemoteState) (batch : List KanjiMetaRow),
      framesKanjiMeta st (exState (kanjiMetaFiles fail dictId files st batch)) := by
  induction files with
  | nil => intro st batch; exact framesKanjiMeta_refl st
  | cons f files ih =>
      intro st batch
      obtain ⟨name, content⟩ := f
      simp only [kanjiMetaFiles]
      split
      · split
        · simp [exState, framesKanjiMeta]
        · split
          · simp [exState, framesKanjiMeta]
          · rename_i entries heqArr
            split
            · rename_i stE heq
              have h := kanjiMetaLoop_frame fail dictId entries st batch
              rw [heq] at h
              simpa [exState] using h
            · rename_i st' batch' heq
              have h := kanjiMetaLoop_frame fail dictId entries st batch
              rw [heq] at h
              exact framesKanjiMeta_trans (by simpa [exState] using h) (ih _ _)
      · exact ih _ _

theorem processKanjiMetaStreaming_frame (fail : Nat → Bool) (dictId : Nat)
    (files : List (String × Option Json)) (st : RemoteState) :
    framesKanjiMeta st (exState0 (processKanjiMetaStreaming fail dictId files st)) := by
  simp only [processKanjiMetaStreaming]
  split
  · rename_i stE heq
    have h := kanjiMetaFiles_frame fail dictId files st []
    rw [heq] at h
    simpa [exState, exState0] using h
  · rename_i st' batch heq
    have h := kanjiMetaFiles_frame fail dictId files st []
    rw [heq] at h
    have h1 : framesKanjiMeta st st' := by simpa [exState] using h
    split
    · simp only [insertRetried]
      by_cases hf : fail st'.nWrites = true
      · simp only [if_pos hf]
        exact framesKanjiMeta_trans h1 (by simp [exState0, framesKanjiMeta])
      · simp only [if_neg hf]
        exact framesKanjiMeta_trans h1 (by simp [exState0, framesKanjiMeta, appendKanjiMeta])
    · simpa [exState0] using h1

/-- The dictionaries table is never written by any of the five streaming
processors: it changes only in the registration step before them. -/
theorem runProcessors_dicts (fail : Nat → Bool) (dictId : Nat)
    (files : List (String × Option Json)) (st : RemoteState) :
    (runProcessors fail dictId files st).2.db.dictionaries = st.db.dictionaries := by
  simp only [runProcessors]
  split
  · rename_i stE h1
    have h := (processTermsStreaming_frame fail dictId files st Caches.empty).1
    rw [h1] at h
    simpa [exState] using h
  · rename_i st2 c2 h1
    have e1 : st2.db.dictionaries = st.db.dictionaries := by
      have h := (processTermsStreaming_frame fail dictId files st Caches.empty).1
      rw [h1] at h
      simpa [exState] using h
    split
    · rename_i stE h2
      have h := (processTermMetaStreaming_frame fail dictId files st2).1
      rw [h2] at h
      simp only [exState0] at h
      exact h.trans e1
    · rename_i st3 h2
      have e2 : st3.db.dictionaries = st.db.dictionaries := by
        have h := (processTermMetaStreaming_frame fail dictId files st2).1
        rw [h2] at h
        simp only [exState0] at h
        exact h.trans e1
      split
      · rename_i stE h3
        have h := (processTagsStreaming_frame fail dictId files st3).1
        rw [h3] at h
        simp only [exState0] at h
        exact h.trans e2
      · rename_i st4 h3
        have e3 : st4.db.dictionaries = st.db.dictionaries := by
          have h := (processTagsStreaming_frame fail dictId files st3).1
          rw [h3] at h
          simp only [exState0] at h
          exact h.trans e2
        split
        · rename_i stE h4
          have h := (processKanjiStreaming_frame fail dictId files st4).1
          rw [h4] at h
          simp only [exState0] at h
          exact h.trans e3
        · rename_i st5 h4
          have e4 : st5.db.dictionaries = st.db.dictionaries := by
            have h := (processKanjiStreaming_frame fail dictId files st4).1
            rw [h4] at h
            simp only [exState0] at h
            exact h.trans e3
          split
          · rename_i stE h5
            have h := (processKanjiMetaStreaming_frame fail dictId files st5).1
            rw [h5] at h
            simp only [exState0] at h
            exact h.trans e4
          · rename_i st6 h5
            have h := (processKanjiMetaStreaming_frame fail dictId files st5).1
            rw [h5] at h
            simp only [exState0] at h
            exact h.trans e4

/-- On the fresh-import path the final dictionaries table is the initial
one plus exactly the one registered row, whatever else happens. -/
theorem mainRemote_fresh_dicts (a : Archive) (b : Bool) (db : DB) (fail : Nat → Bool)
    (h : dictionaryExists db a.index.title a.index.revision = false) :
    (mainRemote a b db fail).2.db.dictionaries =
      db.dictionaries ++ [⟨db.dictionaries.length + 1, a.index.title, a.index.revision,
        a.index.author, a.index.url, a.index.description, b⟩] := by
  simp only [mainRemote]
  rw [if_neg (by simp [h])]
  exact runProcessors_dicts fail _ a.entries _

/-! ## Local backend frame lemmas -/

def exDBc : Except (String × DB) (DB × Caches) → DB
  | .ok (db, _) => db
  | .error (_, db) => db

def exDB : Except (String × DB) DB → DB
  | .ok db => db
  | .error (_, db) => db

/-- Tables untouched by the local term-bank loop. -/
def localFramesTerms (db db' : DB) : Prop :=
  db'.dictionaries = db.dictionaries ∧ db'.termMeta = db.termMeta ∧
  db'.tags = db.tags ∧ db'.kanji = db.kanji ∧ db'.kanjiMeta = db.kanjiMeta

theorem localFramesTerms_trans {d1 d2 d3 : DB}
    (h1 : localFramesTerms d1 d2) (h2 : localFramesTerms d2 d3) : localFramesTerms d1 d3 := by
  obtain ⟨a1, b1, c1, e1, f1⟩ := h1
  obtain ⟨a2, b2, c2, e2, f2⟩ := h2
  exact ⟨a2.trans a1, b2.trans b1, c2.trans c1, e2.trans e1, f2.trans f1⟩

theorem localTermBanksGo_frame (dictId : Nat) (a : Archive) (is : List Nat) :
    ∀ (db : DB) (c : Caches),
      localFramesTerms db (exDBc (localTermBanksGo dictId a is db c)) := by
  induction is with
  | nil => intro db c; simp [localTermBanksGo, exDBc, localFramesTerms]
  | cons i is ih =>
      intro db c
      simp only [localTermBanksGo]
      split
      · simp [exDBc, localFramesTerms]
      · simp [exDBc, localFramesTerms]
      · split
        · simp [exDBc, localFramesTerms]
        · split
          · simp [exDBc, localFramesTerms]
          · rename_i db' c' heq
            simp only [localTermsBank] at heq
            split at heq
            · simp at heq
            · rename_i ix' cc rows heq2
              rw [Except.ok.injEq, Prod.mk.injEq] at heq
              obtain ⟨hdb, hc⟩ := heq
              refine localFramesTerms_trans ?_ (ih db' c')
              rw [← hdb]
              exact ⟨rfl, rfl, rfl, rfl, rfl⟩

/-- Tables untouched by the local term-meta-bank loop. -/
def localFramesTermMeta (db db' : DB) : Prop :=
  db'.dictionaries = db.dictionaries ∧ db'.interned = db.interned ∧
  db'.terms = db.terms ∧ db'.tags = db.tags ∧ db'.kanji = db.kanji ∧
  db'.kanjiMeta = db.kanjiMeta

theorem localFramesTermMeta_trans {d1 d2 d3 : DB}
    (h1 : localFramesTermMeta d1 d2) (h2 : localFramesTermMeta d2 d3) :
    localFramesTermMeta d1 d3 := by
  obtain ⟨a1, b1, c1, e1, f1, g1⟩ := h1
  obtain ⟨a2, b2, c2, e2, f2, g2⟩ := h2
  exact ⟨a2.trans a1, b2.trans b1, c2.trans c1, e2.trans e1, f2.trans f1, g2.trans g1⟩

theorem localTermMetaBanksGo_frame (dictId : Nat) (a : Archive) (is : List Nat) :
    ∀ (db : DB), localFramesTermMeta db (exDB (localTermMetaBanksGo dictId a is db)) := by
  induction is with
  | nil => intro db; simp [localTermMetaBanksGo, exDB, localFramesTermMeta]
  | cons i is ih =>
      intro db
      simp only [localTermMetaBanksGo]
      split
      · simp [exDB, localFramesTermMeta]
      · simp [exDB, localFramesTermMeta]
      · split
        · simp [exDB, localFramesTermMeta]
        · split
          · simp [exDB, localFramesTermMeta]
          · exact localFramesTermMeta_trans ⟨rfl, rfl, rfl, rfl, rfl, rfl⟩ (ih _)

/-- Tables untouched by the local tag-bank loop. -/
def localFramesTags (db db' : DB) : Prop :=
  db'.dictionaries = db.dictionaries ∧ db'.interned = db.interned ∧
  db'.terms = db.terms ∧ db'.termMeta = db.termMeta ∧ db'.kanji = db.kanji ∧
  db'.kanjiMeta = db.kanjiMeta

theorem localFramesTags_trans {d1 d2 d3 : DB}
    (h1 : localFramesTags d1 d2) (h2 : localFramesTags d2 d3) :
    localFramesTags d1 d3 := by
  obtain ⟨a1, b1, c1, e1, f1, g1⟩ := h1
  obtain ⟨a2, b2, c2, e2, f2, g2⟩ := h2
  exact ⟨a2.trans a1, b2.trans b1, c2.trans c1, e2.trans e1, f2.trans f1, g2.trans g1⟩

theorem localTagBanksGo_frame (dictId : Nat) (a : Archive) (is : List Nat) :
    ∀ (db : DB), localFramesTags db (exDB (localTagBanksGo dictId a is db)) := by
  induction is with
  | nil => intro db; simp [localTagBanksGo, exDB, localFramesTags]
  | cons i is ih =>
      intro db
      simp only [localTagBanksGo]
      split
      · simp [exDB, localFramesTags]
      · simp [exDB, localFramesTags]
      · split
        · simp [exDB, localFramesTags]
        · split
          · simp [exDB, localFramesTags]
          · exact localFramesTags_trans ⟨rfl, rfl, rfl, rfl, rfl, rfl⟩ (ih _)

theorem localTermBanks_frame (dictId : Nat) (a : Archive) (db : DB) (c : Caches) :
    localFramesTerms db (exDBc (localTermBanks dictId a db c)) :=
  localTermBanksGo_frame dictId a _ db c

theorem localTermMetaBanks_frame (dictId : Nat) (a : Archive) (db : DB) :
    localFramesTermMeta db (exDB (localTermMetaBanks dictId a db)) :=
  localTermMetaBanksGo_frame dictId a _ db

theorem localTagBanks_frame (dictId : Nat) (a : Archive) (db : DB) :
    localFramesTags db (exDB (localTagBanks dictId a db)) :=
  localTagBanksGo_frame dictId a _ db

/-- On the fresh-import path of the sqlite importer the final dictionaries
table is the initial one plus exactly the row inserted by insertDict (whose
is_bundled value is the literal 1), whatever else happens. -/
theorem localImportDict_fresh_dicts (a : Archive) (db : DB)
    (h : dictionaryExists db a.index.title a.index.revision = false) :
    (localImportDict a db).1.dictionaries =
      db.dictionaries ++ [⟨db.dictionaries.length + 1, a.index.title, a.index.revision,
        a.index.author, a.index.url, a.index.description, true⟩] := by
  simp only [localImportDict]
  rw [if_neg (by simp [h])]
  split
  · rename_i e dbE heq
    have hf := (localTermBanks_frame (db.dictionaries.length + 1) a
      { db with dictionaries := db.dictionaries ++
          [⟨db.dictionaries.length + 1, a.index.title, a.index.revision,
            a.index.author, a.index.url, a.index.description, true⟩] } Caches.empty).1
    rw [heq] at hf
    simpa [exDBc] using hf
  · rename_i db2 c2 heq
    have e1 : db2.dictionaries = db.dictionaries ++
        [⟨db.dictionaries.length + 1, a.index.title, a.index.revision,
          a.index.author, a.index.url, a.index.description, true⟩] := by
      have hf := (localTermBanks_frame (db.dictionaries.length + 1) a
      { db with dictionaries := db.dictionaries ++
          [⟨db.dictionaries.length + 1, a.index.title, a.index.revision,
            a.index.author, a.index.url, a.index.description, true⟩] } Caches.empty).1
      rw [heq] at hf
      simpa [exDBc] using hf
    split
    · rename_i e dbE heq2
      have hf := (localTermMetaBanks_frame (db.dictionaries.length + 1) a db2).1
      rw [heq2] at hf
      simp only [exDB] at hf
      exact hf.trans e1
    · rename_i db3 heq2
      have e2 : db3.dictionaries = db2.dictionaries := by
        have hf := (localTermMetaBanks_frame (db.dictionaries.length + 1) a db2).1
        rw [heq2] at hf
        simpa [exDB] using hf
      split
      · rename_i e dbE heq3
        have hf := (localTagBanks_frame (db.dictionaries.length + 1) a db3).1
        rw [heq3] at hf
        simp only [exDB] at hf
        exact (hf.trans e2).trans e1
      · rename_i db4 heq3
        have hf := (localTagBanks_frame (db.dictionaries.length + 1) a db3).1
        rw [heq3] at hf
        simp only [exDB] at hf
        exact (hf.trans e2).trans e1

/-! ## Idempotency guard lemmas -/

/-- The already-installed early exit of load-dict.js: nothing is read from
the banks, nothing is written, the process exits 0. -/
theorem mainRemote_skip (a : Archive) (b : Bool) (db : DB) (fail : Nat → Bool)
    (h : dictionaryExists db a.index.title a.index.revision = true) :
    mainRemote a b db fail = (.skipped, ⟨db, 0, []⟩) := by
  simp [mainRemote, h]

/-- The already-installed early return of importDict. -/
theorem localImportDict_skip (a : Archive) (db : DB)
    (h : dictionaryExists db a.index.title a.index.revision = true) :
    localImportDict a db = (db, .ok .skipped) := by
  simp [localImportDict, h]

theorem dictionaryExists_append_self (db : DB) (row : DictRow) (rest : List DictRow)
    (h1 : row.title = t) (h2 : row.revision = r) :
    dictionaryExists { db with dictionaries := rest ++ [row] } t r = true := by
  simp [dictionaryExists, List.any_append, h1, h2]

theorem countMatching_fresh (old : List DictRow) (row : DictRow) (t r : String)
    (h : old.any (fun d => d.title == t && d.revision == r) = false)
    (h1 : row.title = t) (h2 : row.revision = r) :
    ((old ++ [row]).filter (fun d => d.title == t && d.revision == r)).length = 1 := by
  rw [List.filter_append]
  have hnil : old.filter (fun d => d.title == t && d.revision == r) = [] := by
    rw [List.filter_eq_nil_iff]
    intro d hd
    have := (List.any_eq_false).mp h d hd
    simpa using this
  simp [hnil, List.filter_cons, h1, h2]

/-- C1: for every archive whose index.json (title, revision) pair already
has a Dictionary row in storage, the import is a complete no-op on both
backends: the existence check runs before any bank is processed (the no-op
holds for arbitrary archives, even ones whose banks would not parse), zero
rows are inserted into any table, and the process exits successfully;
consequently importing the same archive twice leaves exactly one
Dictionary row with that identity and no duplicate Term, Tag or Glossary
rows (the second run leaves the whole store unchanged). -/
theorem C1_duplicate_import_idempotent (a : Archive) (b b2 : Bool) (db : DB)
    (fail fail2 : Nat → Bool) :
    (dictionaryExists db a.index.title a.index.revision = true →
      mainRemote a b db fail = (.skipped, ⟨db, 0, []⟩) ∧
      localImportDict a db = (db, .ok .skipped)) ∧
    (dictionaryExists db a.index.title a.index.revision = false →
      (∀ d st', mainRemote a b db fail = (.completed d, st') →
        mainRemote a b2 st'.db fail2 = (.skipped, ⟨st'.db, 0, []⟩) ∧
        (st'.db.dictionaries.filter (fun r => r.title == a.index.title &&
          r.revision == a.index.revision)).length = 1) ∧
      (∀ d db', localImportDict a db = (db', .ok (.completed d)) →
        localImportDict a db' = (db', .ok .skipped) ∧
        (db'.dictionaries.filter (fun r => r.title == a.index.title &&
          r.revision == a.index.revision)).length = 1)) := by
  constructor
  · intro h
    exact ⟨mainRemote_skip a b db fail h, localImportDict_skip a db h⟩
  · intro h
    constructor
    · intro d st' heq
      have hd : st'.db.dictionaries = db.dictionaries ++
          [⟨db.dictionaries.length + 1, a.index.title, a.index.revision,
            a.index.author, a.index.url, a.index.description, b⟩] := by
        have := mainRemote_fresh_dicts a b db fail h
        rw [heq] at this
        exact this
      have hex : dictionaryExists st'.db a.index.title a.index.revision = true := by
        simp [dictionaryExists, hd, List.any_append]
      refine ⟨mainRemote_skip a b2 st'.db fail2 hex, ?_⟩
      rw [hd]
      exact countMatching_fresh db.dictionaries _ _ _ (by simpa [dictionaryExists] using h)
        rfl rfl
    · intro d db' heq
      have hd : db'.dictionaries = db.dictionaries ++
          [⟨db.dictionaries.length + 1, a.index.title, a.index.revision,
            a.index.author, a.index.url, a.index.description, true⟩] := by
        have := localImportDict_fresh_dicts a db h
        rw [heq] at this
        exact this
      have hex : dictionaryExists db' a.index.title a.index.revision = true := by
        simp [dictionaryExists, hd, List.any_append]
      refine ⟨localImportDict_skip a db' hex, ?_⟩
      rw [hd]
      exact countMatching_fresh db.dictionaries _ _ _ (by simpa [dictionaryExists] using h)
        rfl rfl

theorem C1_duplicate_import_idempotent_witness :
    mainRemote sampleArchive false sampleInstalledDB noFail =
      (.skipped, ⟨sampleInstalledDB, 0, []⟩) ∧
    localImportDict sampleArchive sampleInstalledDB = (sampleInstalledDB, .ok .skipped) ∧
    (sampleInstalledDB.dictionaries.filter (fun r => r.title == sampleArchive.index.title &&
      r.revision == sampleArchive.index.revision)).length = 1 := by
  have h1 := (C1_duplicate_import_idempotent sampleArchive false false sampleInstalledDB
    noFail noFail).1 (by decide)
  have h2 := ((C1_duplicate_import_idempotent sampleArchive false false emptyDB
    noFail noFail).2 (by decide)).1 1
    (mainRemote sampleArchive false emptyDB noFail).2 (by decide)
  exact ⟨h1.1, h1.2, h2.2⟩

/-- C2 counterexample: with every batch write failing after its retries,
the sample import aborts, yet a re-run of the same import against the
resulting store is treated as already installed and skipped, because the
Dictionary row was registered before the banks were processed.  The claim
asserts the re-run would not be skipped. -/
theorem C2_counterexample_rerun_skipped :
    (mainRemote sampleArchive false emptyDB allFail).1 = .aborted ∧
    (mainRemote sampleArchive false
      (mainRemote sampleArchive false emptyDB allFail).2.db noFail).1 = .skipped := by
  decide

/-- C2 as amended: an import aborted by an exhausted batch-write retry
leaves the dictionary registered, so its (title, revision) pair does pass
the idempotency check and a subsequent re-run of the same import is
treated as already installed and skipped as a no-op. -/
theorem C2_aborted_import_marked_installed (a : Archive) (b : Bool) (db : DB)
    (fail : Nat → Bool)
    (h : dictionaryExists db a.index.title a.index.revision = false)
    (_hab : (mainRemote a b db fail).1 = .aborted) :
    dictionaryExists (mainRemote a b db fail).2.db a.index.title a.index.revision = true ∧
    ∀ (b2 : Bool) (fail2 : Nat → Bool),
      mainRemote a b2 (mainRemote a b db fail).2.db fail2 =
        (.skipped, ⟨(mainRemote a b db fail).2.db, 0, []⟩) := by
  have hd := mainRemote_fresh_dicts a b db fail h
  have hex : dictionaryExists (mainRemote a b db fail).2.db
      a.index.title a.index.revision = true := by
    simp [dictionaryExists, hd, List.any_append]
  exact ⟨hex, fun b2 fail2 => mainRemote_skip a b2 _ fail2 hex⟩

theorem C2_aborted_import_marked_installed_witness :
    dictionaryExists (mainRemote sampleArchive false emptyDB allFail).2.db
      sampleArchive.index.title sampleArchive.index.revision = true ∧
    mainRemote sampleArchive false (mainRemote sampleArchive false emptyDB allFail).2.db
      noFail = (.skipped, ⟨(mainRemote sampleArchive false emptyDB allFail).2.db, 0, []⟩) := by
  have h := C2_aborted_import_marked_installed sampleArchive false emptyDB allFail
    (by decide) (by decide)
  exact ⟨h.1, h.2 false noFail⟩

/-- The sqlite importer never writes the kanji or kanji_meta tables, on
any archive and any outcome: importDict has no kanji loop at all. -/
theorem localImportDict_kanji (a : Archive) (db : DB) :
    (localImportDict a db).1.kanji = db.kanji ∧
    (localImportDict a db).1.kanjiMeta = db.kanjiMeta := by
  simp only [localImportDict]
  split
  · exact ⟨rfl, rfl⟩
  · have hassemble : ∀ db1 : DB, db1.kanji = db.kanji → db1.kanjiMeta = db.kanjiMeta →
        ((match localTermBanks (db.dictionaries.length + 1) a db1 Caches.empty with
          | .error (e, dbE) => (dbE, Except.error e)
          | .ok (db2, _) =>
            match localTermMetaBanks (db.dictionaries.length + 1) a db2 with
            | .error (e, dbE) => (dbE, Except.error e)
            | .ok db3 =>
              match localTagBanks (db.dictionaries.length + 1) a db3 with
              | .error (e, dbE) => (dbE, Except.error e)
              | .ok db4 => (db4, Except.ok (Outcome.completed (db.dictionaries.length + 1)))) :
            DB × Except String Outcome).1.kanji = db.kanji ∧
        ((match localTermBanks (db.dictionaries.length + 1) a db1 Caches.empty with
          | .error (e, dbE) => (dbE, Except.error e)
          | .ok (db2, _) =>
            match localTermMetaBanks (db.dictionaries.length + 1) a db2 with
            | .error (e, dbE) => (dbE, Except.error e)
            | .ok db3 =>
              match localTagBanks (db.dictionaries.length + 1) a db3 with
              | .error (e, dbE) => (dbE, Except.error e)
              | .ok db4 => (db4, Except.ok (Outcome.completed (db.dictionaries.length + 1)))) :
            DB × Except String Outcome).1.kanjiMeta = db.kanjiMeta := by
      intro db1 hk1 hm1
      have hf1 := localTermBanks_frame (db.dictionaries.length + 1) a db1 Caches.empty
      split
      · rename_i e dbE heq
        rw [heq] at hf1
        simp only [exDBc] at hf1
        exact ⟨hf1.2.2.2.1.trans hk1, hf1.2.2.2.2.trans hm1⟩
      · rename_i db2 c2 heq
        rw [heq] at hf1
        simp only [exDBc] at hf1
        have hk2 : db2.kanji = db.kanji := hf1.2.2.2.1.trans hk1
        have hm2 : db2.kanjiMeta = db.kanjiMeta := hf1.2.2.2.2.trans hm1
        have hf2 := localTermMetaBanks_frame (db.dictionaries.length + 1) a db2
        split
        · rename_i e dbE heq2
          rw [heq2] at hf2
          simp only [exDB] at hf2
          exact ⟨hf2.2.2.2.2.1.trans hk2, hf2.2.2.2.2.2.trans hm2⟩
        · rename_i db3 heq2
          rw [heq2] at hf2
          simp only [exDB] at hf2
          have hk3 : db3.kanji = db.kanji := hf2.2.2.2.2.1.trans hk2
          have hm3 : db3.kanjiMeta = db.kanjiMeta := hf2.2.2.2.2.2.trans hm2
          have hf3 := localTagBanks_frame (db.dictionaries.length + 1) a db3
          split
          · rename_i e dbE heq3
            rw [heq3] at hf3
            simp only [exDB] at hf3
            exact ⟨hf3.2.2.2.2.1.trans hk3, hf3.2.2.2.2.2.trans hm3⟩
          · rename_i db4 heq3
            rw [heq3] at hf3
            simp only [exDB] at hf3
            exact ⟨hf3.2.2.2.2.1.trans hk3, hf3.2.2.2.2.2.trans hm3⟩
    exact hassemble _ rfl rfl

/-- C9 counterexample: the sqlite importer accepts no bundled flag on its
command line (parseBundledFlag of an absent argument is false), yet the
Dictionary row it registers always has is_bundled set, because insertDict
hardcodes the literal 1.  The claim asserts is_bundled is true only if the
caller passed the flag, on both backends. -/
theorem C9_counterexample_local_hardcodes_bundled :
    parseBundledFlag none = false ∧
    (localImportDict sampleArchive emptyDB).1.dictionaries.map
      (fun r => r.isBundled) = [true] := by
  decide

/-- C9 as amended: the remote importer stores is_bundled exactly as
derived from the command line (true if and only if the third argument is
the string dash dash bundled); the sqlite importer always stores 1
regardless of its command line, which has no such flag. -/
theorem C9_is_bundled_amended (a : Archive) (arg : Option String) (db : DB)
    (fail : Nat → Bool)
    (h : dictionaryExists db a.index.title a.index.revision = false) :
    (mainRemote a (parseBundledFlag arg) db fail).2.db.dictionaries =
      db.dictionaries ++ [⟨db.dictionaries.length + 1, a.index.title, a.index.revision,
        a.index.author, a.index.url, a.index.description, arg == some "--bundled"⟩] ∧
    (localImportDict a db).1.dictionaries =
      db.dictionaries ++ [⟨db.dictionaries.length + 1, a.index.title, a.index.revision,
        a.index.author, a.index.url, a.index.description, true⟩] :=
  ⟨mainRemote_fresh_dicts a (parseBundledFlag arg) db fail h,
    localImportDict_fresh_dicts a db h⟩

theorem C9_is_bundled_amended_witness :
    (mainRemote sampleArchive (parseBundledFlag (some "--bundled")) emptyDB
      noFail).2.db.dictionaries = [⟨1, "Test", "1", none, none, none, true⟩] ∧
    (localImportDict sampleArchive emptyDB).1.dictionaries =
      [⟨1, "Test", "1", none, none, none, true⟩] := by
  have h := C9_is_bundled_amended sampleArchive (some "--bundled") emptyDB noFail (by decide)
  simpa using h

/-! ## Counting lemmas for the kanji processors -/

theorem banksWF_mem {pre : String} {p : Json → Bool} {files : List (String × Option Json)}
    (h : BanksWF pre p files = true) {f : String × Option Json} (hf : f ∈ files)
    (hpre : strStartsWith f.1 pre = true) :
    ∃ es, f.2 = some (.arr es) ∧ ∀ e ∈ es, p e = true := by
  have hall := (List.all_eq_true.mp h) f hf
  rw [hpre] at hall
  simp only [Bool.not_true, Bool.false_or] at hall
  cases hc : f.2 with
  | none => rw [hc] at hall; simp [bankWF] at hall
  | some j =>
      cases j <;> rw [hc] at hall <;> simp [bankWF] at hall
      case arr es => exact ⟨es, rfl, hall⟩

theorem banksWF_tail {pre : String} {p : Json → Bool} {f : String × Option Json}
    {files : List (String × Option Json)} (h : BanksWF pre p (f :: files) = true) :
    BanksWF pre p files = true := by
  simp only [BanksWF, List.all_cons, Bool.and_eq_true] at h ⊢
  exact h.2

theorem decodeKanjiRows_length (dictId : Nat) (es : List Json)
    (h : ∀ e ∈ es, isArr e = true) :
    (decodeKanjiRows dictId es).length = es.length := by
  induction es with
  | nil => rfl
  | cons e es ih =>
      have he := h e (by simp)
      obtain ⟨xs, rfl⟩ : ∃ xs, e = .arr xs := by
        cases e <;> simp [isArr] at he ⊢
      simp [decodeKanjiRows, List.filterMap_cons, jsIter] at ih ⊢
      exact ih (fun e he2 => h e (by simp [he2]))

theorem decodeKanjiRows_dictId (dictId : Nat) (es : List Json) :
    ∀ r ∈ decodeKanjiRows dictId es, r.dictId = dictId := by
  intro r hr
  simp only [decodeKanjiRows, List.mem_filterMap] at hr
  obtain ⟨e, _, he⟩ := hr
  obtain ⟨xs, _, hmap⟩ := Option.map_eq_some'.mp he
  rw [← hmap]
  rfl

theorem kanjiRowsOfFiles_length (dictId : Nat) (files : List (String × Option Json))
    (h : BanksWF "kanji_bank_" isArr files = true) :
    (kanjiRowsOfFiles dictId files).length = sumBankLens "kanji_bank_" files := by
  induction files with
  | nil => rfl
  | cons f files ih =>
      simp only [kanjiRowsOfFiles, sumBankLens, List.length_append]
      rw [ih (banksWF_tail h)]
      congr 1
      by_cases hpre : strStartsWith f.1 "kanji_bank_" = true
      · obtain ⟨es, hes, hall⟩ := banksWF_mem h (by simp) hpre
        rw [if_pos hpre, if_pos hpre, hes]
        exact decodeKanjiRows_length dictId es hall
      · rw [if_neg hpre, if_neg hpre]
        rfl

theorem kanjiRowsOfFiles_dictId (dictId : Nat) (files : List (String × Option Json)) :
    ∀ r ∈ kanjiRowsOfFiles dictId files, r.dictId = dictId := by
  induction files with
  | nil => simp [kanjiRowsOfFiles]
  | cons f files ih =>
      intro r hr
      simp only [kanjiRowsOfFiles, List.mem_append] at hr
      rcases hr with hr | hr
      · split at hr
        · split at hr
          · exact decodeKanjiRows_dictId dictId _ r hr
          · simp at hr
        · simp at hr
      · exact ih r hr

theorem kanjiLoop_count (dictId : Nat) (es : List Json) :
    ∀ (st : RemoteState) (batch : List KanjiRow),
      (∀ e ∈ es, isArr e = true) →
      ∃ st' batch', kanjiLoop noFail dictId es st batch = .ok (st', batch') ∧
        st'.db.kanji ++ batch' = st.db.kanji ++ batch ++ decodeKanjiRows dictId es := by
  induction es with
  | nil =>
      intro st batch _
      exact ⟨st, batch, rfl, by simp [decodeKanjiRows]⟩
  | cons e es ih =>
      intro st batch h
      obtain ⟨xs, rfl⟩ : ∃ xs, e = .arr xs := by
        have he := h e (List.mem_cons_self e es)
        cases e <;> simp [isArr] at he ⊢
      simp only [kanjiLoop, jsIter]
      by_cases hlen : BATCH_SIZE ≤ (batch ++ [buildKanjiRow dictId xs]).length
      · rw [if_pos hlen]
        obtain ⟨st', batch', heq, hv⟩ := ih
          (insertRaw noFail st "kanji" (batch ++ [buildKanjiRow dictId xs]).length
            (appendKanji (batch ++ [buildKanjiRow dictId xs]))) []
          (fun e he => h e (by simp [he]))
        refine ⟨st', batch', heq, ?_⟩
        rw [hv]
        simp [insertRaw, noFail, appendKanji, decodeKanjiRows, List.filterMap_cons, jsIter]
      · rw [if_neg hlen]
        obtain ⟨st', batch', heq, hv⟩ := ih st (batch ++ [buildKanjiRow dictId xs])
          (fun e he => h e (by simp [he]))
        refine ⟨st', batch', heq, ?_⟩
        rw [hv]
        simp [decodeKanjiRows, List.filterMap_cons, jsIter]

theorem kanjiFiles_count (dictId : Nat) (files : List (String × Option Json)) :
    ∀ (st : RemoteState) (batch : List KanjiRow),
      BanksWF "kanji_bank_" isArr files = true →
      ∃ st' batch', kanjiFiles noFail dictId files st batch = .ok (st', batch') ∧
        st'.db.kanji ++ batch' = st.db.kanji ++ batch ++ kanjiRowsOfFiles dictId files := by
  induction files with
  | nil =>
      intro st batch _
      exact ⟨st, batch, rfl, by simp [kanjiRowsOfFiles]⟩
  | cons f files ih =>
      intro st batch hwf
      obtain ⟨name, content⟩ := f
      simp only [kanjiFiles]
      by_cases hpre : strStartsWith name "kanji_bank_" = true
      · rw [if_pos hpre]
        obtain ⟨es, hes, hall⟩ := banksWF_mem (f := (name, content)) hwf
          (List.mem_cons_self _ _) hpre
        simp only at hes
        subst hes
        dsimp only [jsIter]
        obtain ⟨st1, batch1, heq1, hv1⟩ := kanjiLoop_count dictId es st batch
          (fun e he => hall e he)
        rw [heq1]
        dsimp only
        obtain ⟨st', batch', heq2, hv2⟩ := ih st1 batch1 (banksWF_tail hwf)
        refine ⟨st', batch', heq2, ?_⟩
        rw [hv2, hv1]
        simp [kanjiRowsOfFiles, hpre]
      · rw [if_neg hpre]
        obtain ⟨st', batch', heq, hv⟩ := ih st batch (banksWF_tail hwf)
        refine ⟨st', batch', heq, ?_⟩
        rw [hv]
        simp [kanjiRowsOfFiles, hpre]

theorem processKanjiStreaming_count (dictId : Nat) (files : List (String × Option Json))
    (st : RemoteState) (hwf : BanksWF "kanji_bank_" isArr files = true) :
    ∃ st', processKanjiStreaming noFail dictId files st = .ok st' ∧
      st'.db.kanji = st.db.kanji ++ kanjiRowsOfFiles dictId files := by
  obtain ⟨st1, batch1, heq, hv⟩ := kanjiFiles_count dictId files st [] hwf
  simp only [processKanjiStreaming]
  rw [heq]
  dsimp only
  by_cases hb : 0 < batch1.length
  · rw [if_pos hb]
    simp only [insertRetried, noFail, Bool.false_eq_true, if_false]
    refine ⟨_, rfl, ?_⟩
    simp only [appendKanji]
    simpa using hv
  · rw [if_neg hb]
    have hb0 : batch1 = [] := by
      cases batch1 with
      | nil => rfl
      | cons x xs => simp at hb
    subst hb0
    exact ⟨st1, rfl, by simpa using hv⟩

theorem decodeKanjiMetaRows_length (dictId : Nat) (es : List Json)
    (h : ∀ e ∈ es, isArr e = true) :
    (decodeKanjiMetaRows dictId es).length = es.length := by
  induction es with
  | nil => rfl
  | cons e es ih =>
      have he := h e (List.mem_cons_self e es)
      obtain ⟨xs, rfl⟩ : ∃ xs, e = .arr xs := by
        cases e <;> simp [isArr] at he ⊢
      simp [decodeKanjiMetaRows, List.filterMap_cons, jsIter] at ih ⊢
      exact ih (fun e he2 => h e (by simp [he2]))

theorem decodeKanjiMetaRows_dictId (dictId : Nat) (es : List Json) :
    ∀ r ∈ decodeKanjiMetaRows dictId es, r.dictId = dictId := by
  intro r hr
  simp only [decodeKanjiMetaRows, List.mem_filterMap] at hr
  obtain ⟨e, _, he⟩ := hr
  obtain ⟨xs, _, hmap⟩ := Option.map_eq_some'.mp he
  rw [← hmap]
  rfl

theorem kanjiMetaRowsOfFiles_length (dictId : Nat) (files : List (String × Option Json))
    (h : BanksWF "kanji_meta_bank_" isArr files = true) :
    (kanjiMetaRowsOfFiles dictId files).length = sumBankLens "kanji_meta_bank_" files := by
  induction files with
  | nil => rfl
  | cons f files ih =>
      simp only [kanjiMetaRowsOfFiles, sumBankLens, List.length_append]
      rw [ih (banksWF_tail h)]
      congr 1
      by_cases hpre : strStartsWith f.1 "kanji_meta_bank_" = true
      · obtain ⟨es, hes, hall⟩ := banksWF_mem h (List.mem_cons_self _ _) hpre
        rw [if_pos hpre, if_pos hpre, hes]
        exact decodeKanjiMetaRows_length dictId es hall
      · rw [if_neg hpre, if_neg hpre]
        rfl

theorem kanjiMetaRowsOfFiles_dictId (dictId : Nat) (files : List (String × Option Json)) :
    ∀ r ∈ kanjiMetaRowsOfFiles dictId files, r.dictId = dictId := by
  induction files with
  | nil => simp [kanjiMetaRowsOfFiles]
  | cons f files ih =>
      intro r hr
      simp only [kanjiMetaRowsOfFiles, List.mem_append] at hr
      rcases hr with hr | hr
      · split at hr
        · split at hr
          · exact decodeKanjiMetaRows_dictId dictId _ r hr
          · simp at hr
        · simp at hr
      · exact ih r hr

theorem kanjiMetaLoop_count (dictId : Nat) (es : List Json) :
    ∀ (st : RemoteState) (batch : List KanjiMetaRow),
      (∀ e ∈ es, isArr e = true) →
      ∃ st' batch', kanjiMetaLoop noFail dictId es st batch = .ok (st', batch') ∧
        st'.db.kanjiMeta ++ batch' = st.db.kanjiMeta ++ batch ++ decodeKanjiMetaRows dictId es := by
  induction es with
  | nil =>
      intro st batch _
      exact ⟨st, batch, rfl, by simp [decodeKanjiMetaRows]⟩
  | cons e es ih =>
      intro st batch h
      obtain ⟨xs, rfl⟩ : ∃ xs, e = .arr xs := by
        have he := h e (List.mem_cons_self e es)
        cases e <;> simp [isArr] at he ⊢
      simp only [kanjiMetaLoop, jsIter]
      by_cases hlen : BATCH_SIZE ≤ (batch ++ [buildKanjiMetaRow dictId xs]).length
      · rw [if_pos hlen]
        simp only [insertRetried, noFail, Bool.false_eq_true, if_false]
        obtain ⟨st', batch', heq, hv⟩ := ih
          ⟨appendKanjiMeta (batch ++ [buildKanjiMetaRow dictId xs]) st.db, st.nWrites + 1,
            st.trace ++ [⟨"kanji_meta", (batch ++ [buildKanjiMetaRow dictId xs]).length,
              .retried⟩]⟩ []
          (fun e he => h e (by simp [he]))
        refine ⟨st', batch', heq, ?_⟩
        rw [hv]
        simp [appendKanjiMeta, decodeKanjiMetaRows, List.filterMap_cons, jsIter]
      · rw [if_neg hlen]
        obtain ⟨st', batch', heq, hv⟩ := ih st (batch ++ [buildKanjiMetaRow dictId xs])
          (fun e he => h e (by simp [he]))
        refine ⟨st', batch', heq, ?_⟩
        rw [hv]
        simp [decodeKanjiMetaRows, List.filterMap_cons, jsIter]

theorem kanjiMetaFiles_count (dictId : Nat) (files : List (String × Option Json)) :
    ∀ (st : RemoteState) (batch : List KanjiMetaRow),
      BanksWF "kanji_meta_bank_" isArr files = true →
      ∃ st' batch', kanjiMetaFiles noFail dictId files st batch = .ok (st', batch') ∧
        st'.db.kanjiMeta ++ batch' =
          st.db.kanjiMeta ++ batch ++ kanjiMetaRowsOfFiles dictId files := by
  induction files with
  | nil =>
      intro st batch _
      exact ⟨st, batch, rfl, by simp [kanjiMetaRowsOfFiles]⟩
  | cons f files ih =>
      intro st batch hwf
      obtain ⟨name, content⟩ := f
      simp only [kanjiMetaFiles]
      by_cases hpre : strStartsWith name "kanji_meta_bank_" = true
      · rw [if_pos hpre]
        obtain ⟨es, hes, hall⟩ := banksWF_mem (f := (name, content)) hwf
          (List.mem_cons_self _ _) hpre
        simp only at hes
        subst hes
        dsimp only [jsIter]
        obtain ⟨st1, batch1, heq1, hv1⟩ := kanjiMetaLoop_count dictId es st batch
          (fun e he => hall e he)
        rw [heq1]
        dsimp only
        obtain ⟨st', batch', heq2, hv2⟩ := ih st1 batch1 (banksWF_tail hwf)
        refine ⟨st', batch', heq2, ?_⟩
        rw [hv2, hv1]
        simp [kanjiMetaRowsOfFiles, hpre]
      · rw [if_neg hpre]
        obtain ⟨st', batch', heq, hv⟩ := ih st batch (banksWF_tail hwf)
        refine ⟨st', batch', heq, ?_⟩
        rw [hv]
        simp [kanjiMetaRowsOfFiles, hpre]

theorem processKanjiMetaStreaming_count (dictId : Nat)
    (files : List (String × Option Json)) (st : RemoteState)
    (hwf : BanksWF "kanji_meta_bank_" isArr files = true) :
    ∃ st', processKanjiMetaStreaming noFail dictId files st = .ok st' ∧
      st'.db.kanjiMeta = st.db.kanjiMeta ++ kanjiMetaRowsOfFiles dictId files := by
  obtain ⟨st1, batch1, heq, hv⟩ := kanjiMetaFiles_count dictId files st [] hwf
  simp only [processKanjiMetaStreaming]
  rw [heq]
  dsimp only
  by_cases hb : 0 < batch1.length
  · rw [if_pos hb]
    simp only [insertRetried, noFail, Bool.false_eq_true, if_false]
    refine ⟨_, rfl, ?_⟩
    simp only [appendKanjiMeta]
    simpa using hv
  · rw [if_neg hb]
    have hb0 : batch1 = [] := by
      cases batch1 with
      | nil => rfl
      | cons x xs => simp at hb
    subst hb0
    exact ⟨st1, rfl, by simpa using hv⟩

/-- A completed remote run appends exactly the decoded kanji and
kanji-meta rows to their tables. -/
theorem runProcessors_kanji_count (dictId : Nat) (files : List (String × Option Json))
    (st : RemoteState) (d : Nat)
    (hwfK : BanksWF "kanji_bank_" isArr files = true)
    (hwfKM : BanksWF "kanji_meta_bank_" isArr files = true)
    (hc : (runProcessors noFail dictId files st).1 = .completed d) :
    (runProcessors noFail dictId files st).2.db.kanji =
      st.db.kanji ++ kanjiRowsOfFiles dictId files ∧
    (runProcessors noFail dictId files st).2.db.kanjiMeta =
      st.db.kanjiMeta ++ kanjiMetaRowsOfFiles dictId files := by
  rcases h1 : processTermsStreaming noFail dictId files st Caches.empty with stE | ⟨st2, c2⟩
  · simp only [runProcessors, h1] at hc
    simp at hc
  · have hf1 := processTermsStreaming_frame noFail dictId files st Caches.empty
    rw [h1] at hf1
    simp only [exState] at hf1
    rcases h2 : processTermMetaStreaming noFail dictId files st2 with stE | st3
    · simp only [runProcessors, h1, h2] at hc
      simp at hc
    · have hf2 := processTermMetaStreaming_frame noFail dictId files st2
      rw [h2] at hf2
      simp only [exState0] at hf2
      rcases h3 : processTagsStreaming noFail dictId files st3 with stE | st4
      · simp only [runProcessors, h1, h2, h3] at hc
        simp at hc
      · have hf3 := processTagsStreaming_frame noFail dictId files st3
        rw [h3] at hf3
        simp only [exState0] at hf3
        obtain ⟨st5, h4, hv4⟩ := processKanjiStreaming_count dictId files st4 hwfK
        obtain ⟨st6, h5, hv5⟩ := processKanjiMetaStreaming_count dictId files st5 hwfKM
        have hf4 := processKanjiStreaming_frame noFail dictId files st4
        rw [h4] at hf4
        simp only [exState0] at hf4
        have hf5 := processKanjiMetaStreaming_frame noFail dictId files st5
        rw [h5] at hf5
        simp only [exState0] at hf5
        simp only [runProcessors, h1, h2, h3, h4, h5]
        constructor
        · rw [hf5.2.2.2.2.2, hv4, hf3.2.2.2.2.1, hf2.2.2.2.2.1, hf1.2.2.2.1]
        · rw [hv5, hf4.2.2.2.2.2, hf3.2.2.2.2.2, hf2.2.2.2.2.2, hf1.2.2.2.2]

/-- C8 counterexample: the sqlite importer completes the import of an
archive holding one kanji record and one kanji-meta record while inserting
zero Kanji and zero KanjiMeta rows (importDict has no kanji loop).  The
claim asserts one row per record on both backends. -/
theorem C8_counterexample_local_ignores_kanji :
    (localImportDict kanjiArchive emptyDB).2 = .ok (.completed 1) ∧
    (localImportDict kanjiArchive emptyDB).1.kanji = [] ∧
    (localImportDict kanjiArchive emptyDB).1.kanjiMeta = [] := by
  decide

/-- C8 as amended: on the remote backend a completed import of a fresh
archive appends one Kanji row per decoded kanji record (positional fields
character, onyomi, kunyomi, tags, meanings, stats as in buildKanjiRow) and
one KanjiMeta row per decoded kanji-meta record, all referencing the new
dictionary; the sqlite backend never reads kanji banks and leaves both
kanji tables untouched on every archive. -/
theorem C8_kanji_rows_amended (a : Archive) (b : Bool) (db : DB) (d : Nat)
    (hfresh : dictionaryExists db a.index.title a.index.revision = false)
    (hwfK : BanksWF "kanji_bank_" isArr a.entries = true)
    (hwfKM : BanksWF "kanji_meta_bank_" isArr a.entries = true)
    (hc : (mainRemote a b db noFail).1 = .completed d) :
    ((mainRemote a b db noFail).2.db.kanji =
        db.kanji ++ kanjiRowsOfFiles (db.dictionaries.length + 1) a.entries ∧
      (kanjiRowsOfFiles (db.dictionaries.length + 1) a.entries).length =
        sumBankLens "kanji_bank_" a.entries ∧
      ∀ r ∈ kanjiRowsOfFiles (db.dictionaries.length + 1) a.entries,
        r.dictId = db.dictionaries.length + 1) ∧
    ((mainRemote a b db noFail).2.db.kanjiMeta =
        db.kanjiMeta ++ kanjiMetaRowsOfFiles (db.dictionaries.length + 1) a.entries ∧
      (kanjiMetaRowsOfFiles (db.dictionaries.length + 1) a.entries).length =
        sumBankLens "kanji_meta_bank_" a.entries ∧
      ∀ r ∈ kanjiMetaRowsOfFiles (db.dictionaries.length + 1) a.entries,
        r.dictId = db.dictionaries.length + 1) ∧
    (∀ (a2 : Archive) (db2 : DB),
      (localImportDict a2 db2).1.kanji = db2.kanji ∧
      (localImportDict a2 db2).1.kanjiMeta = db2.kanjiMeta) := by
  have hmain : mainRemote a b db noFail =
      runProcessors noFail (db.dictionaries.length + 1) a.entries
        ⟨{ db with dictionaries := db.dictionaries ++
          [⟨db.dictionaries.length + 1, a.index.title, a.index.revision,
            a.index.author, a.index.url, a.index.description, b⟩] }, 0, []⟩ := by
    simp only [mainRemote]
    rw [if_neg (by simp [hfresh])]
  rw [hmain] at hc ⊢
  have h := runProcessors_kanji_count (db.dictionaries.length + 1) a.entries _ d hwfK hwfKM hc
  exact ⟨⟨h.1, kanjiRowsOfFiles_length _ _ hwfK, kanjiRowsOfFiles_dictId _ _⟩,
    ⟨h.2, kanjiMetaRowsOfFiles_length _ _ hwfKM, kanjiMetaRowsOfFiles_dictId _ _⟩,
    fun a2 db2 => localImportDict_kanji a2 db2⟩

theorem C8_kanji_rows_amended_witness :
    (mainRemote kanjiArchive false emptyDB noFail).2.db.kanji =
      kanjiRowsOfFiles 1 kanjiArchive.entries ∧
    (kanjiRowsOfFiles 1 kanjiArchive.entries).length =
      sumBankLens "kanji_bank_" kanjiArchive.entries ∧
    (mainRemote kanjiArchive false emptyDB noFail).2.db.kanjiMeta =
      kanjiMetaRowsOfFiles 1 kanjiArchive.entries ∧
    (localImportDict kanjiArchive emptyDB).1.kanji = emptyDB.kanji := by
  have h := C8_kanji_rows_amended kanjiArchive false emptyDB 1 (by decide) (by decide)
    (by decide) (by decide)
  exact ⟨h.1.1, h.1.2.1, h.2.1.1, (h.2.2 kanjiArchive emptyDB).1⟩

/-! ## Counting lemmas for the term processor -/

theorem jsTrimField_ok (v : Option Json) (h : trimmableField v = true) :
    ∃ t, jsTrimField v = .ok t := by
  cases v with
  | none => exact ⟨none, rfl⟩
  | some j =>
      cases j with
      | null => exact ⟨none, rfl⟩
      | str s => exact ⟨some (jsTrim s), rfl⟩
      | bool b => simp [trimmableField] at h
      | num n => simp [trimmableField] at h
      | arr xs => simp [trimmableField] at h
      | obj fs => simp [trimmableField] at h

theorem buildTermRow_ok (dictId : Nat) (ix : InternTables) (c : Caches) (e : Json)
    (h : termEntryWF e = true) :
    ∃ ix' c' row, buildTermRow dictId ix c e = ((ix', c'), .ok row) ∧
      row.dictId = dictId := by
  cases e with
  | arr xs =>
      simp only [termEntryWF, Bool.and_eq_true] at h
      obtain ⟨⟨⟨h5, h2⟩, h3⟩, h7⟩ := h
      obtain ⟨g, hg⟩ := Option.isSome_iff_exists.mp h5
      obtain ⟨t2, ht2⟩ := jsTrimField_ok _ h2
      obtain ⟨t3, ht3⟩ := jsTrimField_ok _ h3
      obtain ⟨t7, ht7⟩ := jsTrimField_ok _ h7
      simp only [buildTermRow, jsIter, hg, ht2, ht3, ht7]
      exact ⟨_, _, _, rfl, rfl⟩
  | null => simp [termEntryWF] at h
  | bool b => simp [termEntryWF] at h
  | num n => simp [termEntryWF] at h
  | str s => simp [termEntryWF] at h
  | obj fs => simp [termEntryWF] at h

theorem termsLoop_count (dictId : Nat) (es : List Json) :
    ∀ (st : RemoteState) (c : Caches) (batch : List TermRow),
      (∀ e ∈ es, termEntryWF e = true) →
      ∃ st' c' batch' added,
        termsLoop noFail dictId es st c batch = .ok (st', c', batch') ∧
        st'.db.terms ++ batch' = st.db.terms ++ batch ++ added ∧
        added.length = es.length ∧
        ∀ r ∈ added, r.dictId = dictId := by
  induction es with
  | nil =>
      intro st c batch _
      exact ⟨st, c, batch, [], rfl, by simp, rfl, by simp⟩
  | cons e es ih =>
      intro st c batch h
      obtain ⟨ix', c', row, hb, hrow⟩ :=
        buildTermRow_ok dictId st.db.interned c e (h e (List.mem_cons_self e es))
      simp only [termsLoop, hb]
      by_cases hlen : BATCH_SIZE ≤ (batch ++ [row]).length
      · rw [if_pos hlen]
        simp only [insertRetried, noFail, Bool.false_eq_true, if_false]
        obtain ⟨st', c'', batch', added, heq, hv, hlen2, hdict⟩ :=
          ih _ c' [] (fun e2 he2 => h e2 (by simp [he2]))
        refine ⟨st', c'', batch', row :: added, heq, ?_, by simp [hlen2], ?_⟩
        · rw [hv]
          simp [appendTerms]
        · intro r hr
          rcases List.mem_cons.mp hr with hr | hr
          · rw [hr]; exact hrow
          · exact hdict r hr
      · rw [if_neg hlen]
        obtain ⟨st', c'', batch', added, heq, hv, hlen2, hdict⟩ :=
          ih _ c' (batch ++ [row]) (fun e2 he2 => h e2 (by simp [he2]))
        refine ⟨st', c'', batch', row :: added, heq, ?_, by simp [hlen2], ?_⟩
        · rw [hv]
          simp
        · intro r hr
          rcases List.mem_cons.mp hr with hr | hr
          · rw [hr]; exact hrow
          · exact hdict r hr

theorem termsFiles_count (dictId : Nat) (files : List (String × Option Json)) :
    ∀ (st : RemoteState) (c : Caches) (batch : List TermRow),
      BanksWF "term_bank_" termEntryWF files = true →
      ∃ st' c' batch' added,
        termsFiles noFail dictId files st c batch = .ok (st', c', batch') ∧
        st'.db.terms ++ batch' = st.db.terms ++ batch ++ added ∧
        added.length = sumBankLens "term_bank_" files ∧
        ∀ r ∈ added, r.dictId = dictId := by
  induction files with
  | nil =>
      intro st c batch _
      exact ⟨st, c, batch, [], rfl, by simp, rfl, by simp⟩
  | cons f files ih =>
      intro st c batch hwf
      obtain ⟨name, content⟩ := f
      simp only [termsFiles]
      by_cases hpre : strStartsWith name "term_bank_" = true
      · rw [if_pos hpre]
        obtain ⟨es, hes, hall⟩ := banksWF_mem (f := (name, content)) hwf
          (List.mem_cons_self _ _) hpre
        simp only at hes
        subst hes
        dsimp only [jsIter]
        obtain ⟨st1, c1, batch1, added1, heq1, hv1, hlen1, hdict1⟩ :=
          termsLoop_count dictId es st c batch hall
        rw [heq1]
        dsimp only
        obtain ⟨st', c'', batch', added2, heq2, hv2, hlen2, hdict2⟩ :=
          ih st1 c1 batch1 (banksWF_tail hwf)
        refine ⟨st', c'', batch', added1 ++ added2, heq2, ?_, ?_, ?_⟩
        · rw [hv2, hv1]
          simp
        · simp [sumBankLens, hpre, hlen1, hlen2]
        · intro r hr
          rcases List.mem_append.mp hr with hr | hr
          · exact hdict1 r hr
          · exact hdict2 r hr
      · rw [if_neg hpre]
        obtain ⟨st', c'', batch', added, heq, hv, hlen2, hdict⟩ :=
          ih st c batch (banksWF_tail hwf)
        refine ⟨st', c'', batch', added, heq, by rw [hv], ?_, hdict⟩
        simp [sumBankLens, hpre, hlen2]

theorem processTermsStreaming_count (dictId : Nat) (files : List (String × Option Json))
    (st : RemoteState) (c : Caches)
    (hwf : BanksWF "term_bank_" termEntryWF files = true) :
    ∃ st' c' added, processTermsStreaming noFail dictId files st c = .ok (st', c') ∧
      st'.db.terms = st.db.terms ++ added ∧
      added.length = sumBankLens "term_bank_" files ∧
      ∀ r ∈ added, r.dictId = dictId := by
  obtain ⟨st1, c1, batch1, added, heq, hv, hlen, hdict⟩ :=
    termsFiles_count dictId files st c [] hwf
  simp only [processTermsStreaming]
  rw [heq]
  dsimp only
  by_cases hb : 0 < batch1.length
  · rw [if_pos hb]
    simp only [insertRetried, noFail, Bool.false_eq_true, if_false]
    refine ⟨_, c1, added, rfl, ?_, hlen, hdict⟩
    simp only [appendTerms]
    simpa using hv
  · rw [if_neg hb]
    have hb0 : batch1 = [] := by
      cases batch1 with
      | nil => rfl
      | cons x xs => simp at hb
    subst hb0
    exact ⟨st1, c1, added, rfl, by simpa using hv, hlen, hdict⟩

/-- Whatever the later processors do, a remote run on a fresh dictionary
with well-formed term banks appends to the terms table exactly one row per
record summed over all term banks. -/
theorem runProcessors_terms_count (dictId : Nat) (files : List (String × Option Json))
    (st : RemoteState) (hwf : BanksWF "term_bank_" termEntryWF files = true) :
    ∃ added, (runProcessors noFail dictId files st).2.db.terms = st.db.terms ++ added ∧
      added.length = sumBankLens "term_bank_" files ∧
      ∀ r ∈ added, r.dictId = dictId := by
  obtain ⟨st2, c2, added, h1, hterms, hlen, hdict⟩ :=
    processTermsStreaming_count dictId files st Caches.empty hwf
  refine ⟨added, ?_, hlen, hdict⟩
  simp only [runProcessors, h1]
  rcases h2 : processTermMetaStreaming noFail dictId files st2 with stE | st3 <;>
    [skip; skip] <;> dsimp only
  · have hf2 := processTermMetaStreaming_frame noFail dictId files st2
    rw [h2] at hf2
    simp only [exState0] at hf2
    rw [hf2.2.2.1, hterms]
  · have hf2 := processTermMetaStreaming_frame noFail dictId files st2
    rw [h2] at hf2
    simp only [exState0] at hf2
    rcases h3 : processTagsStreaming noFail dictId files st3 with stE | st4 <;> dsimp only
    · have hf3 := processTagsStreaming_frame noFail dictId files st3
      rw [h3] at hf3
      simp only [exState0] at hf3
      rw [hf3.2.2.1, hf2.2.2.1, hterms]
    · have hf3 := processTagsStreaming_frame noFail dictId files st3
      rw [h3] at hf3
      simp only [exState0] at hf3
      rcases h4 : processKanjiStreaming noFail dictId files st4 with stE | st5 <;> dsimp only
      · have hf4 := processKanjiStreaming_frame noFail dictId files st4
        rw [h4] at hf4
        simp only [exState0] at hf4
        rw [hf4.2.2.1, hf3.2.2.1, hf2.2.2.1, hterms]
      · have hf4 := processKanjiStreaming_frame noFail dictId files st4
        rw [h4] at hf4
        simp only [exState0] at hf4
        rcases h5 : processKanjiMetaStreaming noFail dictId files st5 with stE | st6 <;>
          dsimp only
        · have hf5 := processKanjiMetaStreaming_frame noFail dictId files st5
          rw [h5] at hf5
          simp only [exState0] at hf5
          rw [hf5.2.2.1, hf4.2.2.1, hf3.2.2.1, hf2.2.2.1, hterms]
        · have hf5 := processKanjiMetaStreaming_frame noFail dictId files st5
          rw [h5] at hf5
          simp only [exState0] at hf5
          rw [hf5.2.2.1, hf4.2.2.1, hf3.2.2.1, hf2.2.2.1, hterms]

/-! ## Counting lemmas for the local term-bank loop -/

theorem localBanksWF_mem {a : Archive} {kind : String} {p : Json → Bool} {k : Nat}
    (h : localBanksWF a kind p k = true) :
    ∀ i ∈ bankIndices k, ∃ es, zipFile a (bankName kind i) = some (some (.arr es)) ∧
      ∀ e ∈ es, p e = true := by
  intro i hi
  have hall := List.all_eq_true.mp h i hi
  cases hz : zipFile a (bankName kind i) with
  | none => rw [hz] at hall; simp at hall
  | some content =>
      cases content with
      | none => rw [hz] at hall; simp at hall
      | some j =>
          cases j <;> rw [hz] at hall <;> simp at hall
          case arr es => exact ⟨es, rfl, hall⟩

theorem localBuildTermRow_ok (dictId : Nat) (ix : InternTables) (c : Caches) (e : Json)
    (h : localTermEntryWF e = true) :
    ∃ ix' c' row, localBuildTermRow dictId ix c e = ((ix', c'), .ok row) ∧
      row.dictId = dictId := by
  cases e with
  | arr xs =>
      simp only [localTermEntryWF, Bool.and_eq_true] at h
      obtain ⟨⟨⟨⟨⟨⟨⟨h5, h2⟩, h3⟩, h7⟩, h0⟩, h1⟩, h4⟩, h6⟩ := h
      obtain ⟨g, hg⟩ := Option.isSome_iff_exists.mp h5
      obtain ⟨t2, ht2⟩ := jsTrimField_ok _ h2
      obtain ⟨t3, ht3⟩ := jsTrimField_ok _ h3
      obtain ⟨t7, ht7⟩ := jsTrimField_ok _ h7
      simp only [localBuildTermRow, jsIter, hg, ht2, ht3, ht7]
      rw [if_pos (by simp [h0, h1, h4, h6])]
      exact ⟨_, _, _, rfl, rfl⟩
  | null => simp [localTermEntryWF] at h
  | bool b => simp [localTermEntryWF] at h
  | num n => simp [localTermEntryWF] at h
  | str s => simp [localTermEntryWF] at h
  | obj fs => simp [localTermEntryWF] at h

theorem localTermsBankGo_count (dictId : Nat) (es : List Json) :
    ∀ (ix : InternTables) (c : Caches) (rows : List TermRow),
      (∀ e ∈ es, localTermEntryWF e = true) →
      ∃ ix' c' rows2, localTermsBankGo dictId es ix c rows = .ok (ix', c', rows ++ rows2) ∧
        rows2.length = es.length ∧ ∀ r ∈ rows2, r.dictId = dictId := by
  induction es with
  | nil =>
      intro ix c rows _
      exact ⟨ix, c, [], by simp [localTermsBankGo], rfl, by simp⟩
  | cons e es ih =>
      intro ix c rows h
      obtain ⟨ix', c', row, hb, hrow⟩ :=
        localBuildTermRow_ok dictId ix c e (h e (List.mem_cons_self e es))
      simp only [localTermsBankGo, hb]
      obtain ⟨ix'', c'', rows2, heq, hlen, hdict⟩ :=
        ih ix' c' (rows ++ [row]) (fun e2 he2 => h e2 (by simp [he2]))
      refine ⟨ix'', c'', row :: rows2, ?_, by simp [hlen], ?_⟩
      · rw [heq]
        simp
      · intro r hr
        rcases List.mem_cons.mp hr with hr | hr
        · rw [hr]; exact hrow
        · exact hdict r hr

theorem localTermBanksGo_count (dictId : Nat) (a : Archive) (is : List Nat) :
    ∀ (db : DB) (c : Caches),
      (∀ i ∈ is, ∃ es, zipFile a (bankName "term_bank" i) = some (some (.arr es)) ∧
        ∀ e ∈ es, localTermEntryWF e = true) →
      ∃ db' c' added, localTermBanksGo dictId a is db c = .ok (db', c') ∧
        db'.terms = db.terms ++ added ∧
        added.length = ((is.map (localBankLen a "term_bank")).sum) ∧
        ∀ r ∈ added, r.dictId = dictId := by
  induction is with
  | nil =>
      intro db c _
      exact ⟨db, c, [], rfl, by simp, rfl, by simp⟩
  | cons i is ih =>
      intro db c h
      obtain ⟨es, hz, hall⟩ := h i (List.mem_cons_self i is)
      simp only [localTermBanksGo, hz, jsIter]
      obtain ⟨ix', c', rows2, hgo, hlen, hdict⟩ :=
        localTermsBankGo_count dictId es db.interned c [] hall
      simp only [localTermsBank, hgo]
      obtain ⟨db', c'', added2, heq, hterms, hlen2, hdict2⟩ :=
        ih { db with interned := ix', terms := db.terms ++ ([] ++ rows2) } c'
          (fun i2 hi2 => h i2 (by simp [hi2]))
      refine ⟨db', c'', rows2 ++ added2, heq, ?_, ?_, ?_⟩
      · rw [hterms]
        simp
      · simp [localBankLen, hz, hlen, hlen2]
      · intro r hr
        rcases List.mem_append.mp hr with hr | hr
        · exact hdict r hr
        · exact hdict2 r hr

/-- Whatever the later bank loops do, a fresh sqlite import with
well-formed term banks appends to the terms table exactly one row per
record summed over the enumerated term banks. -/
theorem localImportDict_terms_count (a : Archive) (db : DB)
    (hfresh : dictionaryExists db a.index.title a.index.revision = false)
    (hwf : localBanksWF a "term_bank" localTermEntryWF (countBanks a "term_bank") = true) :
    ∃ added, (localImportDict a db).1.terms = db.terms ++ added ∧
      added.length = localBanksLen a "term_bank" (countBanks a "term_bank") ∧
      ∀ r ∈ added, r.dictId = db.dictionaries.length + 1 := by
  simp only [localImportDict]
  rw [if_neg (by simp [hfresh])]
  obtain ⟨db2, c2, added, heq, hterms, hlen, hdict⟩ :=
    localTermBanksGo_count (db.dictionaries.length + 1) a
      (bankIndices (countBanks a "term_bank"))
      { db with dictionaries := db.dictionaries ++
        [⟨db.dictionaries.length + 1, a.index.title, a.index.revision,
          a.index.author, a.index.url, a.index.description, true⟩] }
      Caches.empty (localBanksWF_mem hwf)
  refine ⟨added, ?_, hlen, hdict⟩
  simp only [localTermBanks, heq]
  rcases h2 : localTermMetaBanks (db.dictionaries.length + 1) a db2 with ⟨e, dbE⟩ | db3 <;>
    dsimp only
  · have hf2 := localTermMetaBanks_frame (db.dictionaries.length + 1) a db2
    rw [h2] at hf2
    simp only [exDB] at hf2
    rw [hf2.2.2.1, hterms]
  · have hf2 := localTermMetaBanks_frame (db.dictionaries.length + 1) a db2
    rw [h2] at hf2
    simp only [exDB] at hf2
    rcases h3 : localTagBanks (db.dictionaries.length + 1) a db3 with ⟨e, dbE⟩ | db4 <;>
      dsimp only
    · have hf3 := localTagBanks_frame (db.dictionaries.length + 1) a db3
      rw [h3] at hf3
      simp only [exDB] at hf3
      rw [hf3.2.2.1, hf2.2.2.1, hterms]
    · have hf3 := localTagBanks_frame (db.dictionaries.length + 1) a db3
      rw [h3] at hf3
      simp only [exDB] at hf3
      rw [hf3.2.2.1, hf2.2.2.1, hterms]

theorem filter_dictId_append (l1 l2 : List TermRow) (n : Nat)
    (h1 : ∀ r ∈ l1, r.dictId ≠ n) (h2 : ∀ r ∈ l2, r.dictId = n) :
    ((l1 ++ l2).filter (fun r => r.dictId == n)).length = l2.length := by
  rw [List.filter_append]
  have e1 : l1.filter (fun r => r.dictId == n) = [] :=
    List.filter_eq_nil_iff.mpr (by intro r hr; simpa using h1 r hr)
  have e2 : l2.filter (fun r => r.dictId == n) = l2 :=
    List.filter_eq_self.mpr (by intro r hr; simpa using h2 r hr)
  simp [e1, e2]

/-- C3: an import of a not-previously-installed archive with well-formed
term banks and no batch-write failures appends exactly one Term row per
record to the terms table, so the number of Term rows referencing the new
dictionary equals the sum of the decoded array lengths across all
term_bank files of the archive — on the remote backend (where the final
partial batch of fewer than BATCH_SIZE rows is flushed after the stream
ends) and on the sqlite backend (whose contiguous bank enumeration is tied
to the archive files by the hsum hypothesis). -/
theorem C3_term_row_count (a : Archive) (b : Bool) (db : DB)
    (hfresh : dictionaryExists db a.index.title a.index.revision = false)
    (hwfR : BanksWF "term_bank_" termEntryWF a.entries = true)
    (hwfL : localBanksWF a "term_bank" localTermEntryWF (countBanks a "term_bank") = true)
    (hsum : localBanksLen a "term_bank" (countBanks a "term_bank") =
      sumBankLens "term_bank_" a.entries)
    (hold : ∀ r ∈ db.terms, r.dictId ≠ db.dictionaries.length + 1) :
    (∃ added, (mainRemote a b db noFail).2.db.terms = db.terms ++ added ∧
      added.length = sumBankLens "term_bank_" a.entries ∧
      ∀ r ∈ added, r.dictId = db.dictionaries.length + 1) ∧
    ((mainRemote a b db noFail).2.db.terms.filter
      (fun r => r.dictId == db.dictionaries.length + 1)).length =
        sumBankLens "term_bank_" a.entries ∧
    (∃ added, (localImportDict a db).1.terms = db.terms ++ added ∧
      added.length = sumBankLens "term_bank_" a.entries ∧
      ∀ r ∈ added, r.dictId = db.dictionaries.length + 1) ∧
    ((localImportDict a db).1.terms.filter
      (fun r => r.dictId == db.dictionaries.length + 1)).length =
        sumBankLens "term_bank_" a.entries := by
  have hmain : mainRemote a b db noFail =
      runProcessors noFail (db.dictionaries.length + 1) a.entries
        ⟨{ db with dictionaries := db.dictionaries ++
          [⟨db.dictionaries.length + 1, a.index.title, a.index.revision,
            a.index.author, a.index.url, a.index.description, b⟩] }, 0, []⟩ := by
    simp only [mainRemote]
    rw [if_neg (by simp [hfresh])]
  obtain ⟨added, h1, h2, h3⟩ := runProcessors_terms_count (db.dictionaries.length + 1)
    a.entries ⟨{ db with dictionaries := db.dictionaries ++
      [⟨db.dictionaries.length + 1, a.index.title, a.index.revision,
        a.index.author, a.index.url, a.index.description, b⟩] }, 0, []⟩ hwfR
  obtain ⟨added2, g1, g2, g3⟩ := localImportDict_terms_count a db hfresh hwfL
  refine ⟨⟨added, by rw [hmain]; exact h1, h2, h3⟩, ?_, ⟨added2, g1, hsum ▸ g2, g3⟩, ?_⟩
  · rw [hmain, h1]
    rw [filter_dictId_append _ _ _ hold h3]
    exact h2
  · rw [g1, filter_dictId_append _ _ _ hold g3, g2]
    exact hsum

theorem C3_term_row_count_witness :
    ((mainRemote sampleArchive false emptyDB noFail).2.db.terms.filter
      (fun r => r.dictId == 1)).length = sumBankLens "term_bank_" sampleArchive.entries ∧
    ((localImportDict sampleArchive emptyDB).1.terms.filter
      (fun r => r.dictId == 1)).length = sumBankLens "term_bank_" sampleArchive.entries := by
  have h := C3_term_row_count sampleArchive false emptyDB (by decide) (by decide)
    (by decide) (by decide) (by decide)
  exact ⟨h.2.1, h.2.2.2⟩

/-! ## Decode-error lemmas -/

/-- Every batch-insert network call in the trace is either wrapped in
withRetry or is a write to the kanji table (the one bare call site). -/
def TraceOk (ws : List BatchWrite) : Prop :=
  ∀ w ∈ ws, w.kind = .retried ∨ w.table = "kanji"

theorem traceOk_append {ws : List BatchWrite} (h : TraceOk ws) (w : BatchWrite)
    (hw : w.kind = .retried ∨ w.table = "kanji") : TraceOk (ws ++ [w]) := by
  intro w2 hw2
  rcases List.mem_append.mp hw2 with hw2 | hw2
  · exact h w2 hw2
  · simp only [List.mem_singleton] at hw2
    rw [hw2]
    exact hw

theorem termsLoop_traceOk (fail : Nat → Bool) (dictId : Nat) (es : List Json) :
    ∀ (st : RemoteState) (c : Caches) (batch : List TermRow), TraceOk st.trace →
      TraceOk (exState (termsLoop fail dictId es st c batch)).trace := by
  induction es with
  | nil => intro st c batch h; exact h
  | cons e es ih =>
      intro st c batch h
      simp only [termsLoop]
      split
      · exact h
      · split
        · simp only [insertRetried]
          by_cases hf : fail st.nWrites = true
          · simp only [if_pos hf]
            exact traceOk_append h _ (Or.inl rfl)
          · simp only [if_neg hf]
            exact ih _ _ _ (traceOk_append h _ (Or.inl rfl))
        · exact ih _ _ _ h

theorem termsFiles_traceOk (fail : Nat → Bool) (dictId : Nat)
    (files : List (String × Option Json)) :
    ∀ (st : RemoteState) (c : Caches) (batch : List TermRow), TraceOk st.trace →
      TraceOk (exState (termsFiles fail dictId files st c batch)).trace := by
  induction files with
  | nil => intro st c batch h; exact h
  | cons f files ih =>
      intro st c batch h
      obtain ⟨name, content⟩ := f
      simp only [termsFiles]
      split
      · split
        · exact h
        · split
          · exact h
          · rename_i entries heqArr
            split
            · rename_i stE heq
              have h2 := termsLoop_traceOk fail dictId entries st c batch h
              rw [heq] at h2
              exact h2
            · rename_i st' c' batch' heq
              have h2 := termsLoop_traceOk fail dictId entries st c batch h
              rw [heq] at h2
              exact ih _ _ _ h2
      · exact ih _ _ _ h

theorem processTermsStreaming_traceOk (fail : Nat → Bool) (dictId : Nat)
    (files : List (String × Option Json)) (st : RemoteState) (c : Caches)
    (h : TraceOk st.trace) :
    TraceOk (exState (processTermsStreaming fail dictId files st c)).trace := by
  simp only [processTermsStreaming]
  split
  · rename_i stE heq
    have h2 := termsFiles_traceOk fail dictId files st c [] h
    rw [heq] at h2
    exact h2
  · rename_i st' c' batch heq
    have h2 := termsFiles_traceOk fail dictId files st c [] h
    rw [heq] at h2
    split
    · simp only [insertRetried]
      by_cases hf : fail st'.nWrites = true
      · simp only [if_pos hf]
        exact traceOk_append h2 _ (Or.inl rfl)
      · simp only [if_neg hf]
        exact traceOk_append h2 _ (Or.inl rfl)
    · exact h2

theorem termMetaLoop_traceOk (fail : Nat → Bool) (dictId : Nat) (es : List Json) :
    ∀ (st : RemoteState) (batch : List TermMetaRow), TraceOk st.trace →
      TraceOk (exState (termMetaLoop fail dictId es st batch)).trace := by
  induction es with
  | nil => intro st batch h; exact h
  | cons e es ih =>
      intro st batch h
      simp only [termMetaLoop]
      split
      · exact h
      · split
        · simp only [insertRetried]
          by_cases hf : fail st.nWrites = true
          · simp only [if_pos hf]
            exact traceOk_append h _ (Or.inl rfl)
          · simp only [if_neg hf]
            exact ih _ _ (traceOk_append h _ (Or.inl rfl))
        · exact ih _ _ h

theorem termMetaFiles_traceOk (fail : Nat → Bool) (dictId : Nat)
    (files : List (String × Option Json)) :
    ∀ (st : RemoteState) (batch : List TermMetaRow), TraceOk st.trace →
      TraceOk (exState (termMetaFiles fail dictId files st batch)).trace := by
  induction files with
  | nil => intro st batch h; exact h
  | cons f files ih =>
      intro st batch h
      obtain ⟨name, content⟩ := f
      simp only [termMetaFiles]
      split
      · split
        · exact h
        · split
          · exact h
          · rename_i entries heqArr
            split
            · rename_i stE heq
              have h2 := termMetaLoop_traceOk fail dictId entries st batch h
              rw [heq] at h2
              exact h2
            · rename_i st2 batch2 heq
              have h2 := termMetaLoop_traceOk fail dictId entries st batch h
              rw [heq] at h2
              exact ih _ _ h2
      · exact ih _ _ h

theorem processTermMetaStreaming_traceOk (fail : Nat → Bool) (dictId : Nat)
    (files : List (String × Option Json)) (st : RemoteState)
    (h : TraceOk st.trace) :
    TraceOk (exState0 (processTermMetaStreaming fail dictId files st)).trace := by
  simp only [processTermMetaStreaming]
  split
  · rename_i stE heq
    have h2 := termMetaFiles_traceOk fail dictId files st [] h
    rw [heq] at h2
    exact h2
  · rename_i st2 batch heq
    have h2 := termMetaFiles_traceOk fail dictId files st [] h
    rw [heq] at h2
    split
    · simp only [insertRetried]
      by_cases hf : fail st2.nWrites = true
      · simp only [if_pos hf]
        exact traceOk_append h2 _ (Or.inl rfl)
      · simp only [if_neg hf]
        exact traceOk_append h2 _ (Or.inl rfl)
    · exact h2

theorem tagsLoop_traceOk (fail : Nat → Bool) (dictId : Nat) (es : List Json) :
    ∀ (st : RemoteState) (batch : List TagRow), TraceOk st.trace →
      TraceOk (exState (tagsLoop fail dictId es st batch)).trace := by
  induction es with
  | nil => intro st batch h; exact h
  | cons e es ih =>
      intro st batch h
      simp only [tagsLoop]
      split
      · exact h
      · split
        · simp only [insertRetried]
          by_cases hf : fail st.nWrites = true
          · simp only [if_pos hf]
            exact traceOk_append h _ (Or.inl rfl)
          · simp only [if_neg hf]
            exact ih _ _ (traceOk_append h _ (Or.inl rfl))
        · exact ih _ _ h

theorem tagsFiles_traceOk (fail : Nat → Bool) (dictId : Nat)
    (files : List (String × Option Json)) :
    ∀ (st : RemoteState) (batch : List TagRow), TraceOk st.trace →
      TraceOk (exState (tagsFiles fail dictId files st batch)).trace := by
  induction files with
  | nil => intro st batch h; exact h
  | cons f files ih =>
      intro st batch h
      obtain ⟨name, content⟩ := f
      simp only [tagsFiles]
      split
      · split
        · exact h
        · split
          · exact h
          · rename_i entries heqArr
            split
            · rename_i stE heq
              have h2 := tagsLoop_traceOk fail dictId entries st batch h
              rw [heq] at h2
              exact h2
            · rename_i st2 batch2 heq
              have h2 := tagsLoop_traceOk fail dictId entries st batch h
              rw [heq] at h2
              exact ih _ _ h2
      · exact ih _ _ h

theorem processTagsStreaming_traceOk (fail : Nat → Bool) (dictId : Nat)
    (files : List (String × Option Json)) (st : RemoteState)
    (h : TraceOk st.trace) :
    TraceOk (exState0 (processTagsStreaming fail dictId files st)).trace := by
  simp only [processTagsStreaming]
  split
  · rename_i stE heq
    have h2 := tagsFiles_traceOk fail dictId files st [] h
    rw [heq] at h2
    exact h2
  · rename_i st2 batch heq
    have h2 := tagsFiles_traceOk fail dictId files st [] h
    rw [heq] at h2
    split
    · simp only [insertRetried]
      by_cases hf : fail st2.nWrites = true
      · simp only [if_pos hf]
        exact traceOk_append h2 _ (Or.inl rfl)
      · simp only [if_neg hf]
        exact traceOk_append h2 _ (Or.inl rfl)
    · exact h2

theorem kanjiLoop_traceOk (fail : Nat → Bool) (dictId : Nat) (es : List Json) :
    ∀ (st : RemoteState) (batch : List KanjiRow), TraceOk st.trace →
      TraceOk (exState (kanjiLoop fail dictId es st batch)).trace := by
  induction es with
  | nil => intro st batch h; exact h
  | cons e es ih =>
      intro st batch h
      simp only [kanjiLoop]
      split
      · exact h
      · split
        · simp only [insertRaw]
          by_cases hf : fail st.nWrites = true
          · simp only [if_pos hf]
            exact ih _ _ (traceOk_append h _ (Or.inr rfl))
          · simp only [if_neg hf]
            exact ih _ _ (traceOk_append h _ (Or.inr rfl))
        · exact ih _ _ h

theorem kanjiFiles_traceOk (fail : Nat → Bool) (dictId : Nat)
    (files : List (String × Option Json)) :
    ∀ (st : RemoteState) (batch : List KanjiRow), TraceOk st.trace →
      TraceOk (exState (kanjiFiles fail dictId files st batch)).trace := by
  induction files with
  | nil => intro st batch h; exact h
  | cons f files ih =>
      intro st batch h
      obtain ⟨name, content⟩ := f
      simp only [kanjiFiles]
      split
      · split
        · exact h
        · split
          · exact h
          · rename_i entries heqArr
            split
            · rename_i stE heq
              have h2 := kanjiLoop_traceOk fail dictId entries st batch h
              rw [heq] at h2
              exact h2
            · rename_i st2 batch2 heq
              have h2 := kanjiLoop_traceOk fail dictId entries st batch h
              rw [heq] at h2
              exact ih _ _ h2
      · exact ih _ _ h

theorem processKanjiStreaming_traceOk (fail : Nat → Bool) (dictId : Nat)
    (files : List (String × Option Json)) (st : RemoteState)
    (h : TraceOk st.trace) :
    TraceOk (exState0 (processKanjiStreaming fail dictId files st)).trace := by
  simp only [processKanjiStreaming]
  split
  · rename_i stE heq
    have h2 := kanjiFiles_traceOk fail dictId files st [] h
    rw [heq] at h2
    exact h2
  · rename_i st2 batch heq
    have h2 := kanjiFiles_traceOk fail dictId files st [] h
    rw [heq] at h2
    split
    · simp only [insertRetried]
      by_cases hf : fail st2.nWrites = true
      · simp only [if_pos hf]
        exact traceOk_append h2 _ (Or.inl rfl)
      · simp only [if_neg hf]
        exact traceOk_append h2 _ (Or.inl rfl)
    · exact h2

theorem kanjiMetaLoop_traceOk (fail : Nat → Bool) (dictId : Nat) (es : List Json) :
    ∀ (st : RemoteState) (batch : List KanjiMetaRow), TraceOk st.trace →
      TraceOk (exState (kanjiMetaLoop fail dictId es st batch)).trace := by
  induction es with
  | nil => intro st batch h; exact h
  | cons e es ih =>
      intro st batch h
      simp only [kanjiMetaLoop]
      split
      · exact h
      · split
        · simp only [insertRetried]
          by_cases hf : fail st.nWrites = true
          · simp only [if_pos hf]
            exact traceOk_append h _ (Or.inl rfl)
          · simp only [if_neg hf]
            exact ih _ _ (traceOk_append h _ (Or.inl rfl))
        · exact ih _ _ h

theorem kanjiMetaFiles_traceOk (fail : Nat → Bool) (dictId : Nat)
    (files : List (String × Option Json)) :
    ∀ (st : RemoteState) (batch : List KanjiMetaRow), TraceOk st.trace →
      TraceOk (exState (kanjiMetaFiles fail dictId files st batch)).trace := by
  induction files with
  | nil => intro st batch h; exact h
  | cons f files ih =>
      intro st batch h
      obtain ⟨name, content⟩ := f
      simp only [kanjiMetaFiles]
      split
      · split
        · exact h
        · split
          · exact h
          · rename_i entries heqArr
            split
            · rename_i stE heq
              have h2 := kanjiMetaLoop_traceOk fail dictId entries st batch h
              rw [heq] at h2
              exact h2
            · rename_i st2 batch2 heq
              have h2 := kanjiMetaLoop_traceOk fail dictId entries st batch h
              rw [heq] at h2
              exact ih _ _ h2
      · exact ih _ _ h

theorem processKanjiMetaStreaming_traceOk (fail : Nat → Bool) (dictId : Nat)
    (files : List (String × Option Json)) (st : RemoteState)
    (h : TraceOk st.trace) :
    TraceOk (exState0 (processKanjiMetaStreaming fail dictId files st)).trace := by
  simp only [processKanjiMetaStreaming]
  split
  · rename_i stE heq
    have h2 := kanjiMetaFiles_traceOk fail dictId files st [] h
    rw [heq] at h2
    exact h2
  · rename_i st2 batch heq
    have h2 := kanjiMetaFiles_traceOk fail dictId files st [] h
    rw [heq] at h2
    split
    · simp only [insertRetried]
      by_cases hf : fail st2.nWrites = true
      · simp only [if_pos hf]
        exact traceOk_append h2 _ (Or.inl rfl)
      · simp only [if_neg hf]
        exact traceOk_append h2 _ (Or.inl rfl)
    · exact h2

theorem runProcessors_traceOk (fail : Nat → Bool) (dictId : Nat)
    (files : List (String × Option Json)) (st : RemoteState) (h : TraceOk st.trace) :
    TraceOk (runProcessors fail dictId files st).2.trace := by
  rcases h1 : processTermsStreaming fail dictId files st Caches.empty with stE | ⟨st2, c2⟩ <;>
    have k1 := processTermsStreaming_traceOk fail dictId files st Caches.empty h <;>
    rw [h1] at k1 <;> simp only [exState] at k1 <;> simp only [runProcessors, h1]
  · exact k1
  · rcases h2 : processTermMetaStreaming fail dictId files st2 with stE | st3 <;>
      have k2 := processTermMetaStreaming_traceOk fail dictId files st2 k1 <;>
      rw [h2] at k2 <;> simp only [exState0] at k2 <;> dsimp only
    · exact k2
    · rcases h3 : processTagsStreaming fail dictId files st3 with stE | st4 <;>
        have k3 := processTagsStreaming_traceOk fail dictId files st3 k2 <;>
        rw [h3] at k3 <;> simp only [exState0] at k3 <;> dsimp only
      · exact k3
      · rcases h4 : processKanjiStreaming fail dictId files st4 with stE | st5 <;>
          have k4 := processKanjiStreaming_traceOk fail dictId files st4 k3 <;>
          rw [h4] at k4 <;> simp only [exState0] at k4 <;> dsimp only
        · exact k4
        · rcases h5 : processKanjiMetaStreaming fail dictId files st5 with stE | st6 <;>
            have k5 := processKanjiMetaStreaming_traceOk fail dictId files st5 k4 <;>
            rw [h5] at k5 <;> simp only [exState0] at k5 <;> dsimp only
          · exact k5
          · exact k5

/-- All batch writes of a whole remote run are wrapped in withRetry except
writes to the kanji table. -/
theorem mainRemote_traceOk (a : Archive) (b : Bool) (db : DB) (fail : Nat → Bool) :
    TraceOk (mainRemote a b db fail).2.trace := by
  simp only [mainRemote]
  by_cases hex : dictionaryExists db a.index.title a.index.revision = true
  · rw [if_pos hex]
    intro w hw
    simp at hw
  · rw [if_neg hex]
    exact runProcessors_traceOk fail _ a.entries _ (by intro w hw; simp at hw)

/-! ## Retry semantics of withRetry -/

theorem withRetry_ok1 {ε α : Type} (fn : Nat → Except ε α) (x : α)
    (h1 : fn 1 = .ok x) : withRetry fn = (.ok x, []) := by
  simp [withRetry, MAX_RETRIES, withRetryGo, h1]

theorem withRetry_ok2 {ε α : Type} (fn : Nat → Except ε α) (e1 : ε) (x : α)
    (h1 : fn 1 = .error e1) (h2 : fn 2 = .ok x) :
    withRetry fn = (.ok x, [1000]) := by
  simp [withRetry, MAX_RETRIES, RETRY_DELAY_MS, withRetryGo, h1, h2]

theorem withRetry_ok3 {ε α : Type} (fn : Nat → Except ε α) (e1 e2 : ε) (x : α)
    (h1 : fn 1 = .error e1) (h2 : fn 2 = .error e2) (h3 : fn 3 = .ok x) :
    withRetry fn = (.ok x, [1000, 2000]) := by
  simp [withRetry, MAX_RETRIES, RETRY_DELAY_MS, withRetryGo, h1, h2, h3]

theorem withRetry_exhausted {ε α : Type} (fn : Nat → Except ε α) (e1 e2 e3 : ε)
    (h1 : fn 1 = .error e1) (h2 : fn 2 = .error e2) (h3 : fn 3 = .error e3) :
    withRetry fn = (.error (some e3), [1000, 2000]) := by
  simp [withRetry, MAX_RETRIES, RETRY_DELAY_MS, withRetryGo, h1, h2, h3]

/-- The retry helper consults the wrapped operation on at most the first
MAX_RETRIES attempts. -/
theorem withRetry_attempts {ε α : Type} (fn fn2 : Nat → Except ε α)
    (h : ∀ i, 1 ≤ i → i ≤ 3 → fn i = fn2 i) : withRetry fn = withRetry fn2 := by
  have h1 := h 1 (by omega) (by omega)
  have h2 := h 2 (by omega) (by omega)
  have h3 := h 3 (by omega) (by omega)
  simp only [withRetry, MAX_RETRIES]
  simp only [withRetryGo, h1, h2, h3]

/-- C6 counterexample: the mid-stream kanji batch flush is a bare insert
call, not wrapped in withRetry (kind raw in the write trace), and a
failure of that call neither retries nor aborts: with the first network
write forced to fail, the import of a 501-record kanji bank still
completes, silently losing the 500-row batch.  The claim asserts every
per-batch network write is wrapped in the bounded retry. -/
theorem C6_counterexample_unretried_kanji_write :
    (mainRemote kanji501Archive false emptyDB noFail).2.trace =
      [⟨"kanji", 500, .raw⟩, ⟨"kanji", 1, .retried⟩] ∧
    (mainRemote kanji501Archive false emptyDB (fun n => n == 0)).1 = .completed 1 ∧
    (mainRemote kanji501Archive false emptyDB (fun n => n == 0)).2.db.kanji.length = 1 := by
  decide

/-- C6 as amended: withRetry makes at most MAX_RETRIES (3) attempts with
delays of 1000 ms and then 2000 ms between them and rethrows the last
error on exhaustion; every batch write goes through it except the
mid-stream kanji flush, whose bare insert is the only raw write a run can
produce. -/
theorem C6_batch_write_retry_amended {ε α : Type} (fn : Nat → Except ε α)
    (a : Archive) (b : Bool) (db : DB) (fail : Nat → Bool) :
    (∀ x, fn 1 = .ok x → withRetry fn = (.ok x, [])) ∧
    (∀ e1 x, fn 1 = .error e1 → fn 2 = .ok x → withRetry fn = (.ok x, [1000])) ∧
    (∀ e1 e2 x, fn 1 = .error e1 → fn 2 = .error e2 → fn 3 = .ok x →
      withRetry fn = (.ok x, [1000, 2000])) ∧
    (∀ e1 e2 e3, fn 1 = .error e1 → fn 2 = .error e2 → fn 3 = .error e3 →
      withRetry fn = (.error (some e3), [1000, 2000])) ∧
    (∀ fn2 : Nat → Except ε α, (∀ i, 1 ≤ i → i ≤ 3 → fn i = fn2 i) →
      withRetry fn = withRetry fn2) ∧
    TraceOk (mainRemote a b db fail).2.trace :=
  ⟨fun x h1 => withRetry_ok1 fn x h1,
    fun e1 x h1 h2 => withRetry_ok2 fn e1 x h1 h2,
    fun e1 e2 x h1 h2 h3 => withRetry_ok3 fn e1 e2 x h1 h2 h3,
    fun e1 e2 e3 h1 h2 h3 => withRetry_exhausted fn e1 e2 e3 h1 h2 h3,
    fun fn2 h => withRetry_attempts fn fn2 h,
    mainRemote_traceOk a b db fail⟩

theorem C6_batch_write_retry_amended_witness :
    withRetry (fun i => if 3 ≤ i then (.ok 0 : Except String Nat) else .error "net")
      = (.ok 0, [1000, 2000]) ∧
    withRetry (fun _ => (.error "net" : Except String Nat))
      = (.error (some "net"), [1000, 2000]) ∧
    ((⟨"kanji", 500, .raw⟩ : BatchWrite).kind = .retried ∨
      (⟨"kanji", 500, .raw⟩ : BatchWrite).table = "kanji") := by
  have h := C6_batch_write_retry_amended
    (fun i => if 3 ≤ i then (.ok 0 : Except String Nat) else .error "net")
    kanji501Archive false emptyDB noFail
  have h2 := C6_batch_write_retry_amended
    (fun _ => (.error "net" : Except String Nat))
    kanji501Archive false emptyDB noFail
  refine ⟨h.2.2.1 "net" "net" 0 rfl rfl rfl,
    h2.2.2.2.1 "net" "net" "net" rfl rfl rfl, ?_⟩
  exact h.2.2.2.2.2 ⟨"kanji", 500, .raw⟩ (by decide)

/-! ## Interning invariants

The in-process caches and the dedup tables of both backends.  A cache is
coherent when every cached pair points at a row of the table holding the
cached value; the tables satisfy the uniqueness constraints of the schema
when their value (or hash) columns hold no duplicates. -/

def CacheCoherent (table : List (Nat × String)) (cache : List (String × Nat)) : Prop :=
  ∀ p ∈ cache, (p.2, p.1) ∈ table

/-- The UNIQUE constraint on the value column of the three interned string
tables. -/
def TableWF (table : List (Nat × String)) : Prop :=
  (table.map (fun r => r.2)).Nodup

theorem mapGet_mem {α : Type} [BEq α] [LawfulBEq α] {m : List (α × Nat)} {k : α} {v : Nat}
    (h : mapGet m k = some v) : (k, v) ∈ m := by
  simp only [mapGet] at h
  obtain ⟨e, he, hev⟩ := Option.map_eq_some'.mp h
  have hpred : e.1 = k := by simpa using List.find?_some he
  have hmem := List.mem_of_find?_eq_some he
  rw [← hpred, ← hev]
  simpa using hmem

theorem value_unique {table : List (Nat × String)} (hwf : TableWF table) {id1 id2 : Nat}
    {v : String} (h1 : (id1, v) ∈ table) (h2 : (id2, v) ∈ table) : id1 = id2 := by
  have := List.inj_on_of_nodup_map hwf h1 h2 rfl
  exact congrArg Prod.fst this

theorem intern_table (table : List (Nat × String)) (cache : List (String × Nat))
    (value : String) :
    (intern table cache value).1 = table ∨
    ((intern table cache value).1 = table ++ [(table.length + 1, value)] ∧
      ∀ r ∈ table, r.2 ≠ value) := by
  simp only [intern]
  cases h : mapGet cache value
  · simp only [upsertValue]
    cases h2 : table.find? (fun r => r.2 == value)
    · refine Or.inr ⟨rfl, ?_⟩
      intro r hr
      have := List.find?_eq_none.mp h2 r hr
      simpa using this
    · exact Or.inl rfl
  · exact Or.inl rfl

theorem intern_mem (table : List (Nat × String)) (cache : List (String × Nat))
    (value : String) (hcoh : CacheCoherent table cache) :
    ((intern table cache value).2.2, value) ∈ (intern table cache value).1 := by
  simp only [intern]
  cases h : mapGet cache value
  · simp only [upsertValue]
    cases h2 : table.find? (fun r => r.2 == value)
    · simp
    · rename_i r
      have hr := List.mem_of_find?_eq_some h2
      have hp : r.2 = value := by simpa using List.find?_some h2
      simp only []
      rw [← hp]
      simpa using hr
  · rename_i hit
    exact hcoh (value, hit) (mapGet_mem h)

theorem intern_coherent (table : List (Nat × String)) (cache : List (String × Nat))
    (value : String) (hcoh : CacheCoherent table cache) :
    CacheCoherent (intern table cache value).1 (intern table cache value).2.1 := by
  simp only [intern]
  cases h : mapGet cache value
  · simp only [upsertValue]
    cases h2 : table.find? (fun r => r.2 == value)
    · intro p hp
      rcases List.mem_append.mp hp with hp | hp
      · exact List.mem_append_left _ (hcoh p hp)
      · simp only [List.mem_singleton] at hp
        rw [hp]
        simp
    · rename_i r
      intro p hp
      rcases List.mem_append.mp hp with hp | hp
      · exact hcoh p hp
      · simp only [List.mem_singleton] at hp
        rw [hp]
        have hr := List.mem_of_find?_eq_some h2
        have hpv : r.2 = value := by simpa using List.find?_some h2
        simpa [← hpv] using hr
  · exact hcoh

theorem intern_wf (table : List (Nat × String)) (cache : List (String × Nat))
    (value : String) (hwf : TableWF table) : TableWF (intern table cache value).1 := by
  rcases intern_table table cache value with h | ⟨h, hfresh⟩
  · rw [h]; exact hwf
  · rw [h]
    simp only [TableWF, List.map_append, List.map_cons, List.map_nil]
    rw [List.nodup_append]
    refine ⟨hwf, by simp, ?_⟩
    intro v hv
    simp only [List.mem_map] at hv
    obtain ⟨r, hr, hrv⟩ := hv
    simp only [List.mem_singleton]
    intro hcontra
    rw [hcontra] at hrv
    exact hfresh r hr hrv

theorem intern_cache_hit (table : List (Nat × String)) (cache : List (String × Nat))
    (value : String) :
    mapGet (intern table cache value).2.1 value = some (intern table cache value).2.2 := by
  simp only [intern]
  cases h : mapGet cache value
  · simp only [upsertValue]
    have hnone : (cache.find? (fun e => e.1 == value)) = none := by
      simp only [mapGet] at h
      cases hf : cache.find? (fun e => e.1 == value)
      · rfl
      · rw [hf] at h; simp at h
    cases h2 : table.find? (fun r => r.2 == value) <;>
      simp [mapGet, List.find?_append, hnone]
  · rename_i hit
    simpa [mapGet] using h

/-- Interning the same value twice in one run returns the same identifier:
the second call hits the cache filled (or already holding the value) after
the first. -/
theorem intern_idempotent (table : List (Nat × String)) (cache : List (String × Nat))
    (value : String) :
    (intern (intern table cache value).1 (intern table cache value).2.1 value).2.2 =
      (intern table cache value).2.2 := by
  have h := intern_cache_hit table cache value
  conv_lhs => rw [intern]
  rw [h]

/-- A fresh run (empty cache) against the stored table returns the same
identifier as the run that interned the value, provided the table is
duplicate-free. -/
theorem intern_fresh_run (table : List (Nat × String)) (cache : List (String × Nat))
    (value : String) (hwf : TableWF table) (hcoh : CacheCoherent table cache) :
    (intern (intern table cache value).1 [] value).2.2 =
      (intern table cache value).2.2 := by
  have hmem := intern_mem table cache value hcoh
  have hwf1 := intern_wf table cache value hwf
  have hmem2 := intern_mem (intern table cache value).1 [] value (by intro p hp; simp at hp)
  rcases intern_table (intern table cache value).1 [] value with h | ⟨h, hfresh⟩
  · rw [h] at hmem2
    exact value_unique hwf1 hmem2 hmem
  · exact absurd rfl (hfresh _ hmem)

/-! ## Glossary interning invariants -/

def GlossCacheCoherent (rows : List GlossaryRow) (cache : List (Nat × Nat)) : Prop :=
  ∀ p ∈ cache, ∃ r ∈ rows, r.hash = p.1 ∧ r.id = p.2

/-- The UNIQUE constraint on the hash column of the glossaries table. -/
def GlossWF (rows : List GlossaryRow) : Prop :=
  (rows.map (fun r => r.hash)).Nodup

/-- Every glossary row is keyed by the digest of its own stored content
(the invariant the remote insert path maintains). -/
def HashConsistent (rows : List GlossaryRow) : Prop :=
  ∀ r ∈ rows, r.hash = sha1Nat r.content.stringify

theorem hash_unique {rows : List GlossaryRow} (hwf : GlossWF rows) {r1 r2 : GlossaryRow}
    (h1 : r1 ∈ rows) (h2 : r2 ∈ rows) (h : r1.hash = r2.hash) : r1 = r2 :=
  List.inj_on_of_nodup_map hwf h1 h2 h

/-- Two glossary rows with equal stored content are the same row: content
determines the serialization, hence the hash, and the hash column is
unique. -/
theorem content_unique {rows : List GlossaryRow} (hwf : GlossWF rows)
    (hcons : HashConsistent rows) {r1 r2 : GlossaryRow}
    (h1 : r1 ∈ rows) (h2 : r2 ∈ rows) (h : r1.content = r2.content) : r1 = r2 :=
  hash_unique hwf h1 h2 (by rw [hcons r1 h1, hcons r2 h2, h])

theorem internGlossary_table (rows : List GlossaryRow) (cache : List (Nat × Nat))
    (content : Json) :
    (internGlossary rows cache content).1 = rows ∨
    ((internGlossary rows cache content).1 = rows ++
        [⟨rows.length + 1, sha1Nat content.stringify, content⟩] ∧
      ∀ r ∈ rows, r.hash ≠ sha1Nat content.stringify) := by
  simp only [internGlossary]
  cases h : mapGet cache (sha1Nat content.stringify)
  · simp only [upsertGlossary]
    cases h2 : rows.find? (fun r => r.hash == sha1Nat content.stringify)
    · refine Or.inr ⟨rfl, ?_⟩
      intro r hr
      have := List.find?_eq_none.mp h2 r hr
      simpa using this
    · exact Or.inl rfl
  · exact Or.inl rfl

theorem internGlossary_mem (rows : List GlossaryRow) (cache : List (Nat × Nat))
    (content : Json) (hcoh : GlossCacheCoherent rows cache) :
    ∃ r ∈ (internGlossary rows cache content).1,
      r.id = (internGlossary rows cache content).2.2 ∧
      r.hash = sha1Nat content.stringify := by
  simp only [internGlossary]
  cases h : mapGet cache (sha1Nat content.stringify)
  · simp only [upsertGlossary]
    cases h2 : rows.find? (fun r => r.hash == sha1Nat content.stringify)
    · exact ⟨⟨rows.length + 1, sha1Nat content.stringify, content⟩, by simp, rfl, rfl⟩
    · rename_i r
      have hr := List.mem_of_find?_eq_some h2
      have hp : r.hash = sha1Nat content.stringify := by simpa using List.find?_some h2
      exact ⟨r, hr, rfl, hp⟩
  · rename_i hit
    obtain ⟨r, hr, hrh, hri⟩ := hcoh (sha1Nat content.stringify, hit) (mapGet_mem h)
    exact ⟨r, hr, hri, hrh⟩

theorem internGlossary_coherent (rows : List GlossaryRow) (cache : List (Nat × Nat))
    (content : Json) (hcoh : GlossCacheCoherent rows cache) :
    GlossCacheCoherent (internGlossary rows cache content).1
      (internGlossary rows cache content).2.1 := by
  simp only [internGlossary]
  cases h : mapGet cache (sha1Nat content.stringify)
  · simp only [upsertGlossary]
    cases h2 : rows.find? (fun r => r.hash == sha1Nat content.stringify)
    · intro p hp
      rcases List.mem_append.mp hp with hp | hp
      · obtain ⟨r, hr, hrh, hri⟩ := hcoh p hp
        exact ⟨r, List.mem_append_left _ hr, hrh, hri⟩
      · simp only [List.mem_singleton] at hp
        rw [hp]
        exact ⟨⟨rows.length + 1, sha1Nat content.stringify, content⟩, by simp, rfl, rfl⟩
    · rename_i r
      intro p hp
      rcases List.mem_append.mp hp with hp | hp
      · exact hcoh p hp
      · simp only [List.mem_singleton] at hp
        rw [hp]
        have hr := List.mem_of_find?_eq_some h2
        have hpv : r.hash = sha1Nat content.stringify := by simpa using List.find?_some h2
        exact ⟨r, hr, hpv, rfl⟩
  · exact hcoh

theorem internGlossary_wf (rows : List GlossaryRow) (cache : List (Nat × Nat))
    (content : Json) (hwf : GlossWF rows) :
    GlossWF (internGlossary rows cache content).1 := by
  rcases internGlossary_table rows cache content with h | ⟨h, hfresh⟩
  · rw [h]; exact hwf
  · rw [h]
    simp only [GlossWF, List.map_append, List.map_cons, List.map_nil]
    rw [List.nodup_append]
    refine ⟨hwf, by simp, ?_⟩
    intro v hv
    simp only [List.mem_map] at hv
    obtain ⟨r, hr, hrv⟩ := hv
    simp only [List.mem_singleton]
    intro hcontra
    rw [hcontra] at hrv
    exact hfresh r hr hrv

theorem internGlossary_consistent (rows : List GlossaryRow) (cache : List (Nat × Nat))
    (content : Json) (hcons : HashConsistent rows) :
    HashConsistent (internGlossary rows cache content).1 := by
  rcases internGlossary_table rows cache content with h | ⟨h, _⟩
  · rw [h]; exact hcons
  · rw [h]
    intro r hr
    rcases List.mem_append.mp hr with hr | hr
    · exact hcons r hr
    · simp only [List.mem_singleton] at hr
      rw [hr]

theorem internGlossary_cache_hit (rows : List GlossaryRow) (cache : List (Nat × Nat))
    (content : Json) :
    mapGet (internGlossary rows cache content).2.1 (sha1Nat content.stringify) =
      some (internGlossary rows cache content).2.2 := by
  simp only [internGlossary]
  cases h : mapGet cache (sha1Nat content.stringify)
  · simp only [upsertGlossary]
    have hnone : (cache.find? (fun e => e.1 == sha1Nat content.stringify)) = none := by
      simp only [mapGet] at h
      cases hf : cache.find? (fun e => e.1 == sha1Nat content.stringify)
      · rfl
      · rw [hf] at h; simp at h
    cases h2 : rows.find? (fun r => r.hash == sha1Nat content.stringify) <;>
      simp [mapGet, List.find?_append, hnone]
  · rename_i hit
    simpa [mapGet] using h

theorem internGlossary_idempotent (rows : List GlossaryRow) (cache : List (Nat × Nat))
    (content : Json) :
    (internGlossary (internGlossary rows cache content).1
      (internGlossary rows cache content).2.1 content).2.2 =
      (internGlossary rows cache content).2.2 := by
  have h := internGlossary_cache_hit rows cache content
  conv_lhs => rw [internGlossary]
  rw [h]

theorem glossary_id_unique {rows : List GlossaryRow} (hwf : GlossWF rows)
    {r1 r2 : GlossaryRow} (h1 : r1 ∈ rows) (h2 : r2 ∈ rows)
    (h : r1.hash = r2.hash) : r1.id = r2.id :=
  congrArg GlossaryRow.id (hash_unique hwf h1 h2 h)

theorem internGlossary_fresh_run (rows : List GlossaryRow) (cache : List (Nat × Nat))
    (content : Json) (hwf : GlossWF rows) (hcoh : GlossCacheCoherent rows cache) :
    (internGlossary (internGlossary rows cache content).1 [] content).2.2 =
      (internGlossary rows cache content).2.2 := by
  obtain ⟨r, hr, hri, hrh⟩ := internGlossary_mem rows cache content hcoh
  have hwf1 := internGlossary_wf rows cache content hwf
  obtain ⟨r2, hr2, hri2, hrh2⟩ := internGlossary_mem (internGlossary rows cache content).1
    [] content (by intro p hp; simp at hp)
  rcases internGlossary_table (internGlossary rows cache content).1 [] content
    with h | ⟨h, hfresh⟩
  · rw [h] at hr2
    rw [← hri, ← hri2]
    exact glossary_id_unique hwf1 hr2 hr (hrh2.trans hrh.symm)
  · exact absurd hrh (hfresh r hr)

/-- C4: interning is deduplicating and stable.  Under the schema UNIQUE
constraints (duplicate-free value column for the string tables, duplicate-
free hash column with hash-consistent rows for the glossaries table) and
cache coherence: the string tables never hold two rows with the same
value and the glossaries table never holds two rows with the same content;
the identifier returned by intern is the id of a stored row holding the
value (resp. a row keyed by the digest of the payload's serialization);
interning the same value again within the run (warm cache) or in a fresh
run after restart (empty cache) returns the same identifier. -/
theorem C4_interning_dedup_and_stability
    (table : List (Nat × String)) (cache : List (String × Nat)) (value : String)
    (rows : List GlossaryRow) (gcache : List (Nat × Nat)) (content : Json)
    (hwf : TableWF table) (hcoh : CacheCoherent table cache)
    (hgwf : GlossWF rows) (hgcoh : GlossCacheCoherent rows gcache)
    (hcons : HashConsistent rows) :
    (∀ r1 ∈ (intern table cache value).1, ∀ r2 ∈ (intern table cache value).1,
        r1.2 = r2.2 → r1 = r2) ∧
    ((intern table cache value).2.2, value) ∈ (intern table cache value).1 ∧
    (intern (intern table cache value).1 (intern table cache value).2.1 value).2.2 =
      (intern table cache value).2.2 ∧
    (intern (intern table cache value).1 [] value).2.2 =
      (intern table cache value).2.2 ∧
    (∀ r1 ∈ (internGlossary rows gcache content).1,
        ∀ r2 ∈ (internGlossary rows gcache content).1, r1.content = r2.content → r1 = r2) ∧
    (∃ r ∈ (internGlossary rows gcache content).1,
        r.id = (internGlossary rows gcache content).2.2 ∧
        r.hash = sha1Nat content.stringify) ∧
    (internGlossary (internGlossary rows gcache content).1
        (internGlossary rows gcache content).2.1 content).2.2 =
      (internGlossary rows gcache content).2.2 ∧
    (internGlossary (internGlossary rows gcache content).1 [] content).2.2 =
      (internGlossary rows gcache content).2.2 := by
  have hwf1 := intern_wf table cache value hwf
  have hgwf1 := internGlossary_wf rows gcache content hgwf
  have hgcons1 := internGlossary_consistent rows gcache content hcons
  refine ⟨?_, intern_mem table cache value hcoh,
    intern_idempotent table cache value, intern_fresh_run table cache value hwf hcoh,
    ?_, internGlossary_mem rows gcache content hgcoh,
    internGlossary_idempotent rows gcache content,
    internGlossary_fresh_run rows gcache content hgwf hgcoh⟩
  · intro r1 h1 r2 h2 h
    exact List.inj_on_of_nodup_map hwf1 h1 h2 h
  · intro r1 h1 r2 h2 h
    exact content_unique hgwf1 hgcons1 h1 h2 h

theorem C4_interning_dedup_and_stability_witness :
    (((intern [] [] "noun").2.2, "noun") ∈ (intern [] [] "noun").1 ∧
      (intern (intern [] [] "noun").1 [] "noun").2.2 = (intern [] [] "noun").2.2) ∧
    ((∃ r ∈ (internGlossary [] [] sampleGlossary).1,
        r.id = (internGlossary [] [] sampleGlossary).2.2 ∧
        r.hash = sha1Nat sampleGlossary.stringify) ∧
      (internGlossary (internGlossary [] [] sampleGlossary).1 [] sampleGlossary).2.2 =
        (internGlossary [] [] sampleGlossary).2.2) := by
  have h := C4_interning_dedup_and_stability [] [] "noun" [] [] sampleGlossary
    (by simp [TableWF]) (by simp [CacheCoherent]) (by simp [GlossWF])
    (by simp [GlossCacheCoherent]) (by simp [HashConsistent])
  exact ⟨⟨h.2.1, h.2.2.2.1⟩, ⟨h.2.2.2.2.2.1, h.2.2.2.2.2.2.2⟩⟩

/-! ## Blank-field interning lemmas (the ternary of both term loops) -/

theorem internIfPresent_blank (table : List (Nat × String)) (cache : List (String × Nat))
    (o : Option String) (h : o = none ∨ o = some "") :
    internIfPresent table cache o = (table, cache, none) := by
  rcases h with h | h <;> subst h <;> simp [internIfPresent]

theorem internIfPresent_nonblank (table : List (Nat × String)) (cache : List (String × Nat))
    (t : String) (h : (t == "") = false) :
    internIfPresent table cache (some t) =
      ((intern table cache t).1, (intern table cache t).2.1,
        some (intern table cache t).2.2) := by
  simp only [internIfPresent, h, Bool.false_eq_true, if_false]

theorem internIfPresent_no_empty (table : List (Nat × String)) (cache : List (String × Nat))
    (o : Option String) (hne : ∀ r ∈ table, r.2 ≠ "") :
    ∀ r ∈ (internIfPresent table cache o).1, r.2 ≠ "" := by
  cases o with
  | none => simpa [internIfPresent] using hne
  | some t =>
      by_cases ht : (t == "") = true
      · rw [internIfPresent_blank table cache (some t) (Or.inr (by simpa using ht))]
        exact hne
      · rw [internIfPresent_nonblank table cache t (by simpa using ht)]
        rcases intern_table table cache t with htab | ⟨htab, _⟩
        · rw [htab]; exact hne
        · rw [htab]
          intro r hr
          rcases List.mem_append.mp hr with hr | hr
          · exact hne r hr
          · simp only [List.mem_singleton] at hr
            rw [hr]
            simpa using ht

theorem localIntern_mem (table : List (Nat × String)) (cache : List (String × Nat))
    (value : String) (hcoh : CacheCoherent table cache) :
    ((localIntern table cache value).2.2, value) ∈ (localIntern table cache value).1 := by
  cases h : mapGet cache value with
  | some hit =>
      simp only [localIntern, h]
      exact hcoh (value, hit) (mapGet_mem h)
  | none =>
      simp only [localIntern, h]
      by_cases ha : table.any (fun r => r.2 == value) = true
      · rw [if_pos ha]
        have hsome : (table.find? (fun r => r.2 == value)).isSome := by
          rw [List.find?_isSome]
          obtain ⟨r, hr, hrv⟩ := List.any_eq_true.mp ha
          exact ⟨r, hr, hrv⟩
        obtain ⟨r', hfind⟩ := Option.isSome_iff_exists.mp hsome
        have hr'mem := List.mem_of_find?_eq_some hfind
        have hr'v : r'.2 = value := by simpa using List.find?_some hfind
        rw [hfind]
        simp only [Option.map_some', Option.getD_some]
        rw [← hr'v]
        simpa using hr'mem
      · rw [if_neg ha]
        have hfindn : table.find? (fun r => r.2 == value) = none := by
          rw [List.find?_eq_none]
          intro x hx
          by_contra hcon
          exact ha (List.any_eq_true.mpr ⟨x, hx, by simpa using hcon⟩)
        rw [List.find?_append, hfindn]
        simp

theorem localIntern_table (table : List (Nat × String)) (cache : List (String × Nat))
    (value : String) :
    (localIntern table cache value).1 = table ∨
    (localIntern table cache value).1 = table ++ [(table.length + 1, value)] := by
  cases h : mapGet cache value with
  | some hit => left; simp [localIntern, h]
  | none =>
      by_cases ha : table.any (fun r => r.2 == value) = true
      · left; simp [localIntern, h, ha]
      · right; simp [localIntern, h, ha]

theorem localInternIfPresent_blank (table : List (Nat × String))
    (cache : List (String × Nat)) (o : Option String) (h : o = none ∨ o = some "") :
    localInternIfPresent table cache o = (table, cache, none) := by
  rcases h with h | h <;> subst h <;> simp [localInternIfPresent]

theorem localInternIfPresent_nonblank (table : List (Nat × String))
    (cache : List (String × Nat)) (t : String) (h : (t == "") = false) :
    localInternIfPresent table cache (some t) =
      ((localIntern table cache t).1, (localIntern table cache t).2.1,
        some (localIntern table cache t).2.2) := by
  simp only [localInternIfPresent, h, Bool.false_eq_true, if_false]

theorem localInternIfPresent_no_empty (table : List (Nat × String))
    (cache : List (String × Nat)) (o : Option String)
    (hne : ∀ r ∈ table, r.2 ≠ "") :
    ∀ r ∈ (localInternIfPresent table cache o).1, r.2 ≠ "" := by
  cases o with
  | none => simpa [localInternIfPresent] using hne
  | some t =>
      by_cases ht : (t == "") = true
      · rw [localInternIfPresent_blank table cache (some t) (Or.inr (by simpa using ht))]
        exact hne
      · rw [localInternIfPresent_nonblank table cache t (by simpa using ht)]
        rcases localIntern_table table cache t with htab | htab
        · rw [htab]; exact hne
        · rw [htab]
          intro r hr
          rcases List.mem_append.mp hr with hr | hr
          · exact hne r hr
          · simp only [List.mem_singleton] at hr
            rw [hr]
            simpa using ht

/-- Tag-set columns of a row built by the remote term loop: blank fields
(undefined, null, empty or whitespace-only after trim) store a null
reference, non-blank fields store the id of a stored row holding the
trimmed string, and no empty string is ever added to a tag-set table. -/
theorem buildTermRow_tags (dictId : Nat) (ix : InternTables) (c : Caches) (xs : List Json)
    (ix' : InternTables) (c' : Caches) (row : TermRow)
    (hbuild : buildTermRow dictId ix c (Json.arr xs) = ((ix', c'), Except.ok row)) :
    (∀ o, jsTrimField (jsField xs 2) = .ok o → (o = none ∨ o = some "") →
      row.defTagsId = none) ∧
    (∀ s, jsTrimField (jsField xs 2) = .ok (some s) → (s == "") = false →
      CacheCoherent ix.defTagSets c.defTags →
      ∃ id, row.defTagsId = some id ∧ (id, s) ∈ ix'.defTagSets) ∧
    (∀ o, jsTrimField (jsField xs 3) = .ok o → (o = none ∨ o = some "") →
      row.rulesId = none) ∧
    (∀ s, jsTrimField (jsField xs 3) = .ok (some s) → (s == "") = false →
      CacheCoherent ix.ruleSets c.rules →
      ∃ id, row.rulesId = some id ∧ (id, s) ∈ ix'.ruleSets) ∧
    (∀ o, jsTrimField (jsField xs 7) = .ok o → (o = none ∨ o = some "") →
      row.termTagsId = none) ∧
    (∀ s, jsTrimField (jsField xs 7) = .ok (some s) → (s == "") = false →
      CacheCoherent ix.termTagSets c.termTags →
      ∃ id, row.termTagsId = some id ∧ (id, s) ∈ ix'.termTagSets) ∧
    ((∀ r ∈ ix.defTagSets, r.2 ≠ "") → ∀ r ∈ ix'.defTagSets, r.2 ≠ "") ∧
    ((∀ r ∈ ix.ruleSets, r.2 ≠ "") → ∀ r ∈ ix'.ruleSets, r.2 ≠ "") ∧
    ((∀ r ∈ ix.termTagSets, r.2 ≠ "") → ∀ r ∈ ix'.termTagSets, r.2 ≠ "") := by
  simp only [buildTermRow, jsIter] at hbuild
  rcases h5 : jsField xs 5 with _ | g
  · rw [h5] at hbuild; simp at hbuild
  rw [h5] at hbuild
  dsimp only at hbuild
  rcases h2 : jsTrimField (jsField xs 2) with e2 | o2
  · rw [h2] at hbuild; simp at hbuild
  rw [h2] at hbuild
  dsimp only at hbuild
  rcases h3 : jsTrimField (jsField xs 3) with e3 | o3
  · rw [h3] at hbuild; simp at hbuild
  rw [h3] at hbuild
  dsimp only at hbuild
  rcases h7 : jsTrimField (jsField xs 7) with e7 | o7
  · rw [h7] at hbuild; simp at hbuild
  rw [h7] at hbuild
  dsimp only at hbuild
  simp only [Prod.mk.injEq, Except.ok.injEq] at hbuild
  obtain ⟨⟨hix, hc⟩, hrow⟩ := hbuild
  subst hix
  subst hc
  subst hrow
  refine ⟨?_, ?_, ?_, ?_, ?_, ?_, ?_, ?_, ?_⟩
  · intro o ho hblank
    injection ho with ho
    subst ho
    simp [internIfPresent_blank ix.defTagSets c.defTags o2 hblank]
  · intro s hs hne hcoh
    injection hs with hs
    subst hs
    refine ⟨(intern ix.defTagSets c.defTags s).2.2,
      by simp [internIfPresent_nonblank ix.defTagSets c.defTags s hne], ?_⟩
    simpa [internIfPresent_nonblank ix.defTagSets c.defTags s hne] using
      intern_mem ix.defTagSets c.defTags s hcoh
  · intro o ho hblank
    injection ho with ho
    subst ho
    simp [internIfPresent_blank ix.ruleSets c.rules o3 hblank]
  · intro s hs hne hcoh
    injection hs with hs
    subst hs
    refine ⟨(intern ix.ruleSets c.rules s).2.2,
      by simp [internIfPresent_nonblank ix.ruleSets c.rules s hne], ?_⟩
    simpa [internIfPresent_nonblank ix.ruleSets c.rules s hne] using
      intern_mem ix.ruleSets c.rules s hcoh
  · intro o ho hblank
    injection ho with ho
    subst ho
    simp [internIfPresent_blank ix.termTagSets c.termTags o7 hblank]
  · intro s hs hne hcoh
    injection hs with hs
    subst hs
    refine ⟨(intern ix.termTagSets c.termTags s).2.2,
      by simp [internIfPresent_nonblank ix.termTagSets c.termTags s hne], ?_⟩
    simpa [internIfPresent_nonblank ix.termTagSets c.termTags s hne] using
      intern_mem ix.termTagSets c.termTags s hcoh
  · intro hne
    simpa using internIfPresent_no_empty ix.defTagSets c.defTags o2 hne
  · intro hne
    simpa using internIfPresent_no_empty ix.ruleSets c.rules o3 hne
  · intro hne
    simpa using internIfPresent_no_empty ix.termTagSets c.termTags o7 hne

/-- Tag-set columns of a row built by the sqlite term loop: same blank-
maps-to-null ternary as on the remote backend, through the local
INSERT OR IGNORE intern. -/
theorem localBuildTermRow_tags (dictId : Nat) (ix : InternTables) (c : Caches)
    (xs : List Json) (ix' : InternTables) (c' : Caches) (row : TermRow)
    (hbuild : localBuildTermRow dictId ix c (Json.arr xs) = ((ix', c'), Except.ok row)) :
    (∀ o, jsTrimField (jsField xs 2) = .ok o → (o = none ∨ o = some "") →
      row.defTagsId = none) ∧
    (∀ s, jsTrimField (jsField xs 2) = .ok (some s) → (s == "") = false →
      CacheCoherent ix.defTagSets c.defTags →
      ∃ id, row.defTagsId = some id ∧ (id, s) ∈ ix'.defTagSets) ∧
    (∀ o, jsTrimField (jsField xs 3) = .ok o → (o = none ∨ o = some "") →
      row.rulesId = none) ∧
    (∀ s, jsTrimField (jsField xs 3) = .ok (some s) → (s == "") = false →
      CacheCoherent ix.ruleSets c.rules →
      ∃ id, row.rulesId = some id ∧ (id, s) ∈ ix'.ruleSets) ∧
    (∀ o, jsTrimField (jsField xs 7) = .ok o → (o = none ∨ o = some "") →
      row.termTagsId = none) ∧
    (∀ s, jsTrimField (jsField xs 7) = .ok (some s) → (s == "") = false →
      CacheCoherent ix.termTagSets c.termTags →
      ∃ id, row.termTagsId = some id ∧ (id, s) ∈ ix'.termTagSets) ∧
    ((∀ r ∈ ix.defTagSets, r.2 ≠ "") → ∀ r ∈ ix'.defTagSets, r.2 ≠ "") ∧
    ((∀ r ∈ ix.ruleSets, r.2 ≠ "") → ∀ r ∈ ix'.ruleSets, r.2 ≠ "") ∧
    ((∀ r ∈ ix.termTagSets, r.2 ≠ "") → ∀ r ∈ ix'.termTagSets, r.2 ≠ "") := by
  simp only [localBuildTermRow, jsIter] at hbuild
  rcases h5 : jsField xs 5 with _ | g
  · rw [h5] at hbuild; simp at hbuild
  rw [h5] at hbuild
  dsimp only at hbuild
  rcases h2 : jsTrimField (jsField xs 2) with e2 | o2
  · rw [h2] at hbuild; simp at hbuild
  rw [h2] at hbuild
  dsimp only at hbuild
  rcases h3 : jsTrimField (jsField xs 3) with e3 | o3
  · rw [h3] at hbuild; simp at hbuild
  rw [h3] at hbuild
  dsimp only at hbuild
  rcases h7 : jsTrimField (jsField xs 7) with e7 | o7
  · rw [h7] at hbuild; simp at hbuild
  rw [h7] at hbuild
  dsimp only at hbuild
  by_cases hb : (bindReq (jsField xs 0) && bindReq (jsField xs 1) &&
      bindReq (jsField xs 4) && bindOpt (jsNullCoalesce (jsField xs 6))) = true
  swap
  · rw [if_neg hb] at hbuild; simp at hbuild
  rw [if_pos hb] at hbuild
  simp only [Prod.mk.injEq, Except.ok.injEq] at hbuild
  obtain ⟨⟨hix, hc⟩, hrow⟩ := hbuild
  subst hix
  subst hc
  subst hrow
  refine ⟨?_, ?_, ?_, ?_, ?_, ?_, ?_, ?_, ?_⟩
  · intro o ho hblank
    injection ho with ho
    subst ho
    simp [localInternIfPresent_blank ix.defTagSets c.defTags o2 hblank]
  · intro s hs hne hcoh
    injection hs with hs
    subst hs
    refine ⟨(localIntern ix.defTagSets c.defTags s).2.2,
      by simp [localInternIfPresent_nonblank ix.defTagSets c.defTags s hne], ?_⟩
    simpa [localInternIfPresent_nonblank ix.defTagSets c.defTags s hne] using
      localIntern_mem ix.defTagSets c.defTags s hcoh
  · intro o ho hblank
    injection ho with ho
    subst ho
    simp [localInternIfPresent_blank ix.ruleSets c.rules o3 hblank]
  · intro s hs hne hcoh
    injection hs with hs
    subst hs
    refine ⟨(localIntern ix.ruleSets c.rules s).2.2,
      by simp [localInternIfPresent_nonblank ix.ruleSets c.rules s hne], ?_⟩
    simpa [localInternIfPresent_nonblank ix.ruleSets c.rules s hne] using
      localIntern_mem ix.ruleSets c.rules s hcoh
  · intro o ho hblank
    injection ho with ho
    subst ho
    simp [localInternIfPresent_blank ix.termTagSets c.termTags o7 hblank]
  · intro s hs hne hcoh
    injection hs with hs
    subst hs
    refine ⟨(localIntern ix.termTagSets c.termTags s).2.2,
      by simp [localInternIfPresent_nonblank ix.termTagSets c.termTags s hne], ?_⟩
    simpa [localInternIfPresent_nonblank ix.termTagSets c.termTags s hne] using
      localIntern_mem ix.termTagSets c.termTags s hcoh
  · intro hne
    simpa using localInternIfPresent_no_empty ix.defTagSets c.defTags o2 hne
  · intro hne
    simpa using localInternIfPresent_no_empty ix.ruleSets c.rules o3 hne
  · intro hne
    simpa using localInternIfPresent_no_empty ix.termTagSets c.termTags o7 hne

def exTermRow : Except String TermRow → TermRow
  | .ok row => row
  | .error _ => ⟨0, none, none, none, none, none, 0, none, none⟩

/-- A term record with a whitespace-only definitionTags field, a padded
rules field and a null termTags field. -/
def blankTagXs : List Json :=
  [Json.str "word", Json.str "yomi", Json.str "  ", Json.str " vt ",
   Json.num 0, Json.arr [Json.str "g"], Json.null, Json.null]

/-- C7: on both backends, a term record whose definitionTags, rules or
termTags field trims to nothing (undefined, null, empty or whitespace-only)
yields a Term row with a null reference in the corresponding interned-set
column, a non-blank field yields a reference to a stored row holding the
trimmed string, and no empty-string row is ever added to a tag-set
table. -/
theorem C7_blank_tag_fields_null
    (dictId : Nat) (ix : InternTables) (c : Caches) (xs : List Json)
    (ix' : InternTables) (c' : Caches) (row : TermRow)
    (dictL : Nat) (jx : InternTables) (d : Caches) (ys : List Json)
    (jx' : InternTables) (d' : Caches) (rowL : TermRow)
    (hbR : buildTermRow dictId ix c (Json.arr xs) = ((ix', c'), Except.ok row))
    (hbL : localBuildTermRow dictL jx d (Json.arr ys) = ((jx', d'), Except.ok rowL)) :
    ((∀ o, jsTrimField (jsField xs 2) = .ok o → (o = none ∨ o = some "") →
        row.defTagsId = none) ∧
      (∀ s, jsTrimField (jsField xs 2) = .ok (some s) → (s == "") = false →
        CacheCoherent ix.defTagSets c.defTags →
        ∃ id, row.defTagsId = some id ∧ (id, s) ∈ ix'.defTagSets) ∧
      (∀ o, jsTrimField (jsField xs 3) = .ok o → (o = none ∨ o = some "") →
        row.rulesId = none) ∧
      (∀ s, jsTrimField (jsField xs 3) = .ok (some s) → (s == "") = false →
        CacheCoherent ix.ruleSets c.rules →
        ∃ id, row.rulesId = some id ∧ (id, s) ∈ ix'.ruleSets) ∧
      (∀ o, jsTrimField (jsField xs 7) = .ok o → (o = none ∨ o = some "") →
        row.termTagsId = none) ∧
      (∀ s, jsTrimField (jsField xs 7) = .ok (some s) → (s == "") = false →
        CacheCoherent ix.termTagSets c.termTags →
        ∃ id, row.termTagsId = some id ∧ (id, s) ∈ ix'.termTagSets) ∧
      ((∀ r ∈ ix.defTagSets, r.2 ≠ "") → ∀ r ∈ ix'.defTagSets, r.2 ≠ "") ∧
      ((∀ r ∈ ix.ruleSets, r.2 ≠ "") → ∀ r ∈ ix'.ruleSets, r.2 ≠ "") ∧
      ((∀ r ∈ ix.termTagSets, r.2 ≠ "") → ∀ r ∈ ix'.termTagSets, r.2 ≠ "")) ∧
    ((∀ o, jsTrimField (jsField ys 2) = .ok o → (o = none ∨ o = some "") →
        rowL.defTagsId = none) ∧
      (∀ s, jsTrimField (jsField ys 2) = .ok (some s) → (s == "") = false →
        CacheCoherent jx.defTagSets d.defTags →
        ∃ id, rowL.defTagsId = some id ∧ (id, s) ∈ jx'.defTagSets) ∧
      (∀ o, jsTrimField (jsField ys 3) = .ok o → (o = none ∨ o = some "") →
        rowL.rulesId = none) ∧
      (∀ s, jsTrimField (jsField ys 3) = .ok (some s) → (s == "") = false →
        CacheCoherent jx.ruleSets d.rules →
        ∃ id, rowL.rulesId = some id ∧ (id, s) ∈ jx'.ruleSets) ∧
      (∀ o, jsTrimField (jsField ys 7) = .ok o → (o = none ∨ o = some "") →
        rowL.termTagsId = none) ∧
      (∀ s, jsTrimField (jsField ys 7) = .ok (some s) → (s == "") = false →
        CacheCoherent jx.termTagSets d.termTags →
        ∃ id, rowL.termTagsId = some id ∧ (id, s) ∈ jx'.termTagSets) ∧
      ((∀ r ∈ jx.defTagSets, r.2 ≠ "") → ∀ r ∈ jx'.defTagSets, r.2 ≠ "") ∧
      ((∀ r ∈ jx.ruleSets, r.2 ≠ "") → ∀ r ∈ jx'.ruleSets, r.2 ≠ "") ∧
      ((∀ r ∈ jx.termTagSets, r.2 ≠ "") → ∀ r ∈ jx'.termTagSets, r.2 ≠ "")) :=
  ⟨buildTermRow_tags dictId ix c xs ix' c' row hbR,
   localBuildTermRow_tags dictL jx d ys jx' d' rowL hbL⟩

theorem C7_blank_tag_fields_null_witness :
    ((exTermRow (buildTermRow 1 ⟨[], [], [], []⟩ Caches.empty
        (Json.arr blankTagXs)).2).defTagsId = none ∧
      (∃ id, (exTermRow (buildTermRow 1 ⟨[], [], [], []⟩ Caches.empty
          (Json.arr blankTagXs)).2).rulesId = some id ∧
        (id, "vt") ∈ (buildTermRow 1 ⟨[], [], [], []⟩ Caches.empty
          (Json.arr blankTagXs)).1.1.ruleSets) ∧
      (exTermRow (buildTermRow 1 ⟨[], [], [], []⟩ Caches.empty
        (Json.arr blankTagXs)).2).termTagsId = none) ∧
    ((exTermRow (localBuildTermRow 1 ⟨[], [], [], []⟩ Caches.empty
        (Json.arr blankTagXs)).2).defTagsId = none ∧
      (∃ id, (exTermRow (localBuildTermRow 1 ⟨[], [], [], []⟩ Caches.empty
          (Json.arr blankTagXs)).2).rulesId = some id ∧
        (id, "vt") ∈ (localBuildTermRow 1 ⟨[], [], [], []⟩ Caches.empty
          (Json.arr blankTagXs)).1.1.ruleSets) ∧
      (exTermRow (localBuildTermRow 1 ⟨[], [], [], []⟩ Caches.empty
        (Json.arr blankTagXs)).2).termTagsId = none) := by
  have h := C7_blank_tag_fields_null 1 ⟨[], [], [], []⟩ Caches.empty blankTagXs
    (buildTermRow 1 ⟨[], [], [], []⟩ Caches.empty (Json.arr blankTagXs)).1.1
    (buildTermRow 1 ⟨[], [], [], []⟩ Caches.empty (Json.arr blankTagXs)).1.2
    (exTermRow (buildTermRow 1 ⟨[], [], [], []⟩ Caches.empty (Json.arr blankTagXs)).2)
    1 ⟨[], [], [], []⟩ Caches.empty blankTagXs
    (localBuildTermRow 1 ⟨[], [], [], []⟩ Caches.empty (Json.arr blankTagXs)).1.1
    (localBuildTermRow 1 ⟨[], [], [], []⟩ Caches.empty (Json.arr blankTagXs)).1.2
    (exTermRow (localBuildTermRow 1 ⟨[], [], [], []⟩ Caches.empty (Json.arr blankTagXs)).2)
    (by rfl) (by rfl)
  refine ⟨⟨h.1.1 (some "") (by decide) (Or.inr rfl),
      h.1.2.2.2.1 "vt" (by decide) (by decide)
        (by intro p hp; simp [Caches.empty] at hp),
      h.1.2.2.2.2.1 none (by decide) (Or.inl rfl)⟩,
    ⟨h.2.1 (some "") (by decide) (Or.inr rfl),
      h.2.2.2.2.1 "vt" (by decide) (by decide)
        (by intro p hp; simp [Caches.empty] at hp),
      h.2.2.2.2.2.1 none (by decide) (Or.inl rfl)⟩⟩

/-- C10: glossary interning is keyed by the exact JSON serialization (its
content digest): interning a payload that serializes identically to an
already-interned one returns that payload's identifier in any state; from
a fresh table, a second payload receives the first payload's identifier if
and only if the two serializations are byte-identical (the only-if
direction holding up to injectivity of the content digest on the two
serializations, which the hinj hypothesis makes explicit); and no
canonicalization is applied before hashing — a payload whose object keys
are permuted serializes differently and is stored as a second, distinct
Glossary row. -/
theorem C10_glossary_keyed_by_serialization
    (rows : List GlossaryRow) (cache : List (Nat × Nat)) (g1 g2 : Json)
    (hinj : sha1Nat g1.stringify = sha1Nat g2.stringify →
      g1.stringify = g2.stringify) :
    (g1.stringify = g2.stringify →
      (internGlossary (internGlossary rows cache g1).1
          (internGlossary rows cache g1).2.1 g2).2.2 =
        (internGlossary rows cache g1).2.2) ∧
    ((internGlossary (internGlossary [] [] g1).1
          (internGlossary [] [] g1).2.1 g2).2.2 =
        (internGlossary [] [] g1).2.2 ↔ g1.stringify = g2.stringify) ∧
    (internGlossary
        (internGlossary [] []
          (Json.arr [Json.obj [("a", Json.num 1), ("b", Json.num 2)]])).1
        (internGlossary [] []
          (Json.arr [Json.obj [("a", Json.num 1), ("b", Json.num 2)]])).2.1
        (Json.arr [Json.obj [("b", Json.num 2), ("a", Json.num 1)]])).1.length = 2 := by
  have hfwd : ∀ (rs : List GlossaryRow) (ca : List (Nat × Nat)),
      g1.stringify = g2.stringify →
      (internGlossary (internGlossary rs ca g1).1
          (internGlossary rs ca g1).2.1 g2).2.2 =
        (internGlossary rs ca g1).2.2 := by
    intro rs ca h
    have hhit := internGlossary_cache_hit rs ca g1
    conv_lhs => rw [internGlossary]
    rw [show sha1Nat g2.stringify = sha1Nat g1.stringify from by rw [h]]
    rw [hhit]
  refine ⟨hfwd rows cache, ⟨?_, hfwd [] []⟩, by decide⟩
  intro hid
  by_cases hh : sha1Nat g1.stringify = sha1Nat g2.stringify
  · exact hinj hh
  · exfalso
    have h1 : internGlossary [] [] g1 =
        ([⟨1, sha1Nat g1.stringify, g1⟩], [(sha1Nat g1.stringify, 1)], 1) := by
      simp [internGlossary, upsertGlossary, mapGet]
    rw [h1] at hid
    have hne : (sha1Nat g1.stringify == sha1Nat g2.stringify) = false := by
      simpa using hh
    have h2 : mapGet [(sha1Nat g1.stringify, 1)] (sha1Nat g2.stringify) = none := by
      simp [mapGet, List.find?, hne]
    have h3 : ([(⟨1, sha1Nat g1.stringify, g1⟩ : GlossaryRow)].find?
        (fun r => r.hash == sha1Nat g2.stringify)) = none := by
      simp [List.find?, hne]
    rw [internGlossary] at hid
    rw [h2] at hid
    simp [upsertGlossary, h3] at hid

theorem C10_glossary_keyed_by_serialization_witness :
    ((internGlossary
        (internGlossary [] []
          (Json.arr [Json.obj [("a", Json.num 1), ("b", Json.num 2)]])).1
        (internGlossary [] []
          (Json.arr [Json.obj [("a", Json.num 1), ("b", Json.num 2)]])).2.1
        (Json.arr [Json.obj [("b", Json.num 2), ("a", Json.num 1)]])).2.2 =
      (internGlossary [] []
        (Json.arr [Json.obj [("a", Json.num 1), ("b", Json.num 2)]])).2.2 ↔
      (Json.arr [Json.obj [("a", Json.num 1), ("b", Json.num 2)]]).stringify =
        (Json.arr [Json.obj [("b", Json.num 2), ("a", Json.num 1)]]).stringify) ∧
    (internGlossary
        (internGlossary [] []
          (Json.arr [Json.obj [("a", Json.num 1), ("b", Json.num 2)]])).1
        (internGlossary [] []
          (Json.arr [Json.obj [("a", Json.num 1), ("b", Json.num 2)]])).2.1
        (Json.arr [Json.obj [("b", Json.num 2), ("a", Json.num 1)]])).1.length = 2 := by
  have h := C10_glossary_keyed_by_serialization [] []
    (Json.arr [Json.obj [("a", Json.num 1), ("b", Json.num 2)]])
    (Json.arr [Json.obj [("b", Json.num 2), ("a", Json.num 1)]])
    (by decide)
  exact ⟨h.2.1, h.2.2⟩


end Cjdic
